import Mathlib

/-!
Verification of the incremental layout-query engine of the `flea` repository
(`src/main.rs`, with the earlier iterations `src/tree.rs` and `src/layout.rs`
for the superseded `Padded` variants).

The engine is shallowly embedded: the mutable interior of `WidgetTree`
(revision counter, signal store, the four per-kind query caches, the query
stack and the dependency graph) becomes an explicit state record `St` threaded
through a fuel-bounded evaluator.  Rust `f64` coordinates are modelled as
canonical dyadic rationals `Qd` (an `f64` value is a dyadic rational, and the
only arithmetic the engine performs — addition, subtraction, halving, max/min
— is exact on dyadic rationals, so the model is exact wherever the `f64`
computation does not overflow or lose precision), Rust panics
(`unwrap` on `None`, the `panic!` in `invalidate`) become the `Err.crashed`
outcome, and exhausting the fuel models non-termination / unbounded recursion
(`Err.outOfFuel` for every fuel).  Two ghost fields (`reads`, `execs`) record
which values a query read and which query definitions were executed; they are
written exactly where the corresponding event happens in the source and are
read by no operational code.
-/

/-- A dyadic rational `num / 2 ^ exp`, the exact value set of IEEE-754
doubles (up to range and precision, which the verified scenarios stay well
inside of).  Values are kept canonical — `num` odd or `exp = 0` — so that
structural equality coincides with numeric equality, matching `f64`
comparison. -/
structure Qd where
  num : Int
  exp : Nat
deriving DecidableEq

/-- Strip common factors of two to reach the canonical form. -/
def Qd.normAux : Int → Nat → Qd
  | n, 0 => ⟨n, 0⟩
  | n, e + 1 => if n % 2 = 0 then Qd.normAux (n / 2) e else ⟨n, e + 1⟩

/-- Build the canonical dyadic rational `n / 2 ^ e`. -/
def Qd.mk2 (n : Int) (e : Nat) : Qd := Qd.normAux n e

/-- Exact addition (`f64 +` is exact on the magnitudes involved). -/
def Qd.add (a b : Qd) : Qd :=
  let e := Nat.max a.exp b.exp
  Qd.mk2 (a.num * 2 ^ (e - a.exp) + b.num * 2 ^ (e - b.exp)) e

/-- Exact subtraction. -/
def Qd.sub (a b : Qd) : Qd :=
  let e := Nat.max a.exp b.exp
  Qd.mk2 (a.num * 2 ^ (e - a.exp) - b.num * 2 ^ (e - b.exp)) e

/-- Exact halving — `x / 2.0` is exact on `f64`, and division by two is the
only division the source performs. -/
def Qd.half (a : Qd) : Qd := Qd.mk2 a.num (a.exp + 1)

/-- Numeric order (cross-multiplied by the positive denominators). -/
def Qd.ble (a b : Qd) : Bool := a.num * 2 ^ b.exp ≤ b.num * 2 ^ a.exp

/-- `f64::max`. -/
def Qd.maxv (a b : Qd) : Qd := if Qd.ble a b then b else a

/-- `f64::min`. -/
def Qd.minv (a b : Qd) : Qd := if Qd.ble a b then a else b

instance : Add Qd := ⟨Qd.add⟩

instance : Sub Qd := ⟨Qd.sub⟩

instance (n : Nat) : OfNat Qd n := ⟨⟨Int.ofNat n, 0⟩⟩

/-- `vello::kurbo::Size` as used by the widget tree (two `f64` fields). -/
structure SizeV where
  width : Qd
  height : Qd
deriving DecidableEq

/-- `vello::kurbo::Point` (two `f64` fields). -/
structure PointV where
  x : Qd
  y : Qd
deriving DecidableEq

/-- `Constraints` from `src/main.rs` (a min and a max size). -/
structure Constraints where
  min : SizeV
  max : SizeV
deriving DecidableEq

/-- `Constraints::clamp_size` from `src/main.rs`:
`s.width.max(self.min.width).min(self.max.width)` on each axis. -/
def Constraints.clampSize (c : Constraints) (s : SizeV) : SizeV :=
  { width := Qd.minv (Qd.maxv s.width c.min.width) c.max.width
    height := Qd.minv (Qd.maxv s.height c.min.height) c.max.height }

/-- The layout strategies implemented in `src/main.rs`: `RowLayouter`,
`Padded` (margins), `CenteredLayouter`, `DynamicallySizedBoxLayouter`
(bound to a `Signal<Size>`), `SizedBoxLayouter`.  The extra `selfLoop`
constructor models the spec's hand-constructed test strategy whose
`size_for_self` for node `N` re-enters `evaluate(NodeSize(N))`; the
`Layouter` trait in the source is open, so such an implementation is a
legitimate client of the engine. -/
inductive Layouter where
  | row
  | padded (top bottom left right : Qd)
  | centered
  | dynBox (sid : Nat)
  | sizedBox (size : SizeV)
  | selfLoop
deriving DecidableEq

/-- `QueryDependency` from `src/main.rs`: the identity of a query (or of a
signal read) as stored on the query stack and in the dependency graph. -/
inductive QueryDep where
  | nodePosition (n : Nat)
  | nodeConstraints (n : Nat)
  | nodeSize (n : Nat)
  | nthChild (parent childN : Nat)
  | signal (sid : Nat)
deriving DecidableEq

/-- A cache entry: `CachedQueryOutput` combined with its `Revision` stamp
(`last_changed`, `valid_through`) from `src/main.rs`. -/
structure Entry (α : Type) where
  value : α
  lastChanged : Nat
  validThrough : Nat
deriving DecidableEq

/-- Failure outcomes of an engine operation: `crashed` models a Rust panic
(an `unwrap` on `None`, or the explicit `panic!` in `invalidate`);
`outOfFuel` means the recursion budget was exhausted, so an evaluation that
returns `outOfFuel` for every fuel models non-termination. -/
inductive Err where
  | outOfFuel
  | crashed
deriving DecidableEq

/-- Result of an engine operation. -/
inductive Res (α : Type) where
  | ok (v : α)
  | fail (e : Err)
deriving DecidableEq

/-- The immutable part of a constructed `WidgetTree`: the petgraph node data
(per-node layouter), the child lists in neighbour-iteration order, the first
incoming neighbour of each node, the root, and the ambient window size
(`WidgetTree::size`). -/
structure Ctx where
  childrenOf : Nat → List Nat
  parentOf : Nat → Option Nat
  layouterOf : Nat → Layouter
  root : Nat
  windowSize : SizeV

/-- The mutable interior of `WidgetTree`, threaded explicitly: revision
counter, signal store, the four query caches, the query stack, the dependency
graph (edge list, newest first, matching petgraph's iteration order, plus the
set of vertices of `dependency_node_map`), the debug `cache_ratio` pair, and
two ghost fields: `reads` logs every value read performed while some query is
on the stack (reader, dependency, served-from-valid-cache flag) and `execs`
logs every query definition that was executed. -/
structure St where
  revision : Nat
  signals : List SizeV
  sizeCache : List (Nat × Entry SizeV)
  posCache : List (Nat × Entry PointV)
  consCache : List (Nat × Entry Constraints)
  nthCache : List ((Nat × Nat) × Entry Nat)
  queryStack : List QueryDep
  depEdges : List (QueryDep × QueryDep)
  depNodes : List QueryDep
  ratioHit : Nat
  ratioTotal : Nat
  reads : List (QueryDep × QueryDep × Bool)
  execs : List QueryDep
deriving DecidableEq

/-- Association-list lookup (the first binding wins, so consing a new binding
models `HashMap::insert` overwriting the old one). -/
def alook {κ α : Type} [DecidableEq κ] : List (κ × α) → κ → Option α
  | [], _ => none
  | (k, v) :: rest, k' => if k = k' then some v else alook rest k'

/-- Lookup of a cache entry that is still valid: the entry exists and its
`valid_through` stamp is at least the current revision (the hit test of
`query_node_size` and its three siblings). -/
def validLook {κ : Type} [DecidableEq κ] {α : Type}
    (cache : List (κ × Entry α)) (k : κ) (rev : Nat) : Option (Entry α) :=
  match alook cache k with
  | some e => if rev ≤ e.validThrough then some e else none
  | none => none

/-- `cache_ratio.1 += 1` (total-lookup counter, bumped at every query entry). -/
def bumpTotal (st : St) : St := { st with ratioTotal := st.ratioTotal + 1 }

/-- `cache_ratio.0 += 1` (hit counter). -/
def bumpHit (st : St) : St := { st with ratioHit := st.ratioHit + 1 }

/-- Ghost: log a read of `dep` on behalf of the query currently on top of the
stack (no log entry is made for top-level reads, matching the fact that
`track_dependency` ignores them); the flag records whether the read was served
from a valid cache entry. -/
def recordRead (st : St) (dep : QueryDep) (hitFlag : Bool) : St :=
  match st.queryStack.head? with
  | none => st
  | some q => { st with reads := (q, dep, hitFlag) :: st.reads }

/-- `dependency_node_map.entry(d).or_insert_with(...)`: make sure `d` is a
vertex of the dependency graph. -/
def ensureDepNode (st : St) (d : QueryDep) : St :=
  if d ∈ st.depNodes then st else { st with depNodes := d :: st.depNodes }

/-- `WidgetTree::track_dependency`: if a query is executing, add a dependency
edge from it (the top of the query stack) to `dep`, creating the two vertices
if needed; a no-op when the stack is empty. -/
def trackDependency (st : St) (dep : QueryDep) : St :=
  match st.queryStack.head? with
  | none => st
  | some q =>
    let st1 := ensureDepNode (ensureDepNode st dep) q
    { st1 with depEdges := (q, dep) :: st1.depEdges }

/-- `query_stack.push`. -/
def pushQuery (st : St) (q : QueryDep) : St :=
  { st with queryStack := q :: st.queryStack }

/-- `query_stack.pop` (the element pushed by this same call is on top). -/
def popQuery (st : St) : St := { st with queryStack := st.queryStack.tail }

/-- Ghost: log that `q`'s definition is about to be executed. -/
def recordExec (st : St) (q : QueryDep) : St := { st with execs := q :: st.execs }

/-- The cache-miss prologue shared by the four `query_*` methods:
`track_dependency(q)` (recording the caller as consumer) followed by pushing
`q` on the query stack; the two ghost logs are written alongside. -/
def enterMiss (st : St) (q : QueryDep) : St :=
  recordExec (pushQuery (trackDependency (recordRead st q false) q) q) q

/-- The cache-hit epilogue: bump the hit counter (the cached value is
returned unchanged); the ghost read log is written alongside. -/
def hitReturn (st : St) (q : QueryDep) : St := recordRead (bumpHit st) q true

/-- Insert (overwrite) a node-size cache entry. -/
def insertSizeC (st : St) (n : Nat) (e : Entry SizeV) : St :=
  { st with sizeCache := (n, e) :: st.sizeCache }

/-- Insert (overwrite) a node-position cache entry. -/
def insertPosC (st : St) (n : Nat) (e : Entry PointV) : St :=
  { st with posCache := (n, e) :: st.posCache }

/-- Insert (overwrite) a node-constraints cache entry. -/
def insertConsC (st : St) (n : Nat) (e : Entry Constraints) : St :=
  { st with consCache := (n, e) :: st.consCache }

/-- Insert (overwrite) an nth-child cache entry. -/
def insertNthC (st : St) (p k : Nat) (e : Entry Nat) : St :=
  { st with nthCache := ((p, k), e) :: st.nthCache }

/-- The cache-store epilogue of `query_node_size`: pop the stack, then store
the output with `current_revision()` (both stamps equal to the revision). -/
def finishSize (st : St) (n : Nat) (v : SizeV) : Res (SizeV × St) :=
  let stP := popQuery st
  .ok (v, insertSizeC stP n ⟨v, stP.revision, stP.revision⟩)

/-- The cache-store epilogue of `query_node_position`. -/
def finishPos (st : St) (n : Nat) (v : PointV) : Res (PointV × St) :=
  let stP := popQuery st
  .ok (v, insertPosC stP n ⟨v, stP.revision, stP.revision⟩)

/-- The cache-store epilogue of `query_node_constraints`. -/
def finishCons (st : St) (n : Nat) (v : Constraints) : Res (Constraints × St) :=
  let stP := popQuery st
  .ok (v, insertConsC stP n ⟨v, stP.revision, stP.revision⟩)

/-- The cache-store epilogue of `query_nth_child`. -/
def finishNth (st : St) (p k m : Nat) : Res (Nat × St) :=
  let stP := popQuery st
  .ok (m, insertNthC stP p k ⟨m, stP.revision, stP.revision⟩)

/-- `WidgetTree::get_signal`: read the signal store (a missing id models the
`unwrap` panic), then `track_dependency(Signal(sid))`. -/
def getSignal (st : St) (sid : Nat) : Res (SizeV × St) :=
  match st.signals[sid]? with
  | none => .fail .crashed
  | some v => .ok (v, trackDependency (recordRead st (.signal sid) false) (.signal sid))

/-- `Padded::constraints_for_child` from `src/main.rs`: `min` is passed
through unchanged, `max` is shrunk by the margins on each axis. -/
def paddedConstraintsForChild (t b l r : Qd) (selfC : Constraints) : Constraints :=
  { min := selfC.min
    max := { width := selfC.max.width - l - r, height := selfC.max.height - t - b } }

/-- `LayoutConstraint` from `src/layout.rs` (`u32` fields, modelled as `Nat`;
the theorems about it carry explicit no-overflow/no-underflow bounds where
they matter). -/
structure LayoutConstraint where
  minWidth : Nat
  minHeight : Nat
  maxWidth : Nat
  maxHeight : Nat
deriving DecidableEq

/-- `Padded::constrain_child` from `src/tree.rs`, textually identical to
`PaddedLayouter::constrain_child` from `src/layout.rs`: min grown by the
margins, max shrunk by the margins (`Nat` subtraction truncates where a Rust
debug build would panic on `u32` underflow). -/
def treePaddedConstrainChild (l r t b : Nat) (c : LayoutConstraint) : LayoutConstraint :=
  { minWidth := c.minWidth + l + r
    minHeight := c.minHeight + t + b
    maxWidth := c.maxWidth - l - r
    maxHeight := c.maxHeight - t - b }

mutual

/-- `WidgetTree::query_node_size` together with `NodeSize::execute` and the
`size_for_self` of every layouter variant.  One unit of fuel is consumed per
nested `query_*` entry, so fuel bounds the recursion depth. -/
def evalSize (c : Ctx) : Nat → St → Nat → Res (SizeV × St)
  | 0, _, _ => .fail .outOfFuel
  | fuel + 1, st0, n =>
    let st := bumpTotal st0
    match validLook st.sizeCache n st.revision with
    | some e => .ok (e.value, hitReturn st (.nodeSize n))
    | none =>
      let st1 := enterMiss st (.nodeSize n)
      match evalCons c fuel st1 n with
      | .fail e => .fail e
      | .ok (cons, st2) =>
        match c.layouterOf n with
        | .row =>
          match (c.childrenOf n).getLast? with
          | none => .fail .crashed
          | some lastC =>
            match evalPos c fuel st2 lastC with
            | .fail e => .fail e
            | .ok (p, st3) =>
              match evalSize c fuel st3 lastC with
              | .fail e => .fail e
              | .ok (s, st4) => finishSize st4 n ⟨p.x + s.width, cons.max.height⟩
        | .padded t b l r =>
          match evalNth c fuel st2 n 0 with
          | .fail e => .fail e
          | .ok (fc, st3) =>
            match evalSize c fuel st3 fc with
            | .fail e => .fail e
            | .ok (s, st4) => finishSize st4 n ⟨s.width + l + r, s.height + t + b⟩
        | .centered =>
          match c.childrenOf n with
          | [] => finishSize st2 n cons.max
          | c0 :: _ =>
            match evalSize c fuel st2 c0 with
            | .fail e => .fail e
            | .ok (s, st3) => finishSize st3 n (cons.clampSize s)
        | .dynBox sid =>
          match getSignal st2 sid with
          | .fail e => .fail e
          | .ok (v, st3) => finishSize st3 n v
        | .sizedBox s => finishSize st2 n s
        | .selfLoop =>
          match evalSize c fuel st2 n with
          | .fail e => .fail e
          | .ok (s, st3) => finishSize st3 n s
termination_by structural fuel => fuel

/-- `WidgetTree::query_node_position` together with `NodePosition::execute`
and the `position_for_child` of every layouter variant. -/
def evalPos (c : Ctx) : Nat → St → Nat → Res (PointV × St)
  | 0, _, _ => .fail .outOfFuel
  | fuel + 1, st0, n =>
    let st := bumpTotal st0
    match validLook st.posCache n st.revision with
    | some e => .ok (e.value, hitReturn st (.nodePosition n))
    | none =>
      let st1 := enterMiss st (.nodePosition n)
      if n = c.root then finishPos st1 n ⟨0, 0⟩
      else
        match c.parentOf n with
        | none => .fail .crashed
        | some p =>
          match (c.childrenOf p).findIdx? (fun m => m == n) with
          | none => .fail .crashed
          | some k =>
            match c.layouterOf p with
            | .row =>
              if k = 0 then finishPos st1 n ⟨0, 0⟩
              else
                match evalNth c fuel st1 p (k - 1) with
                | .fail e => .fail e
                | .ok (prev, st2) =>
                  match evalSize c fuel st2 prev with
                  | .fail e => .fail e
                  | .ok (ps, st3) =>
                    match evalPos c fuel st3 prev with
                    | .fail e => .fail e
                    | .ok (pp, st4) => finishPos st4 n ⟨pp.x + ps.width, pp.y⟩
            | .padded t _ l _ => finishPos st1 n ⟨l, t⟩
            | .centered =>
              match evalSize c fuel st1 p with
              | .fail e => .fail e
              | .ok (ss, st2) =>
                match evalNth c fuel st2 p k with
                | .fail e => .fail e
                | .ok (ch, st3) =>
                  match evalSize c fuel st3 ch with
                  | .fail e => .fail e
                  | .ok (cs, st4) =>
                    finishPos st4 n ⟨Qd.half (ss.width - cs.width), Qd.half (ss.height - cs.height)⟩
            | .dynBox _ => finishPos st1 n ⟨0, 0⟩
            | .sizedBox _ => finishPos st1 n ⟨0, 0⟩
            | .selfLoop => finishPos st1 n ⟨0, 0⟩
termination_by structural fuel => fuel

/-- `WidgetTree::query_node_constraints` together with
`NodeConstraints::execute` and the `constraints_for_child` of every layouter
variant.  The root gets `min = 0, max = window size`. -/
def evalCons (c : Ctx) : Nat → St → Nat → Res (Constraints × St)
  | 0, _, _ => .fail .outOfFuel
  | fuel + 1, st0, n =>
    let st := bumpTotal st0
    match validLook st.consCache n st.revision with
    | some e => .ok (e.value, hitReturn st (.nodeConstraints n))
    | none =>
      let st1 := enterMiss st (.nodeConstraints n)
      if n = c.root then finishCons st1 n ⟨⟨0, 0⟩, c.windowSize⟩
      else
        match c.parentOf n with
        | none => .fail .crashed
        | some p =>
          match evalCons c fuel st1 p with
          | .fail e => .fail e
          | .ok (pc, st2) =>
            match (c.childrenOf p).findIdx? (fun m => m == n) with
            | none => .fail .crashed
            | some k =>
              match c.layouterOf p with
              | .row =>
                if k = 0 then finishCons st2 n pc
                else
                  match evalNth c fuel st2 p (k - 1) with
                  | .fail e => .fail e
                  | .ok (prev, st3) =>
                    match evalSize c fuel st3 prev with
                    | .fail e => .fail e
                    | .ok (ps, st4) =>
                      match evalPos c fuel st4 prev with
                      | .fail e => .fail e
                      | .ok (pp, st5) =>
                        finishCons st5 n
                          ⟨pc.min, ⟨pc.max.width - pp.x - ps.width, pc.max.height⟩⟩
              | .padded t b l r => finishCons st2 n (paddedConstraintsForChild t b l r pc)
              | .centered => finishCons st2 n pc
              | .dynBox _ => finishCons st2 n pc
              | .sizedBox _ => finishCons st2 n pc
              | .selfLoop => finishCons st2 n pc
termination_by structural fuel => fuel

/-- `WidgetTree::query_nth_child` together with `NthChild::execute`
(`.nth(child_n).unwrap()` on the child iterator). -/
def evalNth (c : Ctx) : Nat → St → Nat → Nat → Res (Nat × St)
  | 0, _, _, _ => .fail .outOfFuel
  | fuel + 1, st0, p, k =>
    let _ := fuel
    let st := bumpTotal st0
    match validLook st.nthCache (p, k) st.revision with
    | some e => .ok (e.value, hitReturn st (.nthChild p k))
    | none =>
      let st1 := enterMiss st (.nthChild p k)
      match (c.childrenOf p)[k]? with
      | none => .fail .crashed
      | some m => finishNth st1 p k m

end

/-!
A cache-free reference evaluator.  It performs exactly the value computation
of the four `execute` functions and of the layouter methods, reading nothing
but the tree topology and the signal values; it is the mathematical meaning
against which the caching engine is compared.  Fuel again bounds recursion
depth.
-/

mutual

/-- Cache-free recomputation of `NodeSize`. -/
def psize (c : Ctx) (sig : List SizeV) : Nat → Nat → Res SizeV
  | 0, _ => .fail .outOfFuel
  | fuel + 1, n =>
    match pcons c sig fuel n with
    | .fail e => .fail e
    | .ok cons =>
      match c.layouterOf n with
      | .row =>
        match (c.childrenOf n).getLast? with
        | none => .fail .crashed
        | some lastC =>
          match ppos c sig fuel lastC with
          | .fail e => .fail e
          | .ok p =>
            match psize c sig fuel lastC with
            | .fail e => .fail e
            | .ok s => .ok ⟨p.x + s.width, cons.max.height⟩
      | .padded t b l r =>
        match pnth c fuel n 0 with
        | .fail e => .fail e
        | .ok fc =>
          match psize c sig fuel fc with
          | .fail e => .fail e
          | .ok s => .ok ⟨s.width + l + r, s.height + t + b⟩
      | .centered =>
        match c.childrenOf n with
        | [] => .ok cons.max
        | c0 :: _ =>
          match psize c sig fuel c0 with
          | .fail e => .fail e
          | .ok s => .ok (cons.clampSize s)
      | .dynBox sid =>
        match sig[sid]? with
        | none => .fail .crashed
        | some v => .ok v
      | .sizedBox s => .ok s
      | .selfLoop => psize c sig fuel n
termination_by structural fuel => fuel

/-- Cache-free recomputation of `NodePosition`. -/
def ppos (c : Ctx) (sig : List SizeV) : Nat → Nat → Res PointV
  | 0, _ => .fail .outOfFuel
  | fuel + 1, n =>
    if n = c.root then .ok ⟨0, 0⟩
    else
      match c.parentOf n with
      | none => .fail .crashed
      | some p =>
        match (c.childrenOf p).findIdx? (fun m => m == n) with
        | none => .fail .crashed
        | some k =>
          match c.layouterOf p with
          | .row =>
            if k = 0 then .ok ⟨0, 0⟩
            else
              match pnth c fuel p (k - 1) with
              | .fail e => .fail e
              | .ok prev =>
                match psize c sig fuel prev with
                | .fail e => .fail e
                | .ok ps =>
                  match ppos c sig fuel prev with
                  | .fail e => .fail e
                  | .ok pp => .ok ⟨pp.x + ps.width, pp.y⟩
          | .padded t _ l _ => .ok ⟨l, t⟩
          | .centered =>
            match psize c sig fuel p with
            | .fail e => .fail e
            | .ok ss =>
              match pnth c fuel p k with
              | .fail e => .fail e
              | .ok ch =>
                match psize c sig fuel ch with
                | .fail e => .fail e
                | .ok cs => .ok ⟨Qd.half (ss.width - cs.width), Qd.half (ss.height - cs.height)⟩
          | .dynBox _ => .ok ⟨0, 0⟩
          | .sizedBox _ => .ok ⟨0, 0⟩
          | .selfLoop => .ok ⟨0, 0⟩
termination_by structural fuel => fuel

/-- Cache-free recomputation of `NodeConstraints`. -/
def pcons (c : Ctx) (sig : List SizeV) : Nat → Nat → Res Constraints
  | 0, _ => .fail .outOfFuel
  | fuel + 1, n =>
    if n = c.root then .ok ⟨⟨0, 0⟩, c.windowSize⟩
    else
      match c.parentOf n with
      | none => .fail .crashed
      | some p =>
        match pcons c sig fuel p with
        | .fail e => .fail e
        | .ok pc =>
          match (c.childrenOf p).findIdx? (fun m => m == n) with
          | none => .fail .crashed
          | some k =>
            match c.layouterOf p with
            | .row =>
              if k = 0 then .ok pc
              else
                match pnth c fuel p (k - 1) with
                | .fail e => .fail e
                | .ok prev =>
                  match psize c sig fuel prev with
                  | .fail e => .fail e
                  | .ok ps =>
                    match ppos c sig fuel prev with
                    | .fail e => .fail e
                    | .ok pp => .ok ⟨pc.min, ⟨pc.max.width - pp.x - ps.width, pc.max.height⟩⟩
            | .padded t b l r => .ok (paddedConstraintsForChild t b l r pc)
            | .centered => .ok pc
            | .dynBox _ => .ok pc
            | .sizedBox _ => .ok pc
            | .selfLoop => .ok pc
termination_by structural fuel => fuel

/-- Cache-free recomputation of `NthChild`. -/
def pnth (c : Ctx) : Nat → Nat → Nat → Res Nat
  | 0, _, _ => .fail .outOfFuel
  | fuel + 1, p, k =>
    let _ := fuel
    match (c.childrenOf p)[k]? with
    | none => .fail .crashed
    | some m => .ok m

end

/-!
The invalidator (`WidgetTree::invalidate`) and the externally-visible `set`
operation.  `invalidate` is recursive through the dependency graph, which may
hold cycles in principle, so it is written as a fuel-bounded worklist loop
that processes queries in exactly the order of the source's depth-first
recursion (a query's freshly collected `to_invalidate` list is prepended to
the remaining work).
-/

/-- The loop body of `invalidate` for one consumer `p` of the invalidated
dependency: fetch the old cache entry (`unwrap`), recompute through the
ordinary (caching) query entry point, compare by value; on equality re-insert
the entry with the old `last_changed` and the current revision as
`valid_through` and do not flag `p`; on inequality flag `p` for recursive
invalidation (its cache was already updated by the query call itself).
A `Signal` consumer hits the `panic!` in the source. -/
def processOneParent (c : Ctx) (fuel : Nat) (st : St) (p : QueryDep) :
    Res (St × Option QueryDep) :=
  match p with
  | .nodePosition np =>
    match alook st.posCache np with
    | none => .fail .crashed
    | some old =>
      match evalPos c fuel st np with
      | .fail e => .fail e
      | .ok (nv, st1) =>
        if nv = old.value then
          .ok (insertPosC st1 np ⟨nv, old.lastChanged, st1.revision⟩, none)
        else .ok (st1, some p)
  | .nodeConstraints np =>
    match alook st.consCache np with
    | none => .fail .crashed
    | some old =>
      match evalCons c fuel st np with
      | .fail e => .fail e
      | .ok (nv, st1) =>
        if nv = old.value then
          .ok (insertConsC st1 np ⟨nv, old.lastChanged, st1.revision⟩, none)
        else .ok (st1, some p)
  | .nodeSize np =>
    match alook st.sizeCache np with
    | none => .fail .crashed
    | some old =>
      match evalSize c fuel st np with
      | .fail e => .fail e
      | .ok (nv, st1) =>
        if nv = old.value then
          .ok (insertSizeC st1 np ⟨nv, old.lastChanged, st1.revision⟩, none)
        else .ok (st1, some p)
  | .nthChild np nk =>
    match alook st.nthCache (np, nk) with
    | none => .fail .crashed
    | some old =>
      match evalNth c fuel st np nk with
      | .fail e => .fail e
      | .ok (nv, st1) =>
        if nv = old.value then
          .ok (insertNthC st1 np nk ⟨nv, old.lastChanged, st1.revision⟩, none)
        else .ok (st1, some p)
  | .signal _ => .fail .crashed

/-- Process a snapshot of the consumers of the invalidated dependency in
order, accumulating the flagged ones (`to_invalidate`) in loop order. -/
def processParents (c : Ctx) (fuel : Nat) : St → List QueryDep →
    Res (St × List QueryDep)
  | st, [] => .ok (st, [])
  | st, p :: rest =>
    match processOneParent c fuel st p with
    | .fail e => .fail e
    | .ok (st1, flag) =>
      match processParents c fuel st1 rest with
      | .fail e => .fail e
      | .ok (st2, toInv) => .ok (st2, flag.toList ++ toInv)

/-- The consumers (direct dependents) of `q`: sources of the edges into `q`,
in the graph's newest-first iteration order. -/
def parentsOf (st : St) (q : QueryDep) : List QueryDep :=
  (st.depEdges.filter (fun e => e.2 = q)).map Prod.fst

/-- `WidgetTree::invalidate`, as a worklist: the head query must be a vertex
of the dependency graph (`unwrap` on `dependency_node_map`), its consumers
are snapshotted and processed, and the flagged ones are invalidated
depth-first before the rest of the worklist. -/
def invalidateGo (c : Ctx) : Nat → St → List QueryDep → Res St
  | _, st, [] => .ok st
  | 0, _, _ :: _ => .fail .outOfFuel
  | fuel + 1, st, q :: rest =>
    if q ∈ st.depNodes then
      match processParents c fuel st (parentsOf st q) with
      | .fail e => .fail e
      | .ok (st1, toInv) => invalidateGo c fuel st1 (toInv ++ rest)
    else .fail .crashed

/-- The externally-visible `set` of a signal, as performed by the source's
input handler and §4.2 of the spec: increment the revision, overwrite the
stored value, and run `invalidate(Signal(sid))`.  A missing signal id models
the `unwrap` panic of the handler. -/
def setSignal (c : Ctx) (fuel : Nat) (st : St) (sid : Nat) (v : SizeV) : Res St :=
  if sid < st.signals.length then
    let st1 : St := { st with revision := st.revision + 1, signals := st.signals.set sid v }
    invalidateGo c fuel st1 [.signal sid]
  else .fail .crashed

/-- The sum of the values the engine can hand to a consumer. -/
inductive Val where
  | vSz (s : SizeV)
  | vPt (p : PointV)
  | vCs (cs : Constraints)
  | vId (n : Nat)
deriving DecidableEq

/-- `evaluate(q)` for an arbitrary query identity: dispatch to the four
`query_*` entry points (a `Signal` read goes through `get_signal`). -/
def evalAny (c : Ctx) (fuel : Nat) (st : St) : QueryDep → Res (Val × St)
  | .nodeSize n =>
    match evalSize c fuel st n with
    | .fail e => .fail e
    | .ok (v, st') => .ok (.vSz v, st')
  | .nodePosition n =>
    match evalPos c fuel st n with
    | .fail e => .fail e
    | .ok (v, st') => .ok (.vPt v, st')
  | .nodeConstraints n =>
    match evalCons c fuel st n with
    | .fail e => .fail e
    | .ok (v, st') => .ok (.vCs v, st')
  | .nthChild p k =>
    match evalNth c fuel st p k with
    | .fail e => .fail e
    | .ok (v, st') => .ok (.vId v, st')
  | .signal sid =>
    match getSignal st sid with
    | .fail e => .fail e
    | .ok (v, st') => .ok (.vSz v, st')

/-- Cache-free recomputation for an arbitrary query identity. -/
def pany (c : Ctx) (sig : List SizeV) (fuel : Nat) : QueryDep → Res Val
  | .nodeSize n =>
    match psize c sig fuel n with
    | .fail e => .fail e
    | .ok v => .ok (.vSz v)
  | .nodePosition n =>
    match ppos c sig fuel n with
    | .fail e => .fail e
    | .ok v => .ok (.vPt v)
  | .nodeConstraints n =>
    match pcons c sig fuel n with
    | .fail e => .fail e
    | .ok v => .ok (.vCs v)
  | .nthChild p k =>
    match pnth c fuel p k with
    | .fail e => .fail e
    | .ok v => .ok (.vId v)
  | .signal sid =>
    match sig[sid]? with
    | none => .fail .crashed
    | some v => .ok (.vSz v)

/-- The state of a freshly built `WidgetTree::new()` holding the given
signals: revision 0, every cache and the dependency graph empty,
`cache_ratio = (0, 1)`. -/
def initSt (sig : List SizeV) : St :=
  { revision := 0, signals := sig, sizeCache := [], posCache := [], consCache := [],
    nthCache := [], queryStack := [], depEdges := [], depNodes := [],
    ratioHit := 0, ratioTotal := 1, reads := [], execs := [] }

/-- An externally driven step: either a signal `set` or an `evaluate` whose
value goes to the (out-of-scope) drawing pass. -/
inductive Op where
  | setS (sid : Nat) (v : SizeV)
  | evalQ (q : QueryDep)
deriving DecidableEq

/-- Run a sequence of external operations against the engine. -/
def runOps (c : Ctx) (fuel : Nat) : St → List Op → Res St
  | st, [] => .ok st
  | st, .setS sid v :: rest =>
    match setSignal c fuel st sid v with
    | .fail e => .fail e
    | .ok st' => runOps c fuel st' rest
  | st, .evalQ q :: rest =>
    match evalAny c fuel st q with
    | .fail e => .fail e
    | .ok (_, st') => runOps c fuel st' rest

/-- The node-size value a from-scratch (cache-free) recomputation produces. -/
def PSize (c : Ctx) (sig : List SizeV) (n : Nat) (v : SizeV) : Prop :=
  ∃ fuel, psize c sig fuel n = .ok v

/-- The node-position value a from-scratch recomputation produces. -/
def PPos (c : Ctx) (sig : List SizeV) (n : Nat) (v : PointV) : Prop :=
  ∃ fuel, ppos c sig fuel n = .ok v

/-- The node-constraints value a from-scratch recomputation produces. -/
def PCons (c : Ctx) (sig : List SizeV) (n : Nat) (v : Constraints) : Prop :=
  ∃ fuel, pcons c sig fuel n = .ok v

/-- The nth-child value a from-scratch recomputation produces. -/
def PNth (c : Ctx) (p k v : Nat) : Prop :=
  ∃ fuel, pnth c fuel p k = .ok v

/-- Cache soundness: every cache entry that is still valid at the current
revision holds exactly the value a from-scratch recomputation against the
current tree topology and signal values would produce. -/
def CacheInv (c : Ctx) (st : St) : Prop :=
  (∀ n e, alook st.sizeCache n = some e → st.revision ≤ e.validThrough →
    PSize c st.signals n e.value) ∧
  (∀ n e, alook st.posCache n = some e → st.revision ≤ e.validThrough →
    PPos c st.signals n e.value) ∧
  (∀ n e, alook st.consCache n = some e → st.revision ≤ e.validThrough →
    PCons c st.signals n e.value) ∧
  (∀ p k e, alook st.nthCache (p, k) = some e → st.revision ≤ e.validThrough →
    PNth c p k e.value)


/-- Stamp sanity: no cache entry's `valid_through` exceeds the current
revision (entries are stamped with `current_revision()` when stored and when
revalidated, and the revision only grows). -/
def StampInv (st : St) : Prop :=
  (∀ n e, alook st.sizeCache n = some e → e.validThrough ≤ st.revision) ∧
  (∀ n e, alook st.posCache n = some e → e.validThrough ≤ st.revision) ∧
  (∀ n e, alook st.consCache n = some e → e.validThrough ≤ st.revision) ∧
  (∀ p k e, alook st.nthCache (p, k) = some e → e.validThrough ≤ st.revision)

/-- Soundness of the recorded dependency graph with respect to the ghost
read log: every read that was not served from a valid cache entry — in
particular every signal read — has a matching consumer-to-dependency edge in
the graph, and signal reads are never cache hits (signals have no cache). -/
def EdgeInv (st : St) : Prop :=
  (∀ q d, (q, d, false) ∈ st.reads → (q, d) ∈ st.depEdges) ∧
  (∀ q sid b, (q, QueryDep.signal sid, b) ∈ st.reads → b = false)

/-- The revision increment the application performs on every redraw and on
every input event before touching anything else (`*widget_tree.revision.borrow_mut() += 1`). -/
def bumpRevision (st : St) : St := { st with revision := st.revision + 1 }

/-- Project the returned value out of an engine result. -/
def fstVal {α : Type} : Res (α × St) → Option α
  | .ok (v, _) => some v
  | .fail _ => none

/-- The Row scenario of §8 of the spec: node 0 is a `RowLayouter` root whose
children 1, 2, 3 are fixed boxes of sizes 100×50, 150×80, 200×30, under an
ambient window `w × h`. -/
def rowCtx (w h : Qd) : Ctx :=
  { childrenOf := fun n => if n = 0 then [1, 2, 3] else []
    parentOf := fun n => if n = 0 then none else if n ≤ 3 then some 0 else none
    layouterOf := fun n =>
      if n = 0 then .row
      else if n = 1 then .sizedBox ⟨100, 50⟩
      else if n = 2 then .sizedBox ⟨150, 80⟩
      else .sizedBox ⟨200, 30⟩
    root := 0
    windowSize := ⟨w, h⟩ }

/-- A single root node whose hand-constructed strategy re-enters
`evaluate(NodeSize)` of the node itself (the spec's cycle-rejection test). -/
def cycCtx : Ctx :=
  { childrenOf := fun _ => [], parentOf := fun _ => none
    layouterOf := fun _ => .selfLoop, root := 0, windowSize := ⟨100, 100⟩ }

/-- A single `DynamicallySizedBoxLayouter` root bound to signal 0. -/
def dynCtx : Ctx :=
  { childrenOf := fun _ => [], parentOf := fun _ => none
    layouterOf := fun _ => .dynBox 0, root := 0, windowSize := ⟨800, 800⟩ }

/-- The from-scratch value of an arbitrary query identity. -/
def PAny (c : Ctx) (sig : List SizeV) (q : QueryDep) (v : Val) : Prop :=
  ∃ fuel, pany c sig fuel q = .ok v

/-- The operation sequence of the C1 scenario: evaluate the dynamic box's
size (filling the caches and the dependency graph), then `set(signal 0)` to a
new value. -/
def c1Ops : List Op := [.evalQ (.nodeSize 0), .setS 0 ⟨110, 100⟩]

/-- The engine state after running `c1Ops` from a fresh tree. -/
def c1StF : St :=
  match runOps dynCtx 9 (initSt [⟨100, 100⟩]) c1Ops with
  | .ok s => s
  | .fail _ => initSt []

/-- `c1StF` after one more `evaluate(NodeSize 0)` (a cache hit). -/
def c1StE : St :=
  match evalAny dynCtx 9 c1StF (.nodeSize 0) with
  | .ok (_, s) => s
  | .fail _ => initSt []

/-- A `Padded` root (uniform margin 15) over a 100×100 fixed box, under a
200×100 window. -/
def padCtx : Ctx :=
  { childrenOf := fun n => if n = 0 then [1] else []
    parentOf := fun n => if n = 1 then some 0 else none
    layouterOf := fun n => if n = 0 then .padded 15 15 15 15 else .sizedBox ⟨100, 100⟩
    root := 0
    windowSize := ⟨200, 100⟩ }

/-- A childless `CenteredLayouter` root under a 300×200 window. -/
def centCtx0 : Ctx :=
  { childrenOf := fun _ => [], parentOf := fun _ => none
    layouterOf := fun _ => .centered, root := 0, windowSize := ⟨300, 200⟩ }

/-- A `CenteredLayouter` root whose sole child is a 500×50 fixed box, under a
300×200 window (the child is wider than the window, so clamping bites). -/
def centCtx1 : Ctx :=
  { childrenOf := fun n => if n = 0 then [1] else []
    parentOf := fun n => if n = 1 then some 0 else none
    layouterOf := fun n => if n = 0 then .centered else .sizedBox ⟨500, 50⟩
    root := 0
    windowSize := ⟨300, 200⟩ }

/-- The state left behind by evaluating the size of node 1 of the Row
scenario from a fresh tree. -/
def rowStA : St :=
  match evalSize (rowCtx 1000 600) 12 (initSt []) 1 with
  | .ok (_, s) => s
  | .fail _ => initSt []

/-- `rowStA` followed by evaluating the position of node 2: during that
evaluation the read of node 1's size is served from the cache. -/
def rowStB : St :=
  match evalPos (rowCtx 1000 600) 12 rowStA 2 with
  | .ok (_, s) => s
  | .fail _ => initSt []

/-- The fully evaluated Row scenario: every query cached at revision 0. -/
def rowStFull : St :=
  match evalSize (rowCtx 1000 600) 12 (initSt []) 0 with
  | .ok (_, s) => s
  | .fail _ => initSt []

/-- `rowStFull` followed by re-evaluating the position of node 3. -/
def rowStP3 : St :=
  match evalPos (rowCtx 1000 600) 12 rowStFull 3 with
  | .ok (_, s) => s
  | .fail _ => initSt []

/-- `rowStP3` followed by re-evaluating the constraints of node 2. -/
def rowStC2 : St :=
  match evalCons (rowCtx 1000 600) 12 rowStP3 2 with
  | .ok (_, s) => s
  | .fail _ => initSt []

/-- `rowStC2` followed by re-evaluating the first-child lookup of the row. -/
def rowStN : St :=
  match evalNth (rowCtx 1000 600) 12 rowStC2 0 0 with
  | .ok (_, s) => s
  | .fail _ => initSt []

/-- The state of the Row scenario right after the miss prologue of the root
size query followed by the root constraints query. -/
def rowStCons0 : St :=
  match evalCons (rowCtx 1000 600) 11 (enterMiss (bumpTotal (initSt [])) (.nodeSize 0)) 0 with
  | .ok (_, s) => s
  | .fail _ => initSt []

/-- `rowStCons0` followed by the position query of the last child. -/
def rowStPosLast : St :=
  match evalPos (rowCtx 1000 600) 11 rowStCons0 3 with
  | .ok (_, s) => s
  | .fail _ => initSt []

/-- `rowStPosLast` followed by the size query of the last child. -/
def rowStSizeLast : St :=
  match evalSize (rowCtx 1000 600) 11 rowStPosLast 3 with
  | .ok (_, s) => s
  | .fail _ => initSt []

/-- The Padded scenario right after the miss prologue of the child's
constraints query followed by the parent (root) constraints query. -/
def padStCons0 : St :=
  match evalCons padCtx 7 (enterMiss (bumpTotal (initSt [])) (.nodeConstraints 1)) 0 with
  | .ok (_, s) => s
  | .fail _ => initSt []

/-- The childless Centered scenario right after the miss prologue of the
root size query followed by the root constraints query. -/
def centSt0Cons : St :=
  match evalCons centCtx0 7 (enterMiss (bumpTotal (initSt [])) (.nodeSize 0)) 0 with
  | .ok (_, s) => s
  | .fail _ => initSt []

/-- The one-child Centered scenario after the same prefix. -/
def centSt1Cons : St :=
  match evalCons centCtx1 7 (enterMiss (bumpTotal (initSt [])) (.nodeSize 0)) 0 with
  | .ok (_, s) => s
  | .fail _ => initSt []

/-- `centSt1Cons` followed by the size query of the sole child. -/
def centSt1Child : St :=
  match evalSize centCtx1 7 centSt1Cons 1 with
  | .ok (_, s) => s
  | .fail _ => initSt []

/-- The state left behind by evaluating node 2's constraints from a fresh
Row scenario. -/
def rowStD : St :=
  match evalCons (rowCtx 1000 600) 12 (initSt []) 2 with
  | .ok (_, s) => s
  | .fail _ => initSt []

/-- The state left behind by the first-child lookup from a fresh Row
scenario. -/
def rowStE : St :=
  match evalNth (rowCtx 1000 600) 12 (initSt []) 0 0 with
  | .ok (_, s) => s
  | .fail _ => initSt []

/-- The fully evaluated Row scenario after the application has bumped the
revision (as its redraw/input handlers do), leaving every cache entry
stale. -/
def rowStBumped : St := bumpRevision rowStFull

/-- `rowStBumped` after re-evaluating the Row's size. -/
def c3S1 : St :=
  match evalSize (rowCtx 1000 600) 12 rowStBumped 0 with
  | .ok (_, s) => s
  | .fail _ => initSt []

/-- `rowStBumped` after re-evaluating node 3's position. -/
def c3P1 : St :=
  match evalPos (rowCtx 1000 600) 12 rowStBumped 3 with
  | .ok (_, s) => s
  | .fail _ => initSt []

/-- `rowStBumped` after re-evaluating node 2's constraints. -/
def c3C1 : St :=
  match evalCons (rowCtx 1000 600) 12 rowStBumped 2 with
  | .ok (_, s) => s
  | .fail _ => initSt []

/-- `rowStBumped` after re-evaluating the first-child lookup. -/
def c3N1 : St :=
  match evalNth (rowCtx 1000 600) 12 rowStBumped 0 0 with
  | .ok (_, s) => s
  | .fail _ => initSt []

/-- `rowStBumped` after `invalidate` has processed the consumers of the
root's constraints query (one consumer — the root size query — whose value
is unchanged, so it is re-stamped and nothing is flagged). -/
def c3W1 : St :=
  match processParents (rowCtx 1000 600) 12 rowStBumped
      (parentsOf rowStBumped (.nodeConstraints 0)) with
  | .ok (s, _) => s
  | .fail _ => initSt []

/-- `rowStBumped` after `invalidate`'s loop body has processed the root size
query as a consumer (unchanged value — early cutoff). -/
def c3XS : St :=
  match processOneParent (rowCtx 1000 600) 12 rowStBumped (.nodeSize 0) with
  | .ok (s, _) => s
  | .fail _ => initSt []

/-- The state left behind by evaluating the dynamic box's size from a fresh
tree holding signal 0 = 100×100. -/
def dynSt1 : St :=
  match evalSize dynCtx 8 (initSt [⟨100, 100⟩]) 0 with
  | .ok (_, s) => s
  | .fail _ => initSt []

/-- `dynSt1` right after `set(signal 0, 110×100)` has incremented the
revision and overwritten the store, at the moment `invalidate` starts. -/
def dynStSet : St := { dynSt1 with revision := 1, signals := [⟨110, 100⟩] }

/-- `dynStSet` after `invalidate` has processed the single consumer of
signal 0 (the dynamic box's size query, whose value changed). -/
def c3X1 : St :=
  match processOneParent dynCtx 8 dynStSet (.nodeSize 0) with
  | .ok (s, _) => s
  | .fail _ => initSt []

/-!
Field-preservation lemmas for the elementary state operations; they make the
frame reasoning below essentially automatic.
-/
@[simp] theorem bumpTotal_revision (st : St) : (bumpTotal st).revision = st.revision := rfl
@[simp] theorem bumpTotal_signals (st : St) : (bumpTotal st).signals = st.signals := rfl
@[simp] theorem bumpTotal_sizeCache (st : St) : (bumpTotal st).sizeCache = st.sizeCache := rfl
@[simp] theorem bumpTotal_posCache (st : St) : (bumpTotal st).posCache = st.posCache := rfl
@[simp] theorem bumpTotal_consCache (st : St) : (bumpTotal st).consCache = st.consCache := rfl
@[simp] theorem bumpTotal_nthCache (st : St) : (bumpTotal st).nthCache = st.nthCache := rfl
@[simp] theorem bumpTotal_queryStack (st : St) : (bumpTotal st).queryStack = st.queryStack := rfl
@[simp] theorem bumpTotal_depEdges (st : St) : (bumpTotal st).depEdges = st.depEdges := rfl
@[simp] theorem bumpTotal_depNodes (st : St) : (bumpTotal st).depNodes = st.depNodes := rfl
@[simp] theorem bumpTotal_ratioHit (st : St) : (bumpTotal st).ratioHit = st.ratioHit := rfl
@[simp] theorem bumpTotal_reads (st : St) : (bumpTotal st).reads = st.reads := rfl
@[simp] theorem bumpTotal_execs (st : St) : (bumpTotal st).execs = st.execs := rfl
@[simp] theorem bumpHit_revision (st : St) : (bumpHit st).revision = st.revision := rfl
@[simp] theorem bumpHit_signals (st : St) : (bumpHit st).signals = st.signals := rfl
@[simp] theorem bumpHit_sizeCache (st : St) : (bumpHit st).sizeCache = st.sizeCache := rfl
@[simp] theorem bumpHit_posCache (st : St) : (bumpHit st).posCache = st.posCache := rfl
@[simp] theorem bumpHit_consCache (st : St) : (bumpHit st).consCache = st.consCache := rfl
@[simp] theorem bumpHit_nthCache (st : St) : (bumpHit st).nthCache = st.nthCache := rfl
@[simp] theorem bumpHit_queryStack (st : St) : (bumpHit st).queryStack = st.queryStack := rfl
@[simp] theorem bumpHit_depEdges (st : St) : (bumpHit st).depEdges = st.depEdges := rfl
@[simp] theorem bumpHit_depNodes (st : St) : (bumpHit st).depNodes = st.depNodes := rfl
@[simp] theorem bumpHit_ratioTotal (st : St) : (bumpHit st).ratioTotal = st.ratioTotal := rfl
@[simp] theorem bumpHit_reads (st : St) : (bumpHit st).reads = st.reads := rfl
@[simp] theorem bumpHit_execs (st : St) : (bumpHit st).execs = st.execs := rfl
@[simp] theorem pushQuery_revision (st : St) (q : QueryDep) : (pushQuery st q).revision = st.revision := rfl
@[simp] theorem pushQuery_signals (st : St) (q : QueryDep) : (pushQuery st q).signals = st.signals := rfl
@[simp] theorem pushQuery_sizeCache (st : St) (q : QueryDep) : (pushQuery st q).sizeCache = st.sizeCache := rfl
@[simp] theorem pushQuery_posCache (st : St) (q : QueryDep) : (pushQuery st q).posCache = st.posCache := rfl
@[simp] theorem pushQuery_consCache (st : St) (q : QueryDep) : (pushQuery st q).consCache = st.consCache := rfl
@[simp] theorem pushQuery_nthCache (st : St) (q : QueryDep) : (pushQuery st q).nthCache = st.nthCache := rfl
@[simp] theorem pushQuery_depEdges (st : St) (q : QueryDep) : (pushQuery st q).depEdges = st.depEdges := rfl
@[simp] theorem pushQuery_depNodes (st : St) (q : QueryDep) : (pushQuery st q).depNodes = st.depNodes := rfl
@[simp] theorem pushQuery_ratioHit (st : St) (q : QueryDep) : (pushQuery st q).ratioHit = st.ratioHit := rfl
@[simp] theorem pushQuery_ratioTotal (st : St) (q : QueryDep) : (pushQuery st q).ratioTotal = st.ratioTotal := rfl
@[simp] theorem pushQuery_reads (st : St) (q : QueryDep) : (pushQuery st q).reads = st.reads := rfl
@[simp] theorem pushQuery_execs (st : St) (q : QueryDep) : (pushQuery st q).execs = st.execs := rfl
@[simp] theorem popQuery_revision (st : St) : (popQuery st).revision = st.revision := rfl
@[simp] theorem popQuery_signals (st : St) : (popQuery st).signals = st.signals := rfl
@[simp] theorem popQuery_sizeCache (st : St) : (popQuery st).sizeCache = st.sizeCache := rfl
@[simp] theorem popQuery_posCache (st : St) : (popQuery st).posCache = st.posCache := rfl
@[simp] theorem popQuery_consCache (st : St) : (popQuery st).consCache = st.consCache := rfl
@[simp] theorem popQuery_nthCache (st : St) : (popQuery st).nthCache = st.nthCache := rfl
@[simp] theorem popQuery_depEdges (st : St) : (popQuery st).depEdges = st.depEdges := rfl
@[simp] theorem popQuery_depNodes (st : St) : (popQuery st).depNodes = st.depNodes := rfl
@[simp] theorem popQuery_ratioHit (st : St) : (popQuery st).ratioHit = st.ratioHit := rfl
@[simp] theorem popQuery_ratioTotal (st : St) : (popQuery st).ratioTotal = st.ratioTotal := rfl
@[simp] theorem popQuery_reads (st : St) : (popQuery st).reads = st.reads := rfl
@[simp] theorem popQuery_execs (st : St) : (popQuery st).execs = st.execs := rfl
@[simp] theorem recordExec_revision (st : St) (q : QueryDep) : (recordExec st q).revision = st.revision := rfl
@[simp] theorem recordExec_signals (st : St) (q : QueryDep) : (recordExec st q).signals = st.signals := rfl
@[simp] theorem recordExec_sizeCache (st : St) (q : QueryDep) : (recordExec st q).sizeCache = st.sizeCache := rfl
@[simp] theorem recordExec_posCache (st : St) (q : QueryDep) : (recordExec st q).posCache = st.posCache := rfl
@[simp] theorem recordExec_consCache (st : St) (q : QueryDep) : (recordExec st q).consCache = st.consCache := rfl
@[simp] theorem recordExec_nthCache (st : St) (q : QueryDep) : (recordExec st q).nthCache = st.nthCache := rfl
@[simp] theorem recordExec_queryStack (st : St) (q : QueryDep) : (recordExec st q).queryStack = st.queryStack := rfl
@[simp] theorem recordExec_depEdges (st : St) (q : QueryDep) : (recordExec st q).depEdges = st.depEdges := rfl
@[simp] theorem recordExec_depNodes (st : St) (q : QueryDep) : (recordExec st q).depNodes = st.depNodes := rfl
@[simp] theorem recordExec_ratioHit (st : St) (q : QueryDep) : (recordExec st q).ratioHit = st.ratioHit := rfl
@[simp] theorem recordExec_ratioTotal (st : St) (q : QueryDep) : (recordExec st q).ratioTotal = st.ratioTotal := rfl
@[simp] theorem recordExec_reads (st : St) (q : QueryDep) : (recordExec st q).reads = st.reads := rfl
@[simp] theorem insertSizeC_revision (st : St) (n : Nat) (e : Entry SizeV) : (insertSizeC st n e).revision = st.revision := rfl
@[simp] theorem insertSizeC_signals (st : St) (n : Nat) (e : Entry SizeV) : (insertSizeC st n e).signals = st.signals := rfl
@[simp] theorem insertSizeC_posCache (st : St) (n : Nat) (e : Entry SizeV) : (insertSizeC st n e).posCache = st.posCache := rfl
@[simp] theorem insertSizeC_consCache (st : St) (n : Nat) (e : Entry SizeV) : (insertSizeC st n e).consCache = st.consCache := rfl
@[simp] theorem insertSizeC_nthCache (st : St) (n : Nat) (e : Entry SizeV) : (insertSizeC st n e).nthCache = st.nthCache := rfl
@[simp] theorem insertSizeC_queryStack (st : St) (n : Nat) (e : Entry SizeV) : (insertSizeC st n e).queryStack = st.queryStack := rfl
@[simp] theorem insertSizeC_depEdges (st : St) (n : Nat) (e : Entry SizeV) : (insertSizeC st n e).depEdges = st.depEdges := rfl
@[simp] theorem insertSizeC_depNodes (st : St) (n : Nat) (e : Entry SizeV) : (insertSizeC st n e).depNodes = st.depNodes := rfl
@[simp] theorem insertSizeC_ratioHit (st : St) (n : Nat) (e : Entry SizeV) : (insertSizeC st n e).ratioHit = st.ratioHit := rfl
@[simp] theorem insertSizeC_ratioTotal (st : St) (n : Nat) (e : Entry SizeV) : (insertSizeC st n e).ratioTotal = st.ratioTotal := rfl
@[simp] theorem insertSizeC_reads (st : St) (n : Nat) (e : Entry SizeV) : (insertSizeC st n e).reads = st.reads := rfl
@[simp] theorem insertSizeC_execs (st : St) (n : Nat) (e : Entry SizeV) : (insertSizeC st n e).execs = st.execs := rfl
@[simp] theorem insertPosC_revision (st : St) (n : Nat) (e : Entry PointV) : (insertPosC st n e).revision = st.revision := rfl
@[simp] theorem insertPosC_signals (st : St) (n : Nat) (e : Entry PointV) : (insertPosC st n e).signals = st.signals := rfl
@[simp] theorem insertPosC_sizeCache (st : St) (n : Nat) (e : Entry PointV) : (insertPosC st n e).sizeCache = st.sizeCache := rfl
@[simp] theorem insertPosC_consCache (st : St) (n : Nat) (e : Entry PointV) : (insertPosC st n e).consCache = st.consCache := rfl
@[simp] theorem insertPosC_nthCache (st : St) (n : Nat) (e : Entry PointV) : (insertPosC st n e).nthCache = st.nthCache := rfl
@[simp] theorem insertPosC_queryStack (st : St) (n : Nat) (e : Entry PointV) : (insertPosC st n e).queryStack = st.queryStack := rfl
@[simp] theorem insertPosC_depEdges (st : St) (n : Nat) (e : Entry PointV) : (insertPosC st n e).depEdges = st.depEdges := rfl
@[simp] theorem insertPosC_depNodes (st : St) (n : Nat) (e : Entry PointV) : (insertPosC st n e).depNodes = st.depNodes := rfl
@[simp] theorem insertPosC_ratioHit (st : St) (n : Nat) (e : Entry PointV) : (insertPosC st n e).ratioHit = st.ratioHit := rfl
@[simp] theorem insertPosC_ratioTotal (st : St) (n : Nat) (e : Entry PointV) : (insertPosC st n e).ratioTotal = st.ratioTotal := rfl
@[simp] theorem insertPosC_reads (st : St) (n : Nat) (e : Entry PointV) : (insertPosC st n e).reads = st.reads := rfl
@[simp] theorem insertPosC_execs (st : St) (n : Nat) (e : Entry PointV) : (insertPosC st n e).execs = st.execs := rfl
@[simp] theorem insertConsC_revision (st : St) (n : Nat) (e : Entry Constraints) : (insertConsC st n e).revision = st.revision := rfl
@[simp] theorem insertConsC_signals (st : St) (n : Nat) (e : Entry Constraints) : (insertConsC st n e).signals = st.signals := rfl
@[simp] theorem insertConsC_sizeCache (st : St) (n : Nat) (e : Entry Constraints) : (insertConsC st n e).sizeCache = st.sizeCache := rfl
@[simp] theorem insertConsC_posCache (st : St) (n : Nat) (e : Entry Constraints) : (insertConsC st n e).posCache = st.posCache := rfl
@[simp] theorem insertConsC_nthCache (st : St) (n : Nat) (e : Entry Constraints) : (insertConsC st n e).nthCache = st.nthCache := rfl
@[simp] theorem insertConsC_queryStack (st : St) (n : Nat) (e : Entry Constraints) : (insertConsC st n e).queryStack = st.queryStack := rfl
@[simp] theorem insertConsC_depEdges (st : St) (n : Nat) (e : Entry Constraints) : (insertConsC st n e).depEdges = st.depEdges := rfl
@[simp] theorem insertConsC_depNodes (st : St) (n : Nat) (e : Entry Constraints) : (insertConsC st n e).depNodes = st.depNodes := rfl
@[simp] theorem insertConsC_ratioHit (st : St) (n : Nat) (e : Entry Constraints) : (insertConsC st n e).ratioHit = st.ratioHit := rfl
@[simp] theorem insertConsC_ratioTotal (st : St) (n : Nat) (e : Entry Constraints) : (insertConsC st n e).ratioTotal = st.ratioTotal := rfl
@[simp] theorem insertConsC_reads (st : St) (n : Nat) (e : Entry Constraints) : (insertConsC st n e).reads = st.reads := rfl
@[simp] theorem insertConsC_execs (st : St) (n : Nat) (e : Entry Constraints) : (insertConsC st n e).execs = st.execs := rfl
@[simp] theorem insertNthC_revision (st : St) (p k : Nat) (e : Entry Nat) : (insertNthC st p k e).revision = st.revision := rfl
@[simp] theorem insertNthC_signals (st : St) (p k : Nat) (e : Entry Nat) : (insertNthC st p k e).signals = st.signals := rfl
@[simp] theorem insertNthC_sizeCache (st : St) (p k : Nat) (e : Entry Nat) : (insertNthC st p k e).sizeCache = st.sizeCache := rfl
@[simp] theorem insertNthC_posCache (st : St) (p k : Nat) (e : Entry Nat) : (insertNthC st p k e).posCache = st.posCache := rfl
@[simp] theorem insertNthC_consCache (st : St) (p k : Nat) (e : Entry Nat) : (insertNthC st p k e).consCache = st.consCache := rfl
@[simp] theorem insertNthC_queryStack (st : St) (p k : Nat) (e : Entry Nat) : (insertNthC st p k e).queryStack = st.queryStack := rfl
@[simp] theorem insertNthC_depEdges (st : St) (p k : Nat) (e : Entry Nat) : (insertNthC st p k e).depEdges = st.depEdges := rfl
@[simp] theorem insertNthC_depNodes (st : St) (p k : Nat) (e : Entry Nat) : (insertNthC st p k e).depNodes = st.depNodes := rfl
@[simp] theorem insertNthC_ratioHit (st : St) (p k : Nat) (e : Entry Nat) : (insertNthC st p k e).ratioHit = st.ratioHit := rfl
@[simp] theorem insertNthC_ratioTotal (st : St) (p k : Nat) (e : Entry Nat) : (insertNthC st p k e).ratioTotal = st.ratioTotal := rfl
@[simp] theorem insertNthC_reads (st : St) (p k : Nat) (e : Entry Nat) : (insertNthC st p k e).reads = st.reads := rfl
@[simp] theorem insertNthC_execs (st : St) (p k : Nat) (e : Entry Nat) : (insertNthC st p k e).execs = st.execs := rfl
@[simp] theorem recordRead_revision (st : St) (dep : QueryDep) (b : Bool) : (recordRead st dep b).revision = st.revision := by unfold recordRead; cases st.queryStack.head? <;> rfl
@[simp] theorem recordRead_signals (st : St) (dep : QueryDep) (b : Bool) : (recordRead st dep b).signals = st.signals := by unfold recordRead; cases st.queryStack.head? <;> rfl
@[simp] theorem recordRead_sizeCache (st : St) (dep : QueryDep) (b : Bool) : (recordRead st dep b).sizeCache = st.sizeCache := by unfold recordRead; cases st.queryStack.head? <;> rfl
@[simp] theorem recordRead_posCache (st : St) (dep : QueryDep) (b : Bool) : (recordRead st dep b).posCache = st.posCache := by unfold recordRead; cases st.queryStack.head? <;> rfl
@[simp] theorem recordRead_consCache (st : St) (dep : QueryDep) (b : Bool) : (recordRead st dep b).consCache = st.consCache := by unfold recordRead; cases st.queryStack.head? <;> rfl
@[simp] theorem recordRead_nthCache (st : St) (dep : QueryDep) (b : Bool) : (recordRead st dep b).nthCache = st.nthCache := by unfold recordRead; cases st.queryStack.head? <;> rfl
@[simp] theorem recordRead_queryStack (st : St) (dep : QueryDep) (b : Bool) : (recordRead st dep b).queryStack = st.queryStack := by unfold recordRead; cases st.queryStack.head? <;> rfl
@[simp] theorem recordRead_depEdges (st : St) (dep : QueryDep) (b : Bool) : (recordRead st dep b).depEdges = st.depEdges := by unfold recordRead; cases st.queryStack.head? <;> rfl
@[simp] theorem recordRead_depNodes (st : St) (dep : QueryDep) (b : Bool) : (recordRead st dep b).depNodes = st.depNodes := by unfold recordRead; cases st.queryStack.head? <;> rfl
@[simp] theorem recordRead_ratioHit (st : St) (dep : QueryDep) (b : Bool) : (recordRead st dep b).ratioHit = st.ratioHit := by unfold recordRead; cases st.queryStack.head? <;> rfl
@[simp] theorem recordRead_ratioTotal (st : St) (dep : QueryDep) (b : Bool) : (recordRead st dep b).ratioTotal = st.ratioTotal := by unfold recordRead; cases st.queryStack.head? <;> rfl
@[simp] theorem recordRead_execs (st : St) (dep : QueryDep) (b : Bool) : (recordRead st dep b).execs = st.execs := by unfold recordRead; cases st.queryStack.head? <;> rfl
@[simp] theorem ensureDepNode_revision (st : St) (d : QueryDep) : (ensureDepNode st d).revision = st.revision := by unfold ensureDepNode; split <;> rfl
@[simp] theorem ensureDepNode_signals (st : St) (d : QueryDep) : (ensureDepNode st d).signals = st.signals := by unfold ensureDepNode; split <;> rfl
@[simp] theorem ensureDepNode_sizeCache (st : St) (d : QueryDep) : (ensureDepNode st d).sizeCache = st.sizeCache := by unfold ensureDepNode; split <;> rfl
@[simp] theorem ensureDepNode_posCache (st : St) (d : QueryDep) : (ensureDepNode st d).posCache = st.posCache := by unfold ensureDepNode; split <;> rfl
@[simp] theorem ensureDepNode_consCache (st : St) (d : QueryDep) : (ensureDepNode st d).consCache = st.consCache := by unfold ensureDepNode; split <;> rfl
@[simp] theorem ensureDepNode_nthCache (st : St) (d : QueryDep) : (ensureDepNode st d).nthCache = st.nthCache := by unfold ensureDepNode; split <;> rfl
@[simp] theorem ensureDepNode_queryStack (st : St) (d : QueryDep) : (ensureDepNode st d).queryStack = st.queryStack := by unfold ensureDepNode; split <;> rfl
@[simp] theorem ensureDepNode_depEdges (st : St) (d : QueryDep) : (ensureDepNode st d).depEdges = st.depEdges := by unfold ensureDepNode; split <;> rfl
@[simp] theorem ensureDepNode_ratioHit (st : St) (d : QueryDep) : (ensureDepNode st d).ratioHit = st.ratioHit := by unfold ensureDepNode; split <;> rfl
@[simp] theorem ensureDepNode_ratioTotal (st : St) (d : QueryDep) : (ensureDepNode st d).ratioTotal = st.ratioTotal := by unfold ensureDepNode; split <;> rfl
@[simp] theorem ensureDepNode_reads (st : St) (d : QueryDep) : (ensureDepNode st d).reads = st.reads := by unfold ensureDepNode; split <;> rfl
@[simp] theorem ensureDepNode_execs (st : St) (d : QueryDep) : (ensureDepNode st d).execs = st.execs := by unfold ensureDepNode; split <;> rfl
@[simp] theorem pushQuery_queryStack (st : St) (q : QueryDep) : (pushQuery st q).queryStack = q :: st.queryStack := rfl
@[simp] theorem popQuery_queryStack (st : St) : (popQuery st).queryStack = st.queryStack.tail := rfl
@[simp] theorem insertSizeC_sizeCache (st : St) (n : Nat) (e : Entry SizeV) : (insertSizeC st n e).sizeCache = (n, e) :: st.sizeCache := rfl
@[simp] theorem insertPosC_posCache (st : St) (n : Nat) (e : Entry PointV) : (insertPosC st n e).posCache = (n, e) :: st.posCache := rfl
@[simp] theorem insertConsC_consCache (st : St) (n : Nat) (e : Entry Constraints) : (insertConsC st n e).consCache = (n, e) :: st.consCache := rfl
@[simp] theorem insertNthC_nthCache (st : St) (p k : Nat) (e : Entry Nat) : (insertNthC st p k e).nthCache = ((p, k), e) :: st.nthCache := rfl
@[simp] theorem trackDependency_revision (st : St) (dep : QueryDep) : (trackDependency st dep).revision = st.revision := by
  unfold trackDependency; cases st.queryStack.head? <;> simp
@[simp] theorem trackDependency_signals (st : St) (dep : QueryDep) : (trackDependency st dep).signals = st.signals := by
  unfold trackDependency; cases st.queryStack.head? <;> simp
@[simp] theorem trackDependency_sizeCache (st : St) (dep : QueryDep) : (trackDependency st dep).sizeCache = st.sizeCache := by
  unfold trackDependency; cases st.queryStack.head? <;> simp
@[simp] theorem trackDependency_posCache (st : St) (dep : QueryDep) : (trackDependency st dep).posCache = st.posCache := by
  unfold trackDependency; cases st.queryStack.head? <;> simp
@[simp] theorem trackDependency_consCache (st : St) (dep : QueryDep) : (trackDependency st dep).consCache = st.consCache := by
  unfold trackDependency; cases st.queryStack.head? <;> simp
@[simp] theorem trackDependency_nthCache (st : St) (dep : QueryDep) : (trackDependency st dep).nthCache = st.nthCache := by
  unfold trackDependency; cases st.queryStack.head? <;> simp
@[simp] theorem trackDependency_queryStack (st : St) (dep : QueryDep) : (trackDependency st dep).queryStack = st.queryStack := by
  unfold trackDependency; cases st.queryStack.head? <;> simp
@[simp] theorem trackDependency_ratioHit (st : St) (dep : QueryDep) : (trackDependency st dep).ratioHit = st.ratioHit := by
  unfold trackDependency; cases st.queryStack.head? <;> simp
@[simp] theorem trackDependency_ratioTotal (st : St) (dep : QueryDep) : (trackDependency st dep).ratioTotal = st.ratioTotal := by
  unfold trackDependency; cases st.queryStack.head? <;> simp
@[simp] theorem trackDependency_reads (st : St) (dep : QueryDep) : (trackDependency st dep).reads = st.reads := by
  unfold trackDependency; cases st.queryStack.head? <;> simp
@[simp] theorem trackDependency_execs (st : St) (dep : QueryDep) : (trackDependency st dep).execs = st.execs := by
  unfold trackDependency; cases st.queryStack.head? <;> simp
@[simp] theorem hitReturn_revision (st : St) (q : QueryDep) : (hitReturn st q).revision = st.revision := by
  unfold hitReturn; simp
@[simp] theorem hitReturn_signals (st : St) (q : QueryDep) : (hitReturn st q).signals = st.signals := by
  unfold hitReturn; simp
@[simp] theorem hitReturn_sizeCache (st : St) (q : QueryDep) : (hitReturn st q).sizeCache = st.sizeCache := by
  unfold hitReturn; simp
@[simp] theorem hitReturn_posCache (st : St) (q : QueryDep) : (hitReturn st q).posCache = st.posCache := by
  unfold hitReturn; simp
@[simp] theorem hitReturn_consCache (st : St) (q : QueryDep) : (hitReturn st q).consCache = st.consCache := by
  unfold hitReturn; simp
@[simp] theorem hitReturn_nthCache (st : St) (q : QueryDep) : (hitReturn st q).nthCache = st.nthCache := by
  unfold hitReturn; simp
@[simp] theorem hitReturn_queryStack (st : St) (q : QueryDep) : (hitReturn st q).queryStack = st.queryStack := by
  unfold hitReturn; simp
@[simp] theorem hitReturn_depEdges (st : St) (q : QueryDep) : (hitReturn st q).depEdges = st.depEdges := by
  unfold hitReturn; simp
@[simp] theorem hitReturn_depNodes (st : St) (q : QueryDep) : (hitReturn st q).depNodes = st.depNodes := by
  unfold hitReturn; simp
@[simp] theorem hitReturn_ratioTotal (st : St) (q : QueryDep) : (hitReturn st q).ratioTotal = st.ratioTotal := by
  unfold hitReturn; simp
@[simp] theorem hitReturn_execs (st : St) (q : QueryDep) : (hitReturn st q).execs = st.execs := by
  unfold hitReturn; simp
@[simp] theorem enterMiss_revision (st : St) (q : QueryDep) : (enterMiss st q).revision = st.revision := by
  unfold enterMiss; simp
@[simp] theorem enterMiss_signals (st : St) (q : QueryDep) : (enterMiss st q).signals = st.signals := by
  unfold enterMiss; simp
@[simp] theorem enterMiss_sizeCache (st : St) (q : QueryDep) : (enterMiss st q).sizeCache = st.sizeCache := by
  unfold enterMiss; simp
@[simp] theorem enterMiss_posCache (st : St) (q : QueryDep) : (enterMiss st q).posCache = st.posCache := by
  unfold enterMiss; simp
@[simp] theorem enterMiss_consCache (st : St) (q : QueryDep) : (enterMiss st q).consCache = st.consCache := by
  unfold enterMiss; simp
@[simp] theorem enterMiss_nthCache (st : St) (q : QueryDep) : (enterMiss st q).nthCache = st.nthCache := by
  unfold enterMiss; simp
@[simp] theorem enterMiss_ratioHit (st : St) (q : QueryDep) : (enterMiss st q).ratioHit = st.ratioHit := by
  unfold enterMiss; simp
@[simp] theorem enterMiss_ratioTotal (st : St) (q : QueryDep) : (enterMiss st q).ratioTotal = st.ratioTotal := by
  unfold enterMiss; simp
@[simp] theorem enterMiss_queryStack (st : St) (q : QueryDep) : (enterMiss st q).queryStack = q :: st.queryStack := by
  unfold enterMiss; simp

theorem validLook_some {κ : Type} [DecidableEq κ] {α : Type}
    {cache : List (κ × Entry α)} {k : κ} {rev : Nat} {e : Entry α} :
    validLook cache k rev = some e ↔ alook cache k = some e ∧ rev ≤ e.validThrough := by
  unfold validLook
  cases ha : alook cache k with
  | none => simp
  | some e0 =>
    by_cases hle : rev ≤ e0.validThrough
    · simp only [hle, if_true]
      constructor
      · intro he; injection he with he; subst he; exact ⟨rfl, hle⟩
      · rintro ⟨he, _⟩; injection he with he; subst he; rfl
    · simp only [hle, if_false]
      constructor
      · rintro ⟨⟩
      · rintro ⟨he, hle2⟩; cases he; exact absurd hle2 hle


theorem getSignalFrame {st : St} {sid : Nat} {v : SizeV} {st' : St}
    (h : getSignal st sid = .ok (v, st')) :
    st'.revision = st.revision ∧ st'.signals = st.signals ∧
    st'.queryStack = st.queryStack ∧ st'.sizeCache = st.sizeCache ∧
    st'.posCache = st.posCache ∧ st'.consCache = st.consCache ∧
    st'.nthCache = st.nthCache ∧ st.signals[sid]? = some v := by
  unfold getSignal at h
  cases hg : st.signals[sid]? with
  | none => rw [hg] at h; cases h
  | some w => rw [hg] at h; cases h; simp

theorem finishSizeFrame {st0 stE : St} {n : Nat} {v v' : SizeV} {st' : St}
    (hrev : stE.revision = st0.revision) (hsig : stE.signals = st0.signals)
    (hstk : stE.queryStack = QueryDep.nodeSize n :: st0.queryStack)
    (h : finishSize stE n v = .ok (v', st')) :
    st'.revision = st0.revision ∧ st'.signals = st0.signals ∧
    st'.queryStack = st0.queryStack ∧
    ∃ e, alook st'.sizeCache n = some e ∧ e.value = v' ∧ st'.revision ≤ e.validThrough := by
  unfold finishSize at h
  cases h
  exact ⟨by simp [hrev], by simp [hsig], by simp [hstk],
    ⟨v, stE.revision, stE.revision⟩, by simp [alook], rfl, by simp⟩

theorem finishPosFrame {st0 stE : St} {n : Nat} {v v' : PointV} {st' : St}
    (hrev : stE.revision = st0.revision) (hsig : stE.signals = st0.signals)
    (hstk : stE.queryStack = QueryDep.nodePosition n :: st0.queryStack)
    (h : finishPos stE n v = .ok (v', st')) :
    st'.revision = st0.revision ∧ st'.signals = st0.signals ∧
    st'.queryStack = st0.queryStack ∧
    ∃ e, alook st'.posCache n = some e ∧ e.value = v' ∧ st'.revision ≤ e.validThrough := by
  unfold finishPos at h
  cases h
  exact ⟨by simp [hrev], by simp [hsig], by simp [hstk],
    ⟨v, stE.revision, stE.revision⟩, by simp [alook], rfl, by simp⟩

theorem finishConsFrame {st0 stE : St} {n : Nat} {v v' : Constraints} {st' : St}
    (hrev : stE.revision = st0.revision) (hsig : stE.signals = st0.signals)
    (hstk : stE.queryStack = QueryDep.nodeConstraints n :: st0.queryStack)
    (h : finishCons stE n v = .ok (v', st')) :
    st'.revision = st0.revision ∧ st'.signals = st0.signals ∧
    st'.queryStack = st0.queryStack ∧
    ∃ e, alook st'.consCache n = some e ∧ e.value = v' ∧ st'.revision ≤ e.validThrough := by
  unfold finishCons at h
  cases h
  exact ⟨by simp [hrev], by simp [hsig], by simp [hstk],
    ⟨v, stE.revision, stE.revision⟩, by simp [alook], rfl, by simp⟩

theorem evalNthFrame {c : Ctx} {fuel : Nat} {st : St} {p k m : Nat} {st' : St}
    (h : evalNth c fuel st p k = .ok (m, st')) :
    st'.revision = st.revision ∧ st'.signals = st.signals ∧
    st'.queryStack = st.queryStack ∧
    ∃ e, alook st'.nthCache (p, k) = some e ∧ e.value = m ∧ st'.revision ≤ e.validThrough := by
  match fuel with
  | 0 => simp [evalNth] at h
  | fuel + 1 =>
    rw [evalNth] at h
    cases hv : validLook (bumpTotal st).nthCache (p, k) (bumpTotal st).revision with
    | some e =>
      rw [hv] at h
      cases h
      obtain ⟨ha, hle⟩ := validLook_some.mp hv
      exact ⟨by simp, by simp, by simp, e, by simpa using ha, rfl, by simpa using hle⟩
    | none =>
      rw [hv] at h
      dsimp only at h
      cases hg : (c.childrenOf p)[k]? with
      | none => rw [hg] at h; cases h
      | some m0 =>
        rw [hg] at h
        unfold finishNth at h
        cases h
        refine ⟨by simp, by simp, by simp, ⟨m, st.revision, st.revision⟩, ?_, rfl, by simp⟩
        simp [alook]

/-- Frame facts of the three mutually recursive query entry points: a
successful call leaves the revision, the signal store and the query stack as
it found them, and leaves behind a valid cache entry holding the returned
value. -/
theorem evalFrames (c : Ctx) (fuel : Nat) :
    (∀ st n v st', evalSize c fuel st n = .ok (v, st') →
      st'.revision = st.revision ∧ st'.signals = st.signals ∧
      st'.queryStack = st.queryStack ∧
      ∃ e, alook st'.sizeCache n = some e ∧ e.value = v ∧ st'.revision ≤ e.validThrough) ∧
    (∀ st n v st', evalPos c fuel st n = .ok (v, st') →
      st'.revision = st.revision ∧ st'.signals = st.signals ∧
      st'.queryStack = st.queryStack ∧
      ∃ e, alook st'.posCache n = some e ∧ e.value = v ∧ st'.revision ≤ e.validThrough) ∧
    (∀ st n v st', evalCons c fuel st n = .ok (v, st') →
      st'.revision = st.revision ∧ st'.signals = st.signals ∧
      st'.queryStack = st.queryStack ∧
      ∃ e, alook st'.consCache n = some e ∧ e.value = v ∧ st'.revision ≤ e.validThrough) := by
  induction fuel with
  | zero =>
    refine ⟨?_, ?_, ?_⟩ <;> intro st n v st' h <;> simp [evalSize, evalPos, evalCons] at h
  | succ fuel ih =>
    obtain ⟨ihS, ihP, ihC⟩ := ih
    refine ⟨?_, ?_, ?_⟩
    · intro st n v st' h
      rw [evalSize] at h
      cases hv : validLook (bumpTotal st).sizeCache n (bumpTotal st).revision with
      | some e =>
        rw [hv] at h; cases h
        obtain ⟨ha, hle⟩ := validLook_some.mp hv
        exact ⟨by simp, by simp, by simp, e, by simpa using ha, rfl, by simpa using hle⟩
      | none =>
        rw [hv] at h; dsimp only at h
        cases hc : evalCons c fuel (enterMiss (bumpTotal st) (.nodeSize n)) n with
        | fail e => rw [hc] at h; cases h
        | ok pr =>
          obtain ⟨cons, st2⟩ := pr
          rw [hc] at h; dsimp only at h
          obtain ⟨hrev2, hsig2, hstk2, -⟩ := ihC _ _ _ _ hc
          cases hl : c.layouterOf n with
          | row =>
            rw [hl] at h; dsimp only at h
            cases hlast : (c.childrenOf n).getLast? with
            | none => rw [hlast] at h; cases h
            | some lastC =>
              rw [hlast] at h; dsimp only at h
              cases hp : evalPos c fuel st2 lastC with
              | fail e => rw [hp] at h; cases h
              | ok pr2 =>
                obtain ⟨p, st3⟩ := pr2
                rw [hp] at h; dsimp only at h
                obtain ⟨hrev3, hsig3, hstk3, -⟩ := ihP _ _ _ _ hp
                cases hs : evalSize c fuel st3 lastC with
                | fail e => rw [hs] at h; cases h
                | ok pr3 =>
                  obtain ⟨s, st4⟩ := pr3
                  rw [hs] at h; dsimp only at h
                  obtain ⟨hrev4, hsig4, hstk4, -⟩ := ihS _ _ _ _ hs
                  exact finishSizeFrame (by simp [hrev4, hrev3, hrev2])
                    (by simp [hsig4, hsig3, hsig2]) (by simp [hstk4, hstk3, hstk2]) h
          | padded t b l r =>
            rw [hl] at h; dsimp only at h
            cases hn : evalNth c fuel st2 n 0 with
            | fail e => rw [hn] at h; cases h
            | ok pr2 =>
              obtain ⟨fc, st3⟩ := pr2
              rw [hn] at h; dsimp only at h
              obtain ⟨hrev3, hsig3, hstk3, -⟩ := evalNthFrame hn
              cases hs : evalSize c fuel st3 fc with
              | fail e => rw [hs] at h; cases h
              | ok pr3 =>
                obtain ⟨s, st4⟩ := pr3
                rw [hs] at h; dsimp only at h
                obtain ⟨hrev4, hsig4, hstk4, -⟩ := ihS _ _ _ _ hs
                exact finishSizeFrame (by simp [hrev4, hrev3, hrev2])
                  (by simp [hsig4, hsig3, hsig2]) (by simp [hstk4, hstk3, hstk2]) h
          | centered =>
            rw [hl] at h; dsimp only at h
            cases hch : c.childrenOf n with
            | nil =>
              rw [hch] at h; dsimp only at h
              exact finishSizeFrame (by simp [hrev2]) (by simp [hsig2]) (by simp [hstk2]) h
            | cons c0 cs =>
              rw [hch] at h; dsimp only at h
              cases hs : evalSize c fuel st2 c0 with
              | fail e => rw [hs] at h; cases h
              | ok pr2 =>
                obtain ⟨s, st3⟩ := pr2
                rw [hs] at h; dsimp only at h
                obtain ⟨hrev3, hsig3, hstk3, -⟩ := ihS _ _ _ _ hs
                exact finishSizeFrame (by simp [hrev3, hrev2]) (by simp [hsig3, hsig2])
                  (by simp [hstk3, hstk2]) h
          | dynBox sid =>
            rw [hl] at h; dsimp only at h
            cases hg : getSignal st2 sid with
            | fail e => rw [hg] at h; cases h
            | ok pr2 =>
              obtain ⟨sv, st3⟩ := pr2
              rw [hg] at h; dsimp only at h
              obtain ⟨hrev3, hsig3, hstk3, -⟩ := getSignalFrame hg
              exact finishSizeFrame (by simp [hrev3, hrev2]) (by simp [hsig3, hsig2])
                (by simp [hstk3, hstk2]) h
          | sizedBox s =>
            rw [hl] at h; dsimp only at h
            exact finishSizeFrame (by simp [hrev2]) (by simp [hsig2]) (by simp [hstk2]) h
          | selfLoop =>
            rw [hl] at h; dsimp only at h
            cases hs : evalSize c fuel st2 n with
            | fail e => rw [hs] at h; cases h
            | ok pr2 =>
              obtain ⟨s, st3⟩ := pr2
              rw [hs] at h; dsimp only at h
              obtain ⟨hrev3, hsig3, hstk3, -⟩ := ihS _ _ _ _ hs
              exact finishSizeFrame (by simp [hrev3, hrev2]) (by simp [hsig3, hsig2])
                (by simp [hstk3, hstk2]) h
    · intro st n v st' h
      rw [evalPos] at h
      cases hv : validLook (bumpTotal st).posCache n (bumpTotal st).revision with
      | some e =>
        rw [hv] at h; cases h
        obtain ⟨ha, hle⟩ := validLook_some.mp hv
        exact ⟨by simp, by simp, by simp, e, by simpa using ha, rfl, by simpa using hle⟩
      | none =>
        rw [hv] at h; dsimp only at h
        by_cases hroot : n = c.root
        · rw [if_pos hroot] at h
          exact finishPosFrame (by simp) (by simp) (by simp) h
        · rw [if_neg hroot] at h
          cases hpar : c.parentOf n with
          | none => rw [hpar] at h; cases h
          | some p =>
            rw [hpar] at h; dsimp only at h
            cases hidx : (c.childrenOf p).findIdx? (fun m => m == n) with
            | none => rw [hidx] at h; cases h
            | some k =>
              rw [hidx] at h; dsimp only at h
              cases hl : c.layouterOf p with
              | row =>
                rw [hl] at h; dsimp only at h
                by_cases hk : k = 0
                · rw [if_pos hk] at h
                  exact finishPosFrame (by simp) (by simp) (by simp) h
                · rw [if_neg hk] at h
                  cases hn : evalNth c fuel (enterMiss (bumpTotal st) (.nodePosition n)) p (k - 1) with
                  | fail e => rw [hn] at h; cases h
                  | ok pr =>
                    obtain ⟨prev, st2⟩ := pr
                    rw [hn] at h; dsimp only at h
                    obtain ⟨hrev2, hsig2, hstk2, -⟩ := evalNthFrame hn
                    cases hs : evalSize c fuel st2 prev with
                    | fail e => rw [hs] at h; cases h
                    | ok pr2 =>
                      obtain ⟨ps, st3⟩ := pr2
                      rw [hs] at h; dsimp only at h
                      obtain ⟨hrev3, hsig3, hstk3, -⟩ := ihS _ _ _ _ hs
                      cases hp : evalPos c fuel st3 prev with
                      | fail e => rw [hp] at h; cases h
                      | ok pr3 =>
                        obtain ⟨pp, st4⟩ := pr3
                        rw [hp] at h; dsimp only at h
                        obtain ⟨hrev4, hsig4, hstk4, -⟩ := ihP _ _ _ _ hp
                        exact finishPosFrame (by simp [hrev4, hrev3, hrev2])
                          (by simp [hsig4, hsig3, hsig2]) (by simp [hstk4, hstk3, hstk2]) h
              | padded t b l r =>
                rw [hl] at h; dsimp only at h
                exact finishPosFrame (by simp) (by simp) (by simp) h
              | centered =>
                rw [hl] at h; dsimp only at h
                cases hs : evalSize c fuel (enterMiss (bumpTotal st) (.nodePosition n)) p with
                | fail e => rw [hs] at h; cases h
                | ok pr =>
                  obtain ⟨ss, st2⟩ := pr
                  rw [hs] at h; dsimp only at h
                  obtain ⟨hrev2, hsig2, hstk2, -⟩ := ihS _ _ _ _ hs
                  cases hn : evalNth c fuel st2 p k with
                  | fail e => rw [hn] at h; cases h
                  | ok pr2 =>
                    obtain ⟨ch, st3⟩ := pr2
                    rw [hn] at h; dsimp only at h
                    obtain ⟨hrev3, hsig3, hstk3, -⟩ := evalNthFrame hn
                    cases hs2 : evalSize c fuel st3 ch with
                    | fail e => rw [hs2] at h; cases h
                    | ok pr3 =>
                      obtain ⟨cs, st4⟩ := pr3
                      rw [hs2] at h; dsimp only at h
                      obtain ⟨hrev4, hsig4, hstk4, -⟩ := ihS _ _ _ _ hs2
                      exact finishPosFrame (by simp [hrev4, hrev3, hrev2])
                        (by simp [hsig4, hsig3, hsig2]) (by simp [hstk4, hstk3, hstk2]) h
              | dynBox sid =>
                rw [hl] at h; dsimp only at h
                exact finishPosFrame (by simp) (by simp) (by simp) h
              | sizedBox s =>
                rw [hl] at h; dsimp only at h
                exact finishPosFrame (by simp) (by simp) (by simp) h
              | selfLoop =>
                rw [hl] at h; dsimp only at h
                exact finishPosFrame (by simp) (by simp) (by simp) h
    · intro st n v st' h
      rw [evalCons] at h
      cases hv : validLook (bumpTotal st).consCache n (bumpTotal st).revision with
      | some e =>
        rw [hv] at h; cases h
        obtain ⟨ha, hle⟩ := validLook_some.mp hv
        exact ⟨by simp, by simp, by simp, e, by simpa using ha, rfl, by simpa using hle⟩
      | none =>
        rw [hv] at h; dsimp only at h
        by_cases hroot : n = c.root
        · rw [if_pos hroot] at h
          exact finishConsFrame (by simp) (by simp) (by simp) h
        · rw [if_neg hroot] at h
          cases hpar : c.parentOf n with
          | none => rw [hpar] at h; cases h
          | some p =>
            rw [hpar] at h; dsimp only at h
            cases hc : evalCons c fuel (enterMiss (bumpTotal st) (.nodeConstraints n)) p with
            | fail e => rw [hc] at h; cases h
            | ok pr =>
              obtain ⟨pc, st2⟩ := pr
              rw [hc] at h; dsimp only at h
              obtain ⟨hrev2, hsig2, hstk2, -⟩ := ihC _ _ _ _ hc
              cases hidx : (c.childrenOf p).findIdx? (fun m => m == n) with
              | none => rw [hidx] at h; cases h
              | some k =>
                rw [hidx] at h; dsimp only at h
                cases hl : c.layouterOf p with
                | row =>
                  rw [hl] at h; dsimp only at h
                  by_cases hk : k = 0
                  · rw [if_pos hk] at h
                    exact finishConsFrame (by simp [hrev2]) (by simp [hsig2]) (by simp [hstk2]) h
                  · rw [if_neg hk] at h
                    cases hn : evalNth c fuel st2 p (k - 1) with
                    | fail e => rw [hn] at h; cases h
                    | ok pr2 =>
                      obtain ⟨prev, st3⟩ := pr2
                      rw [hn] at h; dsimp only at h
                      obtain ⟨hrev3, hsig3, hstk3, -⟩ := evalNthFrame hn
                      cases hs : evalSize c fuel st3 prev with
                      | fail e => rw [hs] at h; cases h
                      | ok pr3 =>
                        obtain ⟨ps, st4⟩ := pr3
                        rw [hs] at h; dsimp only at h
                        obtain ⟨hrev4, hsig4, hstk4, -⟩ := ihS _ _ _ _ hs
                        cases hp : evalPos c fuel st4 prev with
                        | fail e => rw [hp] at h; cases h
                        | ok pr4 =>
                          obtain ⟨pp, st5⟩ := pr4
                          rw [hp] at h; dsimp only at h
                          obtain ⟨hrev5, hsig5, hstk5, -⟩ := ihP _ _ _ _ hp
                          exact finishConsFrame (by simp [hrev5, hrev4, hrev3, hrev2])
                            (by simp [hsig5, hsig4, hsig3, hsig2])
                            (by simp [hstk5, hstk4, hstk3, hstk2]) h
                | padded t b l r =>
                  rw [hl] at h; dsimp only at h
                  exact finishConsFrame (by simp [hrev2]) (by simp [hsig2]) (by simp [hstk2]) h
                | centered =>
                  rw [hl] at h; dsimp only at h
                  exact finishConsFrame (by simp [hrev2]) (by simp [hsig2]) (by simp [hstk2]) h
                | dynBox sid =>
                  rw [hl] at h; dsimp only at h
                  exact finishConsFrame (by simp [hrev2]) (by simp [hsig2]) (by simp [hstk2]) h
                | sizedBox s =>
                  rw [hl] at h; dsimp only at h
                  exact finishConsFrame (by simp [hrev2]) (by simp [hsig2]) (by simp [hstk2]) h
                | selfLoop =>
                  rw [hl] at h; dsimp only at h
                  exact finishConsFrame (by simp [hrev2]) (by simp [hsig2]) (by simp [hstk2]) h

/-- Frame facts of a successful `query_node_size` call (projection of
`evalFrames`). -/
theorem evalSizeFrame {c : Ctx} {fuel : Nat} {st : St} {n : Nat} {v : SizeV} {st' : St}
    (h : evalSize c fuel st n = .ok (v, st')) :
    st'.revision = st.revision ∧ st'.signals = st.signals ∧
    st'.queryStack = st.queryStack ∧
    ∃ e, alook st'.sizeCache n = some e ∧ e.value = v ∧ st'.revision ≤ e.validThrough :=
  (evalFrames c fuel).1 st n v st' h

/-- Frame facts of a successful `query_node_position` call. -/
theorem evalPosFrame {c : Ctx} {fuel : Nat} {st : St} {n : Nat} {v : PointV} {st' : St}
    (h : evalPos c fuel st n = .ok (v, st')) :
    st'.revision = st.revision ∧ st'.signals = st.signals ∧
    st'.queryStack = st.queryStack ∧
    ∃ e, alook st'.posCache n = some e ∧ e.value = v ∧ st'.revision ≤ e.validThrough :=
  (evalFrames c fuel).2.1 st n v st' h

/-- Frame facts of a successful `query_node_constraints` call. -/
theorem evalConsFrame {c : Ctx} {fuel : Nat} {st : St} {n : Nat} {v : Constraints} {st' : St}
    (h : evalCons c fuel st n = .ok (v, st') ) :
    st'.revision = st.revision ∧ st'.signals = st.signals ∧
    st'.queryStack = st.queryStack ∧
    ∃ e, alook st'.consCache n = some e ∧ e.value = v ∧ st'.revision ≤ e.validThrough :=
  (evalFrames c fuel).2.2 st n v st' h

/-- The cache-hit behaviour of `query_node_size`: a valid entry is returned
as is, the only state change being the debug hit counter (and the ghost read
log). -/
theorem evalSizeHit {c : Ctx} {fuel : Nat} {st : St} {n : Nat} {e : Entry SizeV}
    (ha : alook st.sizeCache n = some e) (hle : st.revision ≤ e.validThrough) :
    evalSize c (fuel + 1) st n = .ok (e.value, hitReturn (bumpTotal st) (.nodeSize n)) := by
  rw [evalSize]
  have hv : validLook (bumpTotal st).sizeCache n (bumpTotal st).revision = some e :=
    validLook_some.mpr ⟨by simpa using ha, by simpa using hle⟩
  rw [hv]

/-- The cache-hit behaviour of `query_node_position`. -/
theorem evalPosHit {c : Ctx} {fuel : Nat} {st : St} {n : Nat} {e : Entry PointV}
    (ha : alook st.posCache n = some e) (hle : st.revision ≤ e.validThrough) :
    evalPos c (fuel + 1) st n = .ok (e.value, hitReturn (bumpTotal st) (.nodePosition n)) := by
  rw [evalPos]
  have hv : validLook (bumpTotal st).posCache n (bumpTotal st).revision = some e :=
    validLook_some.mpr ⟨by simpa using ha, by simpa using hle⟩
  rw [hv]

/-- The cache-hit behaviour of `query_node_constraints`. -/
theorem evalConsHit {c : Ctx} {fuel : Nat} {st : St} {n : Nat} {e : Entry Constraints}
    (ha : alook st.consCache n = some e) (hle : st.revision ≤ e.validThrough) :
    evalCons c (fuel + 1) st n = .ok (e.value, hitReturn (bumpTotal st) (.nodeConstraints n)) := by
  rw [evalCons]
  have hv : validLook (bumpTotal st).consCache n (bumpTotal st).revision = some e :=
    validLook_some.mpr ⟨by simpa using ha, by simpa using hle⟩
  rw [hv]

/-- The cache-hit behaviour of `query_nth_child`. -/
theorem evalNthHit {c : Ctx} {fuel : Nat} {st : St} {p k : Nat} {e : Entry Nat}
    (ha : alook st.nthCache (p, k) = some e) (hle : st.revision ≤ e.validThrough) :
    evalNth c (fuel + 1) st p k = .ok (e.value, hitReturn (bumpTotal st) (.nthChild p k)) := by
  rw [evalNth]
  have hv : validLook (bumpTotal st).nthCache (p, k) (bumpTotal st).revision = some e :=
    validLook_some.mpr ⟨by simpa using ha, by simpa using hle⟩
  rw [hv]

/-- C6: determinism — for a fixed tree topology and fixed signal values, a
repeated `evaluate` of the same query with no intervening mutation returns
the same value, for each of the four query kinds. -/
theorem C6_determinism (c : Ctx)
    (f1 f2 f3 f4 g1 g2 g3 g4 : Nat)
    (st1 st1' : St) (n1 : Nat) (v1 : SizeV)
    (st2 st2' : St) (n2 : Nat) (v2 : PointV)
    (st3 st3' : St) (n3 : Nat) (v3 : Constraints)
    (st4 st4' : St) (p4 k4 v4 : Nat)
    (h1 : evalSize c f1 st1 n1 = .ok (v1, st1'))
    (h2 : evalPos c f2 st2 n2 = .ok (v2, st2'))
    (h3 : evalCons c f3 st3 n3 = .ok (v3, st3'))
    (h4 : evalNth c f4 st4 p4 k4 = .ok (v4, st4')) :
    (∃ stA, evalSize c (g1 + 1) st1' n1 = .ok (v1, stA)) ∧
    (∃ stB, evalPos c (g2 + 1) st2' n2 = .ok (v2, stB)) ∧
    (∃ stC, evalCons c (g3 + 1) st3' n3 = .ok (v3, stC)) ∧
    (∃ stD, evalNth c (g4 + 1) st4' p4 k4 = .ok (v4, stD)) := by
  refine ⟨?_, ?_, ?_, ?_⟩
  · obtain ⟨-, -, -, e, ha, hval, hle⟩ := evalSizeFrame h1
    exact ⟨_, by rw [evalSizeHit ha hle, hval]⟩
  · obtain ⟨-, -, -, e, ha, hval, hle⟩ := evalPosFrame h2
    exact ⟨_, by rw [evalPosHit ha hle, hval]⟩
  · obtain ⟨-, -, -, e, ha, hval, hle⟩ := evalConsFrame h3
    exact ⟨_, by rw [evalConsHit ha hle, hval]⟩
  · obtain ⟨-, -, -, e, ha, hval, hle⟩ := evalNthFrame h4
    exact ⟨_, by rw [evalNthHit ha hle, hval]⟩

/-- C6 witness: the determinism theorem applied to the Row scenario — the
size of the Row, the position of node 3, the constraints of node 2 and the
first-child lookup each evaluate and then evaluate again to the same value. -/
theorem C6_determinism_witness :
    (∃ stA, evalSize (rowCtx 1000 600) (8 + 1) rowStFull 0 = .ok (⟨450, 600⟩, stA)) ∧
    (∃ stB, evalPos (rowCtx 1000 600) (8 + 1) rowStP3 3 = .ok (⟨250, 0⟩, stB)) ∧
    (∃ stC, evalCons (rowCtx 1000 600) (8 + 1) rowStC2 2 =
      .ok (⟨⟨0, 0⟩, ⟨900, 600⟩⟩, stC)) ∧
    (∃ stD, evalNth (rowCtx 1000 600) (8 + 1) rowStN 0 0 = .ok (1, stD)) :=
  C6_determinism (rowCtx 1000 600) 12 12 12 12 8 8 8 8
    (initSt []) rowStFull 0 ⟨450, 600⟩
    rowStFull rowStP3 3 ⟨250, 0⟩
    rowStP3 rowStC2 2 ⟨⟨0, 0⟩, ⟨900, 600⟩⟩
    rowStC2 rowStN 0 0 1
    (by decide) (by decide) (by decide) (by decide)

/-- C5: cache-hit frame condition — when a query of any of the four kinds
finds a cache entry whose `valid_through` stamp is at least the current
revision, it returns the cached value, and the resulting state differs from
the input state only in the debug hit/total counters and the ghost read log:
no query definition is executed (`execs` unchanged), the evaluation stack is
unchanged, no dependency edge or vertex is added, no cache entry of any kind
is modified, and the revision and signal store are untouched. -/
theorem C5_cache_hit_frame (c : Ctx) (fuelA fuelB fuelC fuelD : Nat)
    (stA : St) (nA : Nat) (eA : Entry SizeV)
    (stB : St) (nB : Nat) (eB : Entry PointV)
    (stC : St) (nC : Nat) (eC : Entry Constraints)
    (stD : St) (pD kD : Nat) (eD : Entry Nat)
    (haA : alook stA.sizeCache nA = some eA) (hleA : stA.revision ≤ eA.validThrough)
    (haB : alook stB.posCache nB = some eB) (hleB : stB.revision ≤ eB.validThrough)
    (haC : alook stC.consCache nC = some eC) (hleC : stC.revision ≤ eC.validThrough)
    (haD : alook stD.nthCache (pD, kD) = some eD) (hleD : stD.revision ≤ eD.validThrough) :
    (evalSize c (fuelA + 1) stA nA = .ok (eA.value, hitReturn (bumpTotal stA) (.nodeSize nA)) ∧
      (hitReturn (bumpTotal stA) (.nodeSize nA)).sizeCache = stA.sizeCache ∧
      (hitReturn (bumpTotal stA) (.nodeSize nA)).posCache = stA.posCache ∧
      (hitReturn (bumpTotal stA) (.nodeSize nA)).consCache = stA.consCache ∧
      (hitReturn (bumpTotal stA) (.nodeSize nA)).nthCache = stA.nthCache ∧
      (hitReturn (bumpTotal stA) (.nodeSize nA)).depEdges = stA.depEdges ∧
      (hitReturn (bumpTotal stA) (.nodeSize nA)).depNodes = stA.depNodes ∧
      (hitReturn (bumpTotal stA) (.nodeSize nA)).queryStack = stA.queryStack ∧
      (hitReturn (bumpTotal stA) (.nodeSize nA)).execs = stA.execs ∧
      (hitReturn (bumpTotal stA) (.nodeSize nA)).revision = stA.revision ∧
      (hitReturn (bumpTotal stA) (.nodeSize nA)).signals = stA.signals) ∧
    (evalPos c (fuelB + 1) stB nB = .ok (eB.value, hitReturn (bumpTotal stB) (.nodePosition nB)) ∧
      (hitReturn (bumpTotal stB) (.nodePosition nB)).posCache = stB.posCache ∧
      (hitReturn (bumpTotal stB) (.nodePosition nB)).depEdges = stB.depEdges ∧
      (hitReturn (bumpTotal stB) (.nodePosition nB)).queryStack = stB.queryStack ∧
      (hitReturn (bumpTotal stB) (.nodePosition nB)).execs = stB.execs) ∧
    (evalCons c (fuelC + 1) stC nC =
        .ok (eC.value, hitReturn (bumpTotal stC) (.nodeConstraints nC)) ∧
      (hitReturn (bumpTotal stC) (.nodeConstraints nC)).consCache = stC.consCache ∧
      (hitReturn (bumpTotal stC) (.nodeConstraints nC)).depEdges = stC.depEdges ∧
      (hitReturn (bumpTotal stC) (.nodeConstraints nC)).queryStack = stC.queryStack ∧
      (hitReturn (bumpTotal stC) (.nodeConstraints nC)).execs = stC.execs) ∧
    (evalNth c (fuelD + 1) stD pD kD =
        .ok (eD.value, hitReturn (bumpTotal stD) (.nthChild pD kD)) ∧
      (hitReturn (bumpTotal stD) (.nthChild pD kD)).nthCache = stD.nthCache ∧
      (hitReturn (bumpTotal stD) (.nthChild pD kD)).depEdges = stD.depEdges ∧
      (hitReturn (bumpTotal stD) (.nthChild pD kD)).queryStack = stD.queryStack ∧
      (hitReturn (bumpTotal stD) (.nthChild pD kD)).execs = stD.execs) := by
  refine ⟨⟨evalSizeHit haA hleA, ?_, ?_, ?_, ?_, ?_, ?_, ?_, ?_, ?_, ?_⟩,
    ⟨evalPosHit haB hleB, ?_, ?_, ?_, ?_⟩,
    ⟨evalConsHit haC hleC, ?_, ?_, ?_, ?_⟩,
    ⟨evalNthHit haD hleD, ?_, ?_, ?_, ?_⟩⟩ <;> simp

/-- C5 witness: the cache-hit frame condition applied to the fully evaluated
Row scenario, where every kind of query has a valid entry at revision 0. -/
theorem C5_cache_hit_frame_witness :
    (evalSize (rowCtx 1000 600) (5 + 1) rowStFull 0 =
        .ok ((⟨450, 600⟩ : SizeV), hitReturn (bumpTotal rowStFull) (.nodeSize 0)) ∧
      (hitReturn (bumpTotal rowStFull) (.nodeSize 0)).sizeCache = rowStFull.sizeCache ∧
      (hitReturn (bumpTotal rowStFull) (.nodeSize 0)).posCache = rowStFull.posCache ∧
      (hitReturn (bumpTotal rowStFull) (.nodeSize 0)).consCache = rowStFull.consCache ∧
      (hitReturn (bumpTotal rowStFull) (.nodeSize 0)).nthCache = rowStFull.nthCache ∧
      (hitReturn (bumpTotal rowStFull) (.nodeSize 0)).depEdges = rowStFull.depEdges ∧
      (hitReturn (bumpTotal rowStFull) (.nodeSize 0)).depNodes = rowStFull.depNodes ∧
      (hitReturn (bumpTotal rowStFull) (.nodeSize 0)).queryStack = rowStFull.queryStack ∧
      (hitReturn (bumpTotal rowStFull) (.nodeSize 0)).execs = rowStFull.execs ∧
      (hitReturn (bumpTotal rowStFull) (.nodeSize 0)).revision = rowStFull.revision ∧
      (hitReturn (bumpTotal rowStFull) (.nodeSize 0)).signals = rowStFull.signals) ∧
    (evalPos (rowCtx 1000 600) (5 + 1) rowStFull 3 =
        .ok ((⟨250, 0⟩ : PointV), hitReturn (bumpTotal rowStFull) (.nodePosition 3)) ∧
      (hitReturn (bumpTotal rowStFull) (.nodePosition 3)).posCache = rowStFull.posCache ∧
      (hitReturn (bumpTotal rowStFull) (.nodePosition 3)).depEdges = rowStFull.depEdges ∧
      (hitReturn (bumpTotal rowStFull) (.nodePosition 3)).queryStack = rowStFull.queryStack ∧
      (hitReturn (bumpTotal rowStFull) (.nodePosition 3)).execs = rowStFull.execs) ∧
    (evalCons (rowCtx 1000 600) (5 + 1) rowStFull 2 =
        .ok ((⟨⟨0, 0⟩, ⟨900, 600⟩⟩ : Constraints),
          hitReturn (bumpTotal rowStFull) (.nodeConstraints 2)) ∧
      (hitReturn (bumpTotal rowStFull) (.nodeConstraints 2)).consCache = rowStFull.consCache ∧
      (hitReturn (bumpTotal rowStFull) (.nodeConstraints 2)).depEdges = rowStFull.depEdges ∧
      (hitReturn (bumpTotal rowStFull) (.nodeConstraints 2)).queryStack = rowStFull.queryStack ∧
      (hitReturn (bumpTotal rowStFull) (.nodeConstraints 2)).execs = rowStFull.execs) ∧
    (evalNth (rowCtx 1000 600) (5 + 1) rowStFull 0 0 =
        .ok (1, hitReturn (bumpTotal rowStFull) (.nthChild 0 0)) ∧
      (hitReturn (bumpTotal rowStFull) (.nthChild 0 0)).nthCache = rowStFull.nthCache ∧
      (hitReturn (bumpTotal rowStFull) (.nthChild 0 0)).depEdges = rowStFull.depEdges ∧
      (hitReturn (bumpTotal rowStFull) (.nthChild 0 0)).queryStack = rowStFull.queryStack ∧
      (hitReturn (bumpTotal rowStFull) (.nthChild 0 0)).execs = rowStFull.execs) :=
  C5_cache_hit_frame (rowCtx 1000 600) 5 5 5 5
    rowStFull 0 ⟨⟨450, 600⟩, 0, 0⟩
    rowStFull 3 ⟨⟨250, 0⟩, 0, 0⟩
    rowStFull 2 ⟨⟨⟨0, 0⟩, ⟨900, 600⟩⟩, 0, 0⟩
    rowStFull 0 0 ⟨1, 0, 0⟩
    (by decide) (by decide) (by decide) (by decide)
    (by decide) (by decide) (by decide) (by decide)

/-- C7: `nth_child` addressed at or beyond the child count fails fatally
(the `unwrap` of the empty iterator position — modelled as the `crashed`
outcome), rather than returning any default value. -/
theorem C7_nth_child_out_of_range (c : Ctx) (fuel : Nat) (st : St) (p k : Nat)
    (hmiss : validLook st.nthCache (p, k) st.revision = none)
    (hk : (c.childrenOf p).length ≤ k) :
    evalNth c (fuel + 1) st p k = .fail .crashed := by
  rw [evalNth]
  have hv : validLook (bumpTotal st).nthCache (p, k) (bumpTotal st).revision = none := by
    simpa using hmiss
  rw [hv]
  dsimp only
  have hg : (c.childrenOf p)[k]? = none := by
    exact List.getElem?_eq_none hk
  rw [hg]

/-- C7 witness: asking the Row for its 6th child (it has 3) fails with the
fatal `crashed` outcome on a fresh tree. -/
theorem C7_nth_child_out_of_range_witness :
    evalNth (rowCtx 1000 600) (8 + 1) (initSt []) 0 5 = .fail .crashed :=
  C7_nth_child_out_of_range (rowCtx 1000 600) 8 (initSt []) 0 5 (by decide) (by decide)

/-- Helper for the cycle analysis: on the one-node self-loop tree a
constraints query always succeeds when it has fuel, and it touches neither
the size cache nor the revision. -/
theorem evalConsCycAux (f : Nat) (st : St) (hf : 0 < f) :
    ∃ C st2, evalCons cycCtx f st 0 = .ok (C, st2) ∧
      st2.sizeCache = st.sizeCache ∧ st2.revision = st.revision := by
  match f, hf with
  | f + 1, _ =>
    rw [evalCons]
    cases hv : validLook (bumpTotal st).consCache 0 (bumpTotal st).revision with
    | some e => exact ⟨e.value, _, rfl, by simp, by simp⟩
    | none =>
      dsimp only
      have hroot : (0 : Nat) = cycCtx.root := rfl
      rw [if_pos hroot]
      unfold finishCons
      exact ⟨_, _, rfl, by simp, by simp⟩

/-- Helper for the cycle analysis: whenever the size of the self-loop node
has no valid cache entry, its evaluation exhausts any fuel. -/
theorem evalSizeCycDiverges (fuel : Nat) :
    ∀ st : St, validLook st.sizeCache 0 st.revision = none →
      evalSize cycCtx fuel st 0 = .fail .outOfFuel := by
  induction fuel with
  | zero => intro st _; rw [evalSize]
  | succ fuel ih =>
    intro st hP
    rw [evalSize]
    have hv : validLook (bumpTotal st).sizeCache 0 (bumpTotal st).revision = none := by
      simpa using hP
    rw [hv]
    dsimp only
    match fuel, ih with
    | 0, _ => rfl
    | f + 1, ih =>
      obtain ⟨C, st2, hc, hsz, hrev⟩ :=
        evalConsCycAux (f + 1) (enterMiss (bumpTotal st) (.nodeSize 0)) (Nat.succ_pos f)
      rw [hc]
      dsimp only
      have hl : cycCtx.layouterOf 0 = .selfLoop := rfl
      rw [hl]
      dsimp only
      have hP2 : validLook st2.sizeCache 0 st2.revision = none := by
        rw [hsz, hrev]
        simpa using hP
      rw [ih st2 hP2]

/-- C2 (amended): the engine has no re-entrancy guard.  Evaluating the size
of a node whose hand-constructed strategy re-enters `evaluate(NodeSize)` of
the same node never terminates: it exhausts every recursion budget (`fuel`)
instead of failing with a distinct cyclic-dependency error — no such error
kind exists anywhere in the engine. -/
theorem C2_cycle_unguarded_diverges :
    ∀ fuel : Nat, evalSize cycCtx fuel (initSt []) 0 = .fail .outOfFuel :=
  fun fuel => evalSizeCycDiverges fuel (initSt []) rfl

/-- C2 counterexample: at the concrete cyclic input, evaluation with an
ample budget of 40 produces fuel exhaustion (the model of unbounded
recursion), not the fatal in-engine failure outcome — so the claim that the
call fails with a distinct `CyclicDependencyError` is false on this code. -/
theorem C2_cycle_counterexample :
    evalSize cycCtx 40 (initSt []) 0 = .fail .outOfFuel ∧
    evalSize cycCtx 40 (initSt []) 0 ≠ .fail .crashed := by
  decide

/-- C8: the Row scenario.  For the Row of three fixed boxes 100×50, 150×80,
200×30 the children's positions evaluate to (0,0), (100,0), (250,0); the
Row's size evaluates to width 450 with height equal to the ambient max
height (600 under a 1000×600 window and 777 under a 1000×777 window — the
root's incoming constraints — and not the maximum child height 80).  The
final conjunct is the general law behind the height: any cache-missing Row
size query returns `last child x + last child width` as width and its own
incoming max-height constraint as height. -/
theorem C8_row_scenario (c : Ctx) (fuel : Nat) (st : St) (n : Nat)
    (C : Constraints) (st2 : St) (lastC : Nat) (P : PointV) (st3 : St)
    (S : SizeV) (st4 : St)
    (hmiss : validLook st.sizeCache n st.revision = none)
    (hrow : c.layouterOf n = .row)
    (hcons : evalCons c fuel (enterMiss (bumpTotal st) (.nodeSize n)) n = .ok (C, st2))
    (hlast : (c.childrenOf n).getLast? = some lastC)
    (hpos : evalPos c fuel st2 lastC = .ok (P, st3))
    (hsize : evalSize c fuel st3 lastC = .ok (S, st4)) :
    fstVal (evalPos (rowCtx 1000 600) 10 (initSt []) 1) = some ⟨0, 0⟩ ∧
    fstVal (evalPos (rowCtx 1000 600) 10 (initSt []) 2) = some ⟨100, 0⟩ ∧
    fstVal (evalPos (rowCtx 1000 600) 10 (initSt []) 3) = some ⟨250, 0⟩ ∧
    fstVal (evalSize (rowCtx 1000 600) 10 (initSt []) 0) = some ⟨450, 600⟩ ∧
    fstVal (evalCons (rowCtx 1000 600) 10 (initSt []) 0) = some ⟨⟨0, 0⟩, ⟨1000, 600⟩⟩ ∧
    fstVal (evalSize (rowCtx 1000 777) 10 (initSt []) 0) = some ⟨450, 777⟩ ∧
    evalSize c (fuel + 1) st n =
      .ok (⟨P.x + S.width, C.max.height⟩,
        insertSizeC (popQuery st4) n
          ⟨⟨P.x + S.width, C.max.height⟩, (popQuery st4).revision, (popQuery st4).revision⟩) := by
  refine ⟨by decide, by decide, by decide, by decide, by decide, by decide, ?_⟩
  rw [evalSize]
  have hv : validLook (bumpTotal st).sizeCache n (bumpTotal st).revision = none := by
    simpa using hmiss
  rw [hv]
  dsimp only
  rw [hcons]
  dsimp only
  rw [hrow]
  dsimp only
  rw [hlast]
  dsimp only
  rw [hpos]
  dsimp only
  rw [hsize]
  dsimp only
  unfold finishSize
  rfl

/-- C8 witness: the general height law applied to the Row scenario's own
trace (the root's constraints are min 0 / max 1000×600, the last child sits
at (250,0) with size 200×30, so the Row's size is 450×600). -/
theorem C8_row_scenario_witness :
    fstVal (evalPos (rowCtx 1000 600) 10 (initSt []) 1) = some ⟨0, 0⟩ ∧
    fstVal (evalPos (rowCtx 1000 600) 10 (initSt []) 2) = some ⟨100, 0⟩ ∧
    fstVal (evalPos (rowCtx 1000 600) 10 (initSt []) 3) = some ⟨250, 0⟩ ∧
    fstVal (evalSize (rowCtx 1000 600) 10 (initSt []) 0) = some ⟨450, 600⟩ ∧
    fstVal (evalCons (rowCtx 1000 600) 10 (initSt []) 0) = some ⟨⟨0, 0⟩, ⟨1000, 600⟩⟩ ∧
    fstVal (evalSize (rowCtx 1000 777) 10 (initSt []) 0) = some ⟨450, 777⟩ ∧
    evalSize (rowCtx 1000 600) (11 + 1) (initSt []) 0 =
      .ok (⟨(⟨250, 0⟩ : PointV).x + (⟨200, 30⟩ : SizeV).width,
            (⟨⟨0, 0⟩, ⟨1000, 600⟩⟩ : Constraints).max.height⟩,
        insertSizeC (popQuery rowStSizeLast) 0
          ⟨⟨(⟨250, 0⟩ : PointV).x + (⟨200, 30⟩ : SizeV).width,
              (⟨⟨0, 0⟩, ⟨1000, 600⟩⟩ : Constraints).max.height⟩,
            (popQuery rowStSizeLast).revision, (popQuery rowStSizeLast).revision⟩) :=
  C8_row_scenario (rowCtx 1000 600) 11 (initSt []) 0
    ⟨⟨0, 0⟩, ⟨1000, 600⟩⟩ rowStCons0 3 ⟨250, 0⟩ rowStPosLast ⟨200, 30⟩ rowStSizeLast
    (by decide) (by decide) (by decide) (by decide) (by decide) (by decide)

/-- C9 counterexample: for the `Padded` strategy of `src/main.rs` with
uniform margins 15 under incoming constraints min 0 / max 200×100, the
engine's constraints query for the sole child returns min (0,0) — the
incoming min unchanged — and max (170,70); the claim that the min is grown
by the margins (to (30,30)) is false. -/
theorem C9_padded_min_counterexample :
    fstVal (evalCons padCtx 10 (initSt []) 1) = some ⟨⟨0, 0⟩, ⟨170, 70⟩⟩ ∧
    (fstVal (evalCons padCtx 10 (initSt []) 1)).map Constraints.min = some ⟨0, 0⟩ ∧
    ((⟨0, 0⟩ : SizeV) : SizeV) ≠ ⟨30, 30⟩ := by
  decide

/-- C9 (amended): `Padded::constraints_for_child` of `src/main.rs` returns
the incoming constraints with max width shrunk by left+right and max height
shrunk by top+bottom but with min passed through unchanged; the min-growing
behaviour the claim describes is implemented only by the superseded
`Padded::constrain_child` of `src/tree.rs` / `PaddedLayouter::constrain_child`
of `src/layout.rs`, which grow the min by the margins (shown in the trailing
conjuncts, under no-underflow bounds for the `u32` max subtraction). -/
theorem C9_padded_constraints (c : Ctx) (fuel : Nat) (st : St) (n p : Nat)
    (t b l r : Qd) (pc : Constraints) (st2 : St) (k : Nat)
    (l2 r2 t2 b2 : Nat) (cc : LayoutConstraint)
    (hmiss : validLook st.consCache n st.revision = none)
    (hroot : ¬ n = c.root)
    (hpar : c.parentOf n = some p)
    (hcons : evalCons c fuel (enterMiss (bumpTotal st) (.nodeConstraints n)) p = .ok (pc, st2))
    (hidx : (c.childrenOf p).findIdx? (fun m => m == n) = some k)
    (hpad : c.layouterOf p = .padded t b l r)
    (hw : l2 + r2 ≤ cc.maxWidth) (hh : t2 + b2 ≤ cc.maxHeight) :
    evalCons c (fuel + 1) st n =
      .ok (paddedConstraintsForChild t b l r pc,
        insertConsC (popQuery st2) n
          ⟨paddedConstraintsForChild t b l r pc,
            (popQuery st2).revision, (popQuery st2).revision⟩) ∧
    (paddedConstraintsForChild t b l r pc).min = pc.min ∧
    (paddedConstraintsForChild t b l r pc).max.width = pc.max.width - l - r ∧
    (paddedConstraintsForChild t b l r pc).max.height = pc.max.height - t - b ∧
    (treePaddedConstrainChild l2 r2 t2 b2 cc).minWidth = cc.minWidth + l2 + r2 ∧
    (treePaddedConstrainChild l2 r2 t2 b2 cc).minHeight = cc.minHeight + t2 + b2 ∧
    (treePaddedConstrainChild l2 r2 t2 b2 cc).maxWidth + (l2 + r2) = cc.maxWidth ∧
    (treePaddedConstrainChild l2 r2 t2 b2 cc).maxHeight + (t2 + b2) = cc.maxHeight := by
  refine ⟨?_, rfl, rfl, rfl, rfl, rfl, ?_, ?_⟩
  · rw [evalCons]
    have hv : validLook (bumpTotal st).consCache n (bumpTotal st).revision = none := by
      simpa using hmiss
    rw [hv]
    dsimp only
    rw [if_neg hroot, hpar]
    dsimp only
    rw [hcons]
    dsimp only
    rw [hidx]
    dsimp only
    rw [hpad]
    dsimp only
    unfold finishCons
    rfl
  · show cc.maxWidth - l2 - r2 + (l2 + r2) = cc.maxWidth
    omega
  · show cc.maxHeight - t2 - b2 + (t2 + b2) = cc.maxHeight
    omega

/-- C9 witness: the amended statement applied to the Padded scenario
(uniform margin 15 under a 200×100 window, giving the child min (0,0) and
max (170,70)) and to a concrete `tree.rs` constraint box. -/
theorem C9_padded_constraints_witness :
    evalCons padCtx (7 + 1) (initSt []) 1 =
      .ok (paddedConstraintsForChild 15 15 15 15 ⟨⟨0, 0⟩, ⟨200, 100⟩⟩,
        insertConsC (popQuery padStCons0) 1
          ⟨paddedConstraintsForChild 15 15 15 15 ⟨⟨0, 0⟩, ⟨200, 100⟩⟩,
            (popQuery padStCons0).revision, (popQuery padStCons0).revision⟩) ∧
    (paddedConstraintsForChild 15 15 15 15 ⟨⟨0, 0⟩, ⟨200, 100⟩⟩).min = (⟨⟨0, 0⟩, ⟨200, 100⟩⟩ : Constraints).min ∧
    (paddedConstraintsForChild 15 15 15 15 ⟨⟨0, 0⟩, ⟨200, 100⟩⟩).max.width =
      (⟨⟨0, 0⟩, ⟨200, 100⟩⟩ : Constraints).max.width - 15 - 15 ∧
    (paddedConstraintsForChild 15 15 15 15 ⟨⟨0, 0⟩, ⟨200, 100⟩⟩).max.height =
      (⟨⟨0, 0⟩, ⟨200, 100⟩⟩ : Constraints).max.height - 15 - 15 ∧
    (treePaddedConstrainChild 3 3 3 3 ⟨1, 2, 100, 50⟩).minWidth = (⟨1, 2, 100, 50⟩ : LayoutConstraint).minWidth + 3 + 3 ∧
    (treePaddedConstrainChild 3 3 3 3 ⟨1, 2, 100, 50⟩).minHeight = (⟨1, 2, 100, 50⟩ : LayoutConstraint).minHeight + 3 + 3 ∧
    (treePaddedConstrainChild 3 3 3 3 ⟨1, 2, 100, 50⟩).maxWidth + (3 + 3) = (⟨1, 2, 100, 50⟩ : LayoutConstraint).maxWidth ∧
    (treePaddedConstrainChild 3 3 3 3 ⟨1, 2, 100, 50⟩).maxHeight + (3 + 3) = (⟨1, 2, 100, 50⟩ : LayoutConstraint).maxHeight :=
  C9_padded_constraints padCtx 7 (initSt []) 1 0 15 15 15 15 ⟨⟨0, 0⟩, ⟨200, 100⟩⟩
    padStCons0 0 3 3 3 3 ⟨1, 2, 100, 50⟩
    (by decide) (by decide) (by decide) (by decide) (by decide) (by decide)
    (by decide) (by decide)

/-- C10: `CenteredLayouter::size_for_self`.  A cache-missing size query for a
Centered node with zero children returns the incoming constraints' max size
(it does not fail); with at least one child it returns the first child's
size clamped componentwise into [min, max] by `Constraints::clamp_size`.
The two variable groups are independent instances of the two cases. -/
theorem C10_centered_size (cA : Ctx) (fuelA : Nat) (stA : St) (nA : Nat)
    (CA : Constraints) (stA2 : St)
    (cB : Ctx) (fuelB : Nat) (stB : St) (nB : Nat)
    (CB : Constraints) (stB2 : St) (c0 : Nat) (cs : List Nat) (s : SizeV) (stB3 : St)
    (hmissA : validLook stA.sizeCache nA stA.revision = none)
    (hcentA : cA.layouterOf nA = .centered)
    (hchA : cA.childrenOf nA = [])
    (hconsA : evalCons cA fuelA (enterMiss (bumpTotal stA) (.nodeSize nA)) nA = .ok (CA, stA2))
    (hmissB : validLook stB.sizeCache nB stB.revision = none)
    (hcentB : cB.layouterOf nB = .centered)
    (hchB : cB.childrenOf nB = c0 :: cs)
    (hconsB : evalCons cB fuelB (enterMiss (bumpTotal stB) (.nodeSize nB)) nB = .ok (CB, stB2))
    (hchild : evalSize cB fuelB stB2 c0 = .ok (s, stB3)) :
    evalSize cA (fuelA + 1) stA nA =
      .ok (CA.max, insertSizeC (popQuery stA2) nA
        ⟨CA.max, (popQuery stA2).revision, (popQuery stA2).revision⟩) ∧
    evalSize cB (fuelB + 1) stB nB =
      .ok (CB.clampSize s, insertSizeC (popQuery stB3) nB
        ⟨CB.clampSize s, (popQuery stB3).revision, (popQuery stB3).revision⟩) := by
  constructor
  · rw [evalSize]
    have hv : validLook (bumpTotal stA).sizeCache nA (bumpTotal stA).revision = none := by
      simpa using hmissA
    rw [hv]
    dsimp only
    rw [hconsA]
    dsimp only
    rw [hcentA]
    dsimp only
    rw [hchA]
    dsimp only
    unfold finishSize
    rfl
  · rw [evalSize]
    have hv : validLook (bumpTotal stB).sizeCache nB (bumpTotal stB).revision = none := by
      simpa using hmissB
    rw [hv]
    dsimp only
    rw [hconsB]
    dsimp only
    rw [hcentB]
    dsimp only
    rw [hchB]
    dsimp only
    rw [hchild]
    dsimp only
    unfold finishSize
    rfl

/-- C10 witness: a childless Centered root under a 300×200 window sizes to
300×200 (the incoming max), and a Centered root over a 500×50 fixed box
clamps the child's size into the window, giving 300×50. -/
theorem C10_centered_size_witness :
    evalSize centCtx0 (7 + 1) (initSt []) 0 =
      .ok ((⟨⟨0, 0⟩, ⟨300, 200⟩⟩ : Constraints).max, insertSizeC (popQuery centSt0Cons) 0
        ⟨(⟨⟨0, 0⟩, ⟨300, 200⟩⟩ : Constraints).max,
          (popQuery centSt0Cons).revision, (popQuery centSt0Cons).revision⟩) ∧
    evalSize centCtx1 (7 + 1) (initSt []) 0 =
      .ok ((⟨⟨0, 0⟩, ⟨300, 200⟩⟩ : Constraints).clampSize ⟨500, 50⟩,
        insertSizeC (popQuery centSt1Child) 0
          ⟨(⟨⟨0, 0⟩, ⟨300, 200⟩⟩ : Constraints).clampSize ⟨500, 50⟩,
            (popQuery centSt1Child).revision, (popQuery centSt1Child).revision⟩) :=
  C10_centered_size centCtx0 7 (initSt []) 0 ⟨⟨0, 0⟩, ⟨300, 200⟩⟩ centSt0Cons
    centCtx1 7 (initSt []) 0 ⟨⟨0, 0⟩, ⟨300, 200⟩⟩ centSt1Cons 1 [] ⟨500, 50⟩ centSt1Child
    (by decide) (by decide) (by decide) (by decide)
    (by decide) (by decide) (by decide) (by decide) (by decide)

theorem trackDependency_depEdges (st : St) (dep : QueryDep) :
    (trackDependency st dep).depEdges =
      match st.queryStack.head? with
      | none => st.depEdges
      | some q => (q, dep) :: st.depEdges := by
  unfold trackDependency
  cases h : st.queryStack.head? <;> simp

theorem enterMiss_reads (st : St) (q : QueryDep) :
    (enterMiss st q).reads =
      match st.queryStack.head? with
      | none => st.reads
      | some tp => (tp, q, false) :: st.reads := by
  unfold enterMiss recordRead
  cases h : st.queryStack.head? <;> simp

theorem enterMiss_depEdges (st : St) (q : QueryDep) :
    (enterMiss st q).depEdges =
      match st.queryStack.head? with
      | none => st.depEdges
      | some tp => (tp, q) :: st.depEdges := by
  unfold enterMiss
  rw [recordExec_depEdges, pushQuery_depEdges, trackDependency_depEdges]
  cases h : st.queryStack.head? with
  | none => rw [recordRead_queryStack, h]; simp
  | some tp => rw [recordRead_queryStack, h]; simp

theorem hitReturn_reads (st : St) (q : QueryDep) :
    (hitReturn st q).reads =
      match st.queryStack.head? with
      | none => st.reads
      | some tp => (tp, q, true) :: st.reads := by
  unfold hitReturn recordRead
  cases h : st.queryStack.head? <;> simp [h]

/-- Preservation of the edge invariant by a state transformation that leaves
the read log and the edge list alone. -/
theorem edgeInvOfEq {st st' : St} (hr : st'.reads = st.reads)
    (he : st'.depEdges = st.depEdges) (h : EdgeInv st) : EdgeInv st' := by
  obtain ⟨h1, h2⟩ := h
  constructor
  · intro q d hm; rw [hr] at hm; rw [he]; exact h1 q d hm
  · intro q sid b hm; rw [hr] at hm; exact h2 q sid b hm

theorem edgeInvEnterMiss {st : St} (q : QueryDep) (h : EdgeInv st) :
    EdgeInv (enterMiss st q) := by
  obtain ⟨h1, h2⟩ := h
  constructor
  · intro a d hm
    rw [enterMiss_reads] at hm
    rw [enterMiss_depEdges]
    cases hh : st.queryStack.head? with
    | none => rw [hh] at hm; exact h1 a d hm
    | some tp =>
      rw [hh] at hm
      rcases List.mem_cons.mp hm with heq | hold
      · have hpair : (a, d) = (tp, q) := by
          have := congrArg (fun x : QueryDep × QueryDep × Bool => (x.1, x.2.1)) heq
          simpa using this
        rw [hpair]
        exact List.mem_cons_self _ _
      · exact List.mem_cons_of_mem _ (h1 a d hold)
  · intro a sid b hm
    rw [enterMiss_reads] at hm
    cases hh : st.queryStack.head? with
    | none => rw [hh] at hm; exact h2 a sid b hm
    | some tp =>
      rw [hh] at hm
      rcases List.mem_cons.mp hm with heq | hold
      · have := congrArg (fun x : QueryDep × QueryDep × Bool => x.2.2) heq
        simpa using this
      · exact h2 a sid b hold

theorem edgeInvHitReturn {st : St} (q : QueryDep) (h : EdgeInv st)
    (hq : ∀ sid, q ≠ QueryDep.signal sid) : EdgeInv (hitReturn st q) := by
  obtain ⟨h1, h2⟩ := h
  constructor
  · intro a d hm
    rw [hitReturn_reads] at hm
    cases hh : st.queryStack.head? with
    | none => rw [hh] at hm; simpa using h1 a d hm
    | some tp =>
      rw [hh] at hm
      rcases List.mem_cons.mp hm with heq | hold
      · have := congrArg (fun x : QueryDep × QueryDep × Bool => x.2.2) heq
        simp at this
      · simpa using h1 a d hold
  · intro a sid b hm
    rw [hitReturn_reads] at hm
    cases hh : st.queryStack.head? with
    | none => rw [hh] at hm; exact h2 a sid b hm
    | some tp =>
      rw [hh] at hm
      rcases List.mem_cons.mp hm with heq | hold
      · have hqq : QueryDep.signal sid = q := by
          have := congrArg (fun x : QueryDep × QueryDep × Bool => x.2.1) heq
          simpa using this
        exact absurd hqq.symm (hq sid)
      · exact h2 a sid b hold

theorem sigTrack_reads (st : St) (sid : Nat) :
    (trackDependency (recordRead st (.signal sid) false) (.signal sid)).reads =
      match st.queryStack.head? with
      | none => st.reads
      | some tp => (tp, QueryDep.signal sid, false) :: st.reads := by
  rw [trackDependency_reads]
  unfold recordRead
  cases h : st.queryStack.head? <;> simp

theorem sigTrack_depEdges (st : St) (sid : Nat) :
    (trackDependency (recordRead st (.signal sid) false) (.signal sid)).depEdges =
      match st.queryStack.head? with
      | none => st.depEdges
      | some tp => (tp, QueryDep.signal sid) :: st.depEdges := by
  rw [trackDependency_depEdges, recordRead_queryStack]
  cases h : st.queryStack.head? with
  | none => simp
  | some tp => simp

theorem edgeInvGetSignal {st : St} {sid : Nat} {v : SizeV} {st' : St}
    (hg : getSignal st sid = .ok (v, st')) (h : EdgeInv st) : EdgeInv st' := by
  unfold getSignal at hg
  cases hs : st.signals[sid]? with
  | none => rw [hs] at hg; cases hg
  | some w =>
    rw [hs] at hg
    cases hg
    obtain ⟨h1, h2⟩ := h
    constructor
    · intro a d hm
      rw [sigTrack_reads] at hm
      rw [sigTrack_depEdges]
      cases hh : st.queryStack.head? with
      | none => rw [hh] at hm; exact h1 a d hm
      | some tp =>
        rw [hh] at hm
        rcases List.mem_cons.mp hm with heq | hold
        · have hpair : (a, d) = (tp, QueryDep.signal sid) := by
            have := congrArg (fun x : QueryDep × QueryDep × Bool => (x.1, x.2.1)) heq
            simpa using this
          rw [hpair]
          exact List.mem_cons_self _ _
        · exact List.mem_cons_of_mem _ (h1 a d hold)
    · intro a sid2 b hm
      rw [sigTrack_reads] at hm
      cases hh : st.queryStack.head? with
      | none => rw [hh] at hm; exact h2 a sid2 b hm
      | some tp =>
        rw [hh] at hm
        rcases List.mem_cons.mp hm with heq | hold
        · have := congrArg (fun x : QueryDep × QueryDep × Bool => x.2.2) heq
          simpa using this
        · exact h2 a sid2 b hold

theorem memReads_enterMiss {x : QueryDep × QueryDep × Bool} (st : St) (q : QueryDep)
    (hx : x ∈ st.reads) : x ∈ (enterMiss st q).reads := by
  rw [enterMiss_reads]
  cases h : st.queryStack.head? with
  | none => exact hx
  | some tp => exact List.mem_cons_of_mem _ hx

theorem memEdges_enterMiss {x : QueryDep × QueryDep} (st : St) (q : QueryDep)
    (hx : x ∈ st.depEdges) : x ∈ (enterMiss st q).depEdges := by
  rw [enterMiss_depEdges]
  cases h : st.queryStack.head? with
  | none => exact hx
  | some tp => exact List.mem_cons_of_mem _ hx

theorem memReads_hitReturn {x : QueryDep × QueryDep × Bool} (st : St) (q : QueryDep)
    (hx : x ∈ st.reads) : x ∈ (hitReturn st q).reads := by
  rw [hitReturn_reads]
  cases h : st.queryStack.head? with
  | none => exact hx
  | some tp => exact List.mem_cons_of_mem _ hx

theorem memReads_getSignal {st : St} {sid : Nat} {v : SizeV} {st' : St}
    {x : QueryDep × QueryDep × Bool}
    (hg : getSignal st sid = .ok (v, st')) (hx : x ∈ st.reads) : x ∈ st'.reads := by
  unfold getSignal at hg
  cases hs : st.signals[sid]? with
  | none => rw [hs] at hg; cases hg
  | some w =>
    rw [hs] at hg
    cases hg
    rw [sigTrack_reads]
    cases h : st.queryStack.head? with
    | none => exact hx
    | some tp => exact List.mem_cons_of_mem _ hx

theorem memEdges_getSignal {st : St} {sid : Nat} {v : SizeV} {st' : St}
    {x : QueryDep × QueryDep}
    (hg : getSignal st sid = .ok (v, st')) (hx : x ∈ st.depEdges) : x ∈ st'.depEdges := by
  unfold getSignal at hg
  cases hs : st.signals[sid]? with
  | none => rw [hs] at hg; cases hg
  | some w =>
    rw [hs] at hg
    cases hg
    rw [sigTrack_depEdges]
    cases h : st.queryStack.head? with
    | none => exact hx
    | some tp => exact List.mem_cons_of_mem _ hx

theorem evalNthEdgeInv {c : Ctx} {fuel : Nat} {st : St} {p k m : Nat} {st' : St}
    (h : evalNth c fuel st p k = .ok (m, st')) (hI : EdgeInv st) :
    EdgeInv st' ∧ (∀ x, x ∈ st.reads → x ∈ st'.reads) ∧
      (∀ x, x ∈ st.depEdges → x ∈ st'.depEdges) := by
  match fuel with
  | 0 => simp [evalNth] at h
  | fuel + 1 =>
    rw [evalNth] at h
    cases hv : validLook (bumpTotal st).nthCache (p, k) (bumpTotal st).revision with
    | some e =>
      rw [hv] at h
      cases h
      refine ⟨edgeInvHitReturn _ hI (fun _ h => by cases h), ?_, ?_⟩
      · intro x hx
        exact memReads_hitReturn (bumpTotal st) _ hx
      · intro x hx
        simpa using hx
    | none =>
      rw [hv] at h
      dsimp only at h
      cases hg : (c.childrenOf p)[k]? with
      | none => rw [hg] at h; cases h
      | some m0 =>
        rw [hg] at h
        unfold finishNth at h
        cases h
        refine ⟨edgeInvEnterMiss _ hI, ?_, ?_⟩
        · intro x hx
          exact memReads_enterMiss (bumpTotal st) _ hx
        · intro x hx
          exact memEdges_enterMiss (bumpTotal st) _ hx

/-- The dependency-recording soundness induction: evaluating any of the
three recursive query kinds from a state whose recorded edges cover all
logged non-hit reads yields a state with the same property, and the read
log and edge list only grow. -/
theorem evalEdgeInv (c : Ctx) (fuel : Nat) :
    (∀ st n v st', evalSize c fuel st n = .ok (v, st') → EdgeInv st →
      EdgeInv st' ∧ (∀ x, x ∈ st.reads → x ∈ st'.reads) ∧
      (∀ x, x ∈ st.depEdges → x ∈ st'.depEdges)) ∧
    (∀ st n v st', evalPos c fuel st n = .ok (v, st') → EdgeInv st →
      EdgeInv st' ∧ (∀ x, x ∈ st.reads → x ∈ st'.reads) ∧
      (∀ x, x ∈ st.depEdges → x ∈ st'.depEdges)) ∧
    (∀ st n v st', evalCons c fuel st n = .ok (v, st') → EdgeInv st →
      EdgeInv st' ∧ (∀ x, x ∈ st.reads → x ∈ st'.reads) ∧
      (∀ x, x ∈ st.depEdges → x ∈ st'.depEdges)) := by
  induction fuel with
  | zero =>
    refine ⟨?_, ?_, ?_⟩ <;> intro st n v st' h hI <;> simp [evalSize, evalPos, evalCons] at h
  | succ fuel ih =>
    obtain ⟨ihS, ihP, ihC⟩ := ih
    refine ⟨?_, ?_, ?_⟩
    · intro st n v st' h hI
      rw [evalSize] at h
      cases hv : validLook (bumpTotal st).sizeCache n (bumpTotal st).revision with
      | some e =>
        rw [hv] at h; cases h
        refine ⟨edgeInvHitReturn _ hI (fun _ hh => by cases hh), ?_, ?_⟩
        · intro x hx; exact memReads_hitReturn (bumpTotal st) _ hx
        · intro x hx; simpa using hx
      | none =>
        rw [hv] at h; dsimp only at h
        cases hc : evalCons c fuel (enterMiss (bumpTotal st) (.nodeSize n)) n with
        | fail e => rw [hc] at h; cases h
        | ok pr =>
          obtain ⟨cons, st2⟩ := pr
          rw [hc] at h; dsimp only at h
          obtain ⟨hE2, hR2, hD2⟩ := ihC _ _ _ _ hc (edgeInvEnterMiss _ hI)
          cases hl : c.layouterOf n with
          | row =>
            rw [hl] at h; dsimp only at h
            cases hlast : (c.childrenOf n).getLast? with
            | none => rw [hlast] at h; cases h
            | some lastC =>
              rw [hlast] at h; dsimp only at h
              cases hp : evalPos c fuel st2 lastC with
              | fail e => rw [hp] at h; cases h
              | ok pr2 =>
                obtain ⟨p, st3⟩ := pr2
                rw [hp] at h; dsimp only at h
                obtain ⟨hE3, hR3, hD3⟩ := ihP _ _ _ _ hp hE2
                cases hs : evalSize c fuel st3 lastC with
                | fail e => rw [hs] at h; cases h
                | ok pr3 =>
                  obtain ⟨s, st4⟩ := pr3
                  rw [hs] at h; dsimp only at h
                  obtain ⟨hE4, hR4, hD4⟩ := ihS _ _ _ _ hs hE3
                  unfold finishSize at h; cases h
                  refine ⟨hE4, ?_, ?_⟩
                  · intro x hx; exact hR4 x (hR3 x (hR2 x (memReads_enterMiss (bumpTotal st) _ hx)))
                  · intro x hx; exact hD4 x (hD3 x (hD2 x (memEdges_enterMiss (bumpTotal st) _ hx)))
          | padded t b l r =>
            rw [hl] at h; dsimp only at h
            cases hn : evalNth c fuel st2 n 0 with
            | fail e => rw [hn] at h; cases h
            | ok pr2 =>
              obtain ⟨fc, st3⟩ := pr2
              rw [hn] at h; dsimp only at h
              obtain ⟨hE3, hR3, hD3⟩ := evalNthEdgeInv hn hE2
              cases hs : evalSize c fuel st3 fc with
              | fail e => rw [hs] at h; cases h
              | ok pr3 =>
                obtain ⟨s, st4⟩ := pr3
                rw [hs] at h; dsimp only at h
                obtain ⟨hE4, hR4, hD4⟩ := ihS _ _ _ _ hs hE3
                unfold finishSize at h; cases h
                refine ⟨hE4, ?_, ?_⟩
                · intro x hx; exact hR4 x (hR3 x (hR2 x (memReads_enterMiss (bumpTotal st) _ hx)))
                · intro x hx; exact hD4 x (hD3 x (hD2 x (memEdges_enterMiss (bumpTotal st) _ hx)))
          | centered =>
            rw [hl] at h; dsimp only at h
            cases hch : c.childrenOf n with
            | nil =>
              rw [hch] at h; dsimp only at h
              unfold finishSize at h; cases h
              refine ⟨hE2, ?_, ?_⟩
              · intro x hx; exact hR2 x (memReads_enterMiss (bumpTotal st) _ hx)
              · intro x hx; exact hD2 x (memEdges_enterMiss (bumpTotal st) _ hx)
            | cons c0 cs =>
              rw [hch] at h; dsimp only at h
              cases hs : evalSize c fuel st2 c0 with
              | fail e => rw [hs] at h; cases h
              | ok pr2 =>
                obtain ⟨s, st3⟩ := pr2
                rw [hs] at h; dsimp only at h
                obtain ⟨hE3, hR3, hD3⟩ := ihS _ _ _ _ hs hE2
                unfold finishSize at h; cases h
                refine ⟨hE3, ?_, ?_⟩
                · intro x hx; exact hR3 x (hR2 x (memReads_enterMiss (bumpTotal st) _ hx))
                · intro x hx; exact hD3 x (hD2 x (memEdges_enterMiss (bumpTotal st) _ hx))
          | dynBox sid =>
            rw [hl] at h; dsimp only at h
            cases hg : getSignal st2 sid with
            | fail e => rw [hg] at h; cases h
            | ok pr2 =>
              obtain ⟨sv, st3⟩ := pr2
              rw [hg] at h; dsimp only at h
              have hE3 := edgeInvGetSignal hg hE2
              unfold finishSize at h; cases h
              refine ⟨hE3, ?_, ?_⟩
              · intro x hx
                show x ∈ st3.reads
                exact memReads_getSignal hg (hR2 x (memReads_enterMiss (bumpTotal st) _ hx))
              · intro x hx
                show x ∈ st3.depEdges
                exact memEdges_getSignal hg (hD2 x (memEdges_enterMiss (bumpTotal st) _ hx))
          | sizedBox s =>
            rw [hl] at h; dsimp only at h
            unfold finishSize at h; cases h
            refine ⟨hE2, ?_, ?_⟩
            · intro x hx; exact hR2 x (memReads_enterMiss (bumpTotal st) _ hx)
            · intro x hx; exact hD2 x (memEdges_enterMiss (bumpTotal st) _ hx)
          | selfLoop =>
            rw [hl] at h; dsimp only at h
            cases hs : evalSize c fuel st2 n with
            | fail e => rw [hs] at h; cases h
            | ok pr2 =>
              obtain ⟨s, st3⟩ := pr2
              rw [hs] at h; dsimp only at h
              obtain ⟨hE3, hR3, hD3⟩ := ihS _ _ _ _ hs hE2
              unfold finishSize at h; cases h
              refine ⟨hE3, ?_, ?_⟩
              · intro x hx; exact hR3 x (hR2 x (memReads_enterMiss (bumpTotal st) _ hx))
              · intro x hx; exact hD3 x (hD2 x (memEdges_enterMiss (bumpTotal st) _ hx))
    · intro st n v st' h hI
      rw [evalPos] at h
      cases hv : validLook (bumpTotal st).posCache n (bumpTotal st).revision with
      | some e =>
        rw [hv] at h; cases h
        refine ⟨edgeInvHitReturn _ hI (fun _ hh => by cases hh), ?_, ?_⟩
        · intro x hx; exact memReads_hitReturn (bumpTotal st) _ hx
        · intro x hx; simpa using hx
      | none =>
        rw [hv] at h; dsimp only at h
        by_cases hroot : n = c.root
        · rw [if_pos hroot] at h
          unfold finishPos at h; cases h
          refine ⟨edgeInvEnterMiss _ hI, ?_, ?_⟩
          · intro x hx; exact memReads_enterMiss (bumpTotal st) _ hx
          · intro x hx; exact memEdges_enterMiss (bumpTotal st) _ hx
        · rw [if_neg hroot] at h
          cases hpar : c.parentOf n with
          | none => rw [hpar] at h; cases h
          | some p =>
            rw [hpar] at h; dsimp only at h
            cases hidx : (c.childrenOf p).findIdx? (fun m => m == n) with
            | none => rw [hidx] at h; cases h
            | some k =>
              rw [hidx] at h; dsimp only at h
              cases hl : c.layouterOf p with
              | row =>
                rw [hl] at h; dsimp only at h
                by_cases hk : k = 0
                · rw [if_pos hk] at h
                  unfold finishPos at h; cases h
                  refine ⟨edgeInvEnterMiss _ hI, ?_, ?_⟩
                  · intro x hx; exact memReads_enterMiss (bumpTotal st) _ hx
                  · intro x hx; exact memEdges_enterMiss (bumpTotal st) _ hx
                · rw [if_neg hk] at h
                  cases hn : evalNth c fuel (enterMiss (bumpTotal st) (.nodePosition n)) p (k - 1) with
                  | fail e => rw [hn] at h; cases h
                  | ok pr =>
                    obtain ⟨prev, st2⟩ := pr
                    rw [hn] at h; dsimp only at h
                    obtain ⟨hE2, hR2, hD2⟩ := evalNthEdgeInv hn (edgeInvEnterMiss _ hI)
                    cases hs : evalSize c fuel st2 prev with
                    | fail e => rw [hs] at h; cases h
                    | ok pr2 =>
                      obtain ⟨ps, st3⟩ := pr2
                      rw [hs] at h; dsimp only at h
                      obtain ⟨hE3, hR3, hD3⟩ := ihS _ _ _ _ hs hE2
                      cases hp : evalPos c fuel st3 prev with
                      | fail e => rw [hp] at h; cases h
                      | ok pr3 =>
                        obtain ⟨pp, st4⟩ := pr3
                        rw [hp] at h; dsimp only at h
                        obtain ⟨hE4, hR4, hD4⟩ := ihP _ _ _ _ hp hE3
                        unfold finishPos at h; cases h
                        refine ⟨hE4, ?_, ?_⟩
                        · intro x hx
                          exact hR4 x (hR3 x (hR2 x (memReads_enterMiss (bumpTotal st) _ hx)))
                        · intro x hx
                          exact hD4 x (hD3 x (hD2 x (memEdges_enterMiss (bumpTotal st) _ hx)))
              | padded t b l r =>
                rw [hl] at h; dsimp only at h
                unfold finishPos at h; cases h
                refine ⟨edgeInvEnterMiss _ hI, ?_, ?_⟩
                · intro x hx; exact memReads_enterMiss (bumpTotal st) _ hx
                · intro x hx; exact memEdges_enterMiss (bumpTotal st) _ hx
              | centered =>
                rw [hl] at h; dsimp only at h
                cases hs : evalSize c fuel (enterMiss (bumpTotal st) (.nodePosition n)) p with
                | fail e => rw [hs] at h; cases h
                | ok pr =>
                  obtain ⟨ss, st2⟩ := pr
                  rw [hs] at h; dsimp only at h
                  obtain ⟨hE2, hR2, hD2⟩ := ihS _ _ _ _ hs (edgeInvEnterMiss _ hI)
                  cases hn : evalNth c fuel st2 p k with
                  | fail e => rw [hn] at h; cases h
                  | ok pr2 =>
                    obtain ⟨ch, st3⟩ := pr2
                    rw [hn] at h; dsimp only at h
                    obtain ⟨hE3, hR3, hD3⟩ := evalNthEdgeInv hn hE2
                    cases hs2 : evalSize c fuel st3 ch with
                    | fail e => rw [hs2] at h; cases h
                    | ok pr3 =>
                      obtain ⟨cs, st4⟩ := pr3
                      rw [hs2] at h; dsimp only at h
                      obtain ⟨hE4, hR4, hD4⟩ := ihS _ _ _ _ hs2 hE3
                      unfold finishPos at h; cases h
                      refine ⟨hE4, ?_, ?_⟩
                      · intro x hx
                        exact hR4 x (hR3 x (hR2 x (memReads_enterMiss (bumpTotal st) _ hx)))
                      · intro x hx
                        exact hD4 x (hD3 x (hD2 x (memEdges_enterMiss (bumpTotal st) _ hx)))
              | dynBox sid =>
                rw [hl] at h; dsimp only at h
                unfold finishPos at h; cases h
                refine ⟨edgeInvEnterMiss _ hI, ?_, ?_⟩
                · intro x hx; exact memReads_enterMiss (bumpTotal st) _ hx
                · intro x hx; exact memEdges_enterMiss (bumpTotal st) _ hx
              | sizedBox s =>
                rw [hl] at h; dsimp only at h
                unfold finishPos at h; cases h
                refine ⟨edgeInvEnterMiss _ hI, ?_, ?_⟩
                · intro x hx; exact memReads_enterMiss (bumpTotal st) _ hx
                · intro x hx; exact memEdges_enterMiss (bumpTotal st) _ hx
              | selfLoop =>
                rw [hl] at h; dsimp only at h
                unfold finishPos at h; cases h
                refine ⟨edgeInvEnterMiss _ hI, ?_, ?_⟩
                · intro x hx; exact memReads_enterMiss (bumpTotal st) _ hx
                · intro x hx; exact memEdges_enterMiss (bumpTotal st) _ hx
    · intro st n v st' h hI
      rw [evalCons] at h
      cases hv : validLook (bumpTotal st).consCache n (bumpTotal st).revision with
      | some e =>
        rw [hv] at h; cases h
        refine ⟨edgeInvHitReturn _ hI (fun _ hh => by cases hh), ?_, ?_⟩
        · intro x hx; exact memReads_hitReturn (bumpTotal st) _ hx
        · intro x hx; simpa using hx
      | none =>
        rw [hv] at h; dsimp only at h
        by_cases hroot : n = c.root
        · rw [if_pos hroot] at h
          unfold finishCons at h; cases h
          refine ⟨edgeInvEnterMiss _ hI, ?_, ?_⟩
          · intro x hx; exact memReads_enterMiss (bumpTotal st) _ hx
          · intro x hx; exact memEdges_enterMiss (bumpTotal st) _ hx
        · rw [if_neg hroot] at h
          cases hpar : c.parentOf n with
          | none => rw [hpar] at h; cases h
          | some p =>
            rw [hpar] at h; dsimp only at h
            cases hc : evalCons c fuel (enterMiss (bumpTotal st) (.nodeConstraints n)) p with
            | fail e => rw [hc] at h; cases h
            | ok pr =>
              obtain ⟨pc, st2⟩ := pr
              rw [hc] at h; dsimp only at h
              obtain ⟨hE2, hR2, hD2⟩ := ihC _ _ _ _ hc (edgeInvEnterMiss _ hI)
              cases hidx : (c.childrenOf p).findIdx? (fun m => m == n) with
              | none => rw [hidx] at h; cases h
              | some k =>
                rw [hidx] at h; dsimp only at h
                cases hl : c.layouterOf p with
                | row =>
                  rw [hl] at h; dsimp only at h
                  by_cases hk : k = 0
                  · rw [if_pos hk] at h
                    unfold finishCons at h; cases h
                    refine ⟨hE2, ?_, ?_⟩
                    · intro x hx; exact hR2 x (memReads_enterMiss (bumpTotal st) _ hx)
                    · intro x hx; exact hD2 x (memEdges_enterMiss (bumpTotal st) _ hx)
                  · rw [if_neg hk] at h
                    cases hn : evalNth c fuel st2 p (k - 1) with
                    | fail e => rw [hn] at h; cases h
                    | ok pr2 =>
                      obtain ⟨prev, st3⟩ := pr2
                      rw [hn] at h; dsimp only at h
                      obtain ⟨hE3, hR3, hD3⟩ := evalNthEdgeInv hn hE2
                      cases hs : evalSize c fuel st3 prev with
                      | fail e => rw [hs] at h; cases h
                      | ok pr3 =>
                        obtain ⟨ps, st4⟩ := pr3
                        rw [hs] at h; dsimp only at h
                        obtain ⟨hE4, hR4, hD4⟩ := ihS _ _ _ _ hs hE3
                        cases hp : evalPos c fuel st4 prev with
                        | fail e => rw [hp] at h; cases h
                        | ok pr4 =>
                          obtain ⟨pp, st5⟩ := pr4
                          rw [hp] at h; dsimp only at h
                          obtain ⟨hE5, hR5, hD5⟩ := ihP _ _ _ _ hp hE4
                          unfold finishCons at h; cases h
                          refine ⟨hE5, ?_, ?_⟩
                          · intro x hx
                            exact hR5 x (hR4 x (hR3 x (hR2 x
                              (memReads_enterMiss (bumpTotal st) _ hx))))
                          · intro x hx
                            exact hD5 x (hD4 x (hD3 x (hD2 x
                              (memEdges_enterMiss (bumpTotal st) _ hx))))
                | padded t b l r =>
                  rw [hl] at h; dsimp only at h
                  unfold finishCons at h; cases h
                  refine ⟨hE2, ?_, ?_⟩
                  · intro x hx; exact hR2 x (memReads_enterMiss (bumpTotal st) _ hx)
                  · intro x hx; exact hD2 x (memEdges_enterMiss (bumpTotal st) _ hx)
                | centered =>
                  rw [hl] at h; dsimp only at h
                  unfold finishCons at h; cases h
                  refine ⟨hE2, ?_, ?_⟩
                  · intro x hx; exact hR2 x (memReads_enterMiss (bumpTotal st) _ hx)
                  · intro x hx; exact hD2 x (memEdges_enterMiss (bumpTotal st) _ hx)
                | dynBox sid =>
                  rw [hl] at h; dsimp only at h
                  unfold finishCons at h; cases h
                  refine ⟨hE2, ?_, ?_⟩
                  · intro x hx; exact hR2 x (memReads_enterMiss (bumpTotal st) _ hx)
                  · intro x hx; exact hD2 x (memEdges_enterMiss (bumpTotal st) _ hx)
                | sizedBox s =>
                  rw [hl] at h; dsimp only at h
                  unfold finishCons at h; cases h
                  refine ⟨hE2, ?_, ?_⟩
                  · intro x hx; exact hR2 x (memReads_enterMiss (bumpTotal st) _ hx)
                  · intro x hx; exact hD2 x (memEdges_enterMiss (bumpTotal st) _ hx)
                | selfLoop =>
                  rw [hl] at h; dsimp only at h
                  unfold finishCons at h; cases h
                  refine ⟨hE2, ?_, ?_⟩
                  · intro x hx; exact hR2 x (memReads_enterMiss (bumpTotal st) _ hx)
                  · intro x hx; exact hD2 x (memEdges_enterMiss (bumpTotal st) _ hx)

/-- A fresh tree satisfies the edge invariant (both logs are empty). -/
theorem edgeInvInit (sig : List SizeV) : EdgeInv (initSt sig) := by
  constructor
  · intro q d hm; simp [initSt] at hm
  · intro q sid b hm; simp [initSt] at hm

/-- C4 counterexample: from a fresh Row tree, evaluating node 1's size
caches it; the subsequent evaluation of node 2's position reads node 1's
size while `NodePosition(2)` is executing (the read is in the ghost log,
flagged as served from the cache), yet no edge
NodePosition(2) → NodeSize(1) exists in the dependency graph after the call
returns — the claim that every read performed during an `evaluate` call
records an edge is false. -/
theorem C4_missing_edge_counterexample :
    evalSize (rowCtx 1000 600) 12 (initSt []) 1 = .ok (⟨100, 50⟩, rowStA) ∧
    evalPos (rowCtx 1000 600) 12 rowStA 2 = .ok (⟨100, 0⟩, rowStB) ∧
    (QueryDep.nodePosition 2, QueryDep.nodeSize 1, true) ∈ rowStB.reads ∧
    (QueryDep.nodePosition 2, QueryDep.nodeSize 1) ∉ rowStB.depEdges := by
  decide

/-- C4 (amended): dependency recording is sound for every read that is not
served from a valid cache entry — in particular for every signal read, since
signals have no cache.  A fresh tree satisfies the edge invariant `EdgeInv`
(all logged non-hit reads have a recorded consumer→dependency edge, and
signal reads are never logged as hits), every query evaluation of any kind
and every `get_signal` preserves it, and the read log and edge list only
grow — so every non-hit read performed during an `evaluate` call has its
edge recorded before the call returns.  Reads served from a valid cache
entry record no edge (see the counterexample). -/
theorem C4_dependency_soundness (sig : List SizeV) (c : Ctx)
    (fS fP fC fN : Nat)
    (stS stS' : St) (nS : Nat) (vS : SizeV)
    (stP stP' : St) (nP : Nat) (vP : PointV)
    (stC stC' : St) (nC : Nat) (vC : Constraints)
    (stN stN' : St) (pN kN vN : Nat)
    (stG stG' : St) (sidG : Nat) (vG : SizeV)
    (hS : evalSize c fS stS nS = .ok (vS, stS')) (hIS : EdgeInv stS)
    (hP : evalPos c fP stP nP = .ok (vP, stP')) (hIP : EdgeInv stP)
    (hC : evalCons c fC stC nC = .ok (vC, stC')) (hIC : EdgeInv stC)
    (hN : evalNth c fN stN pN kN = .ok (vN, stN')) (hIN : EdgeInv stN)
    (hG : getSignal stG sidG = .ok (vG, stG')) (hIG : EdgeInv stG) :
    EdgeInv (initSt sig) ∧
    (EdgeInv stS' ∧ (∀ x, x ∈ stS.reads → x ∈ stS'.reads) ∧
      (∀ x, x ∈ stS.depEdges → x ∈ stS'.depEdges)) ∧
    (EdgeInv stP' ∧ (∀ x, x ∈ stP.reads → x ∈ stP'.reads) ∧
      (∀ x, x ∈ stP.depEdges → x ∈ stP'.depEdges)) ∧
    (EdgeInv stC' ∧ (∀ x, x ∈ stC.reads → x ∈ stC'.reads) ∧
      (∀ x, x ∈ stC.depEdges → x ∈ stC'.depEdges)) ∧
    (EdgeInv stN' ∧ (∀ x, x ∈ stN.reads → x ∈ stN'.reads) ∧
      (∀ x, x ∈ stN.depEdges → x ∈ stN'.depEdges)) ∧
    (EdgeInv stG' ∧ (∀ x, x ∈ stG.reads → x ∈ stG'.reads) ∧
      (∀ x, x ∈ stG.depEdges → x ∈ stG'.depEdges)) :=
  ⟨edgeInvInit sig,
    (evalEdgeInv c fS).1 _ _ _ _ hS hIS,
    (evalEdgeInv c fP).2.1 _ _ _ _ hP hIP,
    (evalEdgeInv c fC).2.2 _ _ _ _ hC hIC,
    evalNthEdgeInv hN hIN,
    ⟨edgeInvGetSignal hG hIG,
      fun x hx => memReads_getSignal hG hx,
      fun x hx => memEdges_getSignal hG hx⟩⟩

/-- C4 witness: the amended soundness applied to concrete Row and signal
scenarios (size of node 1 from a fresh tree, position of node 2 after it,
constraints of node 2, the first-child lookup, and a top-level signal
read). -/
theorem C4_dependency_soundness_witness :
    EdgeInv (initSt [⟨100, 100⟩]) ∧
    (EdgeInv rowStA ∧ (∀ x, x ∈ (initSt []).reads → x ∈ rowStA.reads) ∧
      (∀ x, x ∈ (initSt []).depEdges → x ∈ rowStA.depEdges)) ∧
    (EdgeInv rowStB ∧ (∀ x, x ∈ rowStA.reads → x ∈ rowStB.reads) ∧
      (∀ x, x ∈ rowStA.depEdges → x ∈ rowStB.depEdges)) ∧
    (EdgeInv rowStD ∧ (∀ x, x ∈ (initSt []).reads → x ∈ rowStD.reads) ∧
      (∀ x, x ∈ (initSt []).depEdges → x ∈ rowStD.depEdges)) ∧
    (EdgeInv rowStE ∧ (∀ x, x ∈ (initSt []).reads → x ∈ rowStE.reads) ∧
      (∀ x, x ∈ (initSt []).depEdges → x ∈ rowStE.depEdges)) ∧
    (EdgeInv (initSt [⟨100, 100⟩]) ∧
      (∀ x, x ∈ (initSt [⟨100, 100⟩]).reads → x ∈ (initSt [⟨100, 100⟩]).reads) ∧
      (∀ x, x ∈ (initSt [⟨100, 100⟩]).depEdges → x ∈ (initSt [⟨100, 100⟩]).depEdges)) :=
  C4_dependency_soundness [⟨100, 100⟩] (rowCtx 1000 600) 12 12 12 12
    (initSt []) rowStA 1 ⟨100, 50⟩
    rowStA rowStB 2 ⟨100, 0⟩
    (initSt []) rowStD 2 ⟨⟨0, 0⟩, ⟨900, 600⟩⟩
    (initSt []) rowStE 0 0 1
    (initSt [⟨100, 100⟩]) (initSt [⟨100, 100⟩]) 0 ⟨100, 100⟩
    (by decide) (edgeInvInit [])
    (by decide)
    ((evalEdgeInv (rowCtx 1000 600) 12).1 (initSt []) 1 ⟨100, 50⟩ rowStA
      (by decide) (edgeInvInit [])).1
    (by decide) (edgeInvInit [])
    (by decide) (edgeInvInit [])
    (by decide) (edgeInvInit [⟨100, 100⟩])

theorem processOneSize {c : Ctx} {fuel : Nat} {st : St} {n : Nat}
    {e : Entry SizeV} {v : SizeV} {st1 : St}
    (ha : alook st.sizeCache n = some e)
    (hq : evalSize c fuel st n = .ok (v, st1)) :
    (v = e.value → processOneParent c fuel st (.nodeSize n) =
      .ok (insertSizeC st1 n ⟨v, e.lastChanged, st1.revision⟩, none)) ∧
    (v ≠ e.value → processOneParent c fuel st (.nodeSize n) =
      .ok (st1, some (.nodeSize n))) := by
  constructor <;> intro hv <;>
    · unfold processOneParent
      dsimp only
      rw [ha]
      dsimp only
      rw [hq]
      dsimp only
      first
        | rw [if_pos hv]
        | rw [if_neg hv]

theorem processOnePos {c : Ctx} {fuel : Nat} {st : St} {n : Nat}
    {e : Entry PointV} {v : PointV} {st1 : St}
    (ha : alook st.posCache n = some e)
    (hq : evalPos c fuel st n = .ok (v, st1)) :
    (v = e.value → processOneParent c fuel st (.nodePosition n) =
      .ok (insertPosC st1 n ⟨v, e.lastChanged, st1.revision⟩, none)) ∧
    (v ≠ e.value → processOneParent c fuel st (.nodePosition n) =
      .ok (st1, some (.nodePosition n))) := by
  constructor <;> intro hv <;>
    · unfold processOneParent
      dsimp only
      rw [ha]
      dsimp only
      rw [hq]
      dsimp only
      first
        | rw [if_pos hv]
        | rw [if_neg hv]

theorem processOneCons {c : Ctx} {fuel : Nat} {st : St} {n : Nat}
    {e : Entry Constraints} {v : Constraints} {st1 : St}
    (ha : alook st.consCache n = some e)
    (hq : evalCons c fuel st n = .ok (v, st1)) :
    (v = e.value → processOneParent c fuel st (.nodeConstraints n) =
      .ok (insertConsC st1 n ⟨v, e.lastChanged, st1.revision⟩, none)) ∧
    (v ≠ e.value → processOneParent c fuel st (.nodeConstraints n) =
      .ok (st1, some (.nodeConstraints n))) := by
  constructor <;> intro hv <;>
    · unfold processOneParent
      dsimp only
      rw [ha]
      dsimp only
      rw [hq]
      dsimp only
      first
        | rw [if_pos hv]
        | rw [if_neg hv]

theorem processOneNth {c : Ctx} {fuel : Nat} {st : St} {p k : Nat}
    {e : Entry Nat} {v : Nat} {st1 : St}
    (ha : alook st.nthCache (p, k) = some e)
    (hq : evalNth c fuel st p k = .ok (v, st1)) :
    (v = e.value → processOneParent c fuel st (.nthChild p k) =
      .ok (insertNthC st1 p k ⟨v, e.lastChanged, st1.revision⟩, none)) ∧
    (v ≠ e.value → processOneParent c fuel st (.nthChild p k) =
      .ok (st1, some (.nthChild p k))) := by
  constructor <;> intro hv <;>
    · unfold processOneParent
      dsimp only
      rw [ha]
      dsimp only
      rw [hq]
      dsimp only
      first
        | rw [if_pos hv]
        | rw [if_neg hv]

/-- One step of the `invalidate` worklist: the head query must be a vertex of
the dependency graph, its (snapshotted) consumers are processed, and the
flagged ones are prepended to the remaining work — the depth-first recursion
order of the source. -/
theorem invalidateGoStep {c : Ctx} {fuel : Nat} {st : St} {q : QueryDep}
    {rest : List QueryDep} {st1 : St} {toInv : List QueryDep}
    (hq : q ∈ st.depNodes)
    (hW : processParents c fuel st (parentsOf st q) = .ok (st1, toInv)) :
    invalidateGo c (fuel + 1) st (q :: rest) = invalidateGo c fuel st1 (toInv ++ rest) := by
  rw [invalidateGo]
  rw [if_pos hq, hW]

/-- One step of the consumer loop: the head consumer's flag is prepended to
the collected `to_invalidate` list. -/
theorem processParentsStep {c : Ctx} {fuel : Nat} {st : St} {p : QueryDep}
    {ps : List QueryDep} {st1 st2 : St} {flag : Option QueryDep}
    {toInv : List QueryDep}
    (h1 : processOneParent c fuel st p = .ok (st1, flag))
    (h2 : processParents c fuel st1 ps = .ok (st2, toInv)) :
    processParents c fuel st (p :: ps) = .ok (st2, flag.toList ++ toInv) := by
  rw [processParents]
  rw [h1]
  dsimp only
  rw [h2]

/-- C3: early cutoff.  For each of the four consumer kinds processed by an
`invalidate` pass (independent instances per kind): when the re-queried
value equals the previously cached value, the loop re-inserts the entry with
the old `last_changed` and the current revision as `valid_through` and does
not flag the consumer, so invalidation does not visit that consumer's
dependents; when the value differs, the loop keeps the state the query call
produced — whose cache already holds the new value, by the trailing
existentials — and flags the consumer.  The last two conjuncts are the
worklist equations: the flagged consumers, in loop order, are exactly what
`invalidate` recurses into (depth-first, before the rest of the work). -/
theorem C3_early_cutoff (c : Ctx) (fuel : Nat)
    (stS : St) (nS : Nat) (eS : Entry SizeV) (vS : SizeV) (stS1 : St)
    (stP : St) (nP : Nat) (eP : Entry PointV) (vP : PointV) (stP1 : St)
    (stC : St) (nC : Nat) (eC : Entry Constraints) (vC : Constraints) (stC1 : St)
    (stN : St) (pN kN : Nat) (eN : Entry Nat) (vN : Nat) (stN1 : St)
    (stW : St) (q : QueryDep) (rest : List QueryDep) (stW1 : St) (toInv : List QueryDep)
    (stX : St) (pX : QueryDep) (psX : List QueryDep) (stX1 stX2 : St)
    (flagX : Option QueryDep) (toInvX : List QueryDep)
    (haS : alook stS.sizeCache nS = some eS)
    (hqS : evalSize c fuel stS nS = .ok (vS, stS1))
    (haP : alook stP.posCache nP = some eP)
    (hqP : evalPos c fuel stP nP = .ok (vP, stP1))
    (haC : alook stC.consCache nC = some eC)
    (hqC : evalCons c fuel stC nC = .ok (vC, stC1))
    (haN : alook stN.nthCache (pN, kN) = some eN)
    (hqN : evalNth c fuel stN pN kN = .ok (vN, stN1))
    (hqW : q ∈ stW.depNodes)
    (hW : processParents c fuel stW (parentsOf stW q) = .ok (stW1, toInv))
    (hX1 : processOneParent c fuel stX pX = .ok (stX1, flagX))
    (hX2 : processParents c fuel stX1 psX = .ok (stX2, toInvX)) :
    ((vS = eS.value → processOneParent c fuel stS (.nodeSize nS) =
        .ok (insertSizeC stS1 nS ⟨vS, eS.lastChanged, stS1.revision⟩, none)) ∧
      (vS ≠ eS.value → processOneParent c fuel stS (.nodeSize nS) =
        .ok (stS1, some (.nodeSize nS))) ∧
      stS1.revision = stS.revision ∧
      (∃ e', alook stS1.sizeCache nS = some e' ∧ e'.value = vS)) ∧
    ((vP = eP.value → processOneParent c fuel stP (.nodePosition nP) =
        .ok (insertPosC stP1 nP ⟨vP, eP.lastChanged, stP1.revision⟩, none)) ∧
      (vP ≠ eP.value → processOneParent c fuel stP (.nodePosition nP) =
        .ok (stP1, some (.nodePosition nP))) ∧
      stP1.revision = stP.revision ∧
      (∃ e', alook stP1.posCache nP = some e' ∧ e'.value = vP)) ∧
    ((vC = eC.value → processOneParent c fuel stC (.nodeConstraints nC) =
        .ok (insertConsC stC1 nC ⟨vC, eC.lastChanged, stC1.revision⟩, none)) ∧
      (vC ≠ eC.value → processOneParent c fuel stC (.nodeConstraints nC) =
        .ok (stC1, some (.nodeConstraints nC))) ∧
      stC1.revision = stC.revision ∧
      (∃ e', alook stC1.consCache nC = some e' ∧ e'.value = vC)) ∧
    ((vN = eN.value → processOneParent c fuel stN (.nthChild pN kN) =
        .ok (insertNthC stN1 pN kN ⟨vN, eN.lastChanged, stN1.revision⟩, none)) ∧
      (vN ≠ eN.value → processOneParent c fuel stN (.nthChild pN kN) =
        .ok (stN1, some (.nthChild pN kN))) ∧
      stN1.revision = stN.revision ∧
      (∃ e', alook stN1.nthCache (pN, kN) = some e' ∧ e'.value = vN)) ∧
    invalidateGo c (fuel + 1) stW (q :: rest) = invalidateGo c fuel stW1 (toInv ++ rest) ∧
    processParents c fuel stX (pX :: psX) = .ok (stX2, flagX.toList ++ toInvX) := by
  obtain ⟨-, -, -, e1, ha1, hv1, -⟩ := evalSizeFrame hqS
  obtain ⟨-, -, -, e2, ha2, hv2, -⟩ := evalPosFrame hqP
  obtain ⟨-, -, -, e3, ha3, hv3, -⟩ := evalConsFrame hqC
  obtain ⟨-, -, -, e4, ha4, hv4, -⟩ := evalNthFrame hqN
  exact ⟨⟨(processOneSize haS hqS).1, (processOneSize haS hqS).2,
      (evalSizeFrame hqS).1, e1, ha1, hv1⟩,
    ⟨(processOnePos haP hqP).1, (processOnePos haP hqP).2,
      (evalPosFrame hqP).1, e2, ha2, hv2⟩,
    ⟨(processOneCons haC hqC).1, (processOneCons haC hqC).2,
      (evalConsFrame hqC).1, e3, ha3, hv3⟩,
    ⟨(processOneNth haN hqN).1, (processOneNth haN hqN).2,
      (evalNthFrame hqN).1, e4, ha4, hv4⟩,
    invalidateGoStep hqW hW,
    processParentsStep hX1 hX2⟩

/-- C3 witness: the early-cutoff characterization applied to the Row
scenario after a revision bump (every recomputed value is unchanged, so the
equal branches apply), with the worklist equations instantiated at the
consumers of the root's constraints query. -/
theorem C3_early_cutoff_witness :
    (((⟨450, 600⟩ : SizeV) = (⟨⟨450, 600⟩, 0, 0⟩ : Entry SizeV).value →
        processOneParent (rowCtx 1000 600) 12 rowStBumped (.nodeSize 0) =
        .ok (insertSizeC c3S1 0 ⟨⟨450, 600⟩, (⟨⟨450, 600⟩, 0, 0⟩ : Entry SizeV).lastChanged,
          c3S1.revision⟩, none)) ∧
      ((⟨450, 600⟩ : SizeV) ≠ (⟨⟨450, 600⟩, 0, 0⟩ : Entry SizeV).value →
        processOneParent (rowCtx 1000 600) 12 rowStBumped (.nodeSize 0) =
        .ok (c3S1, some (.nodeSize 0))) ∧
      c3S1.revision = rowStBumped.revision ∧
      (∃ e', alook c3S1.sizeCache 0 = some e' ∧ e'.value = ⟨450, 600⟩)) ∧
    (((⟨250, 0⟩ : PointV) = (⟨⟨250, 0⟩, 0, 0⟩ : Entry PointV).value →
        processOneParent (rowCtx 1000 600) 12 rowStBumped (.nodePosition 3) =
        .ok (insertPosC c3P1 3 ⟨⟨250, 0⟩, (⟨⟨250, 0⟩, 0, 0⟩ : Entry PointV).lastChanged,
          c3P1.revision⟩, none)) ∧
      ((⟨250, 0⟩ : PointV) ≠ (⟨⟨250, 0⟩, 0, 0⟩ : Entry PointV).value →
        processOneParent (rowCtx 1000 600) 12 rowStBumped (.nodePosition 3) =
        .ok (c3P1, some (.nodePosition 3))) ∧
      c3P1.revision = rowStBumped.revision ∧
      (∃ e', alook c3P1.posCache 3 = some e' ∧ e'.value = ⟨250, 0⟩)) ∧
    (((⟨⟨0, 0⟩, ⟨900, 600⟩⟩ : Constraints) = (⟨⟨⟨0, 0⟩, ⟨900, 600⟩⟩, 0, 0⟩ : Entry Constraints).value →
        processOneParent (rowCtx 1000 600) 12 rowStBumped (.nodeConstraints 2) =
        .ok (insertConsC c3C1 2 ⟨⟨⟨0, 0⟩, ⟨900, 600⟩⟩,
          (⟨⟨⟨0, 0⟩, ⟨900, 600⟩⟩, 0, 0⟩ : Entry Constraints).lastChanged, c3C1.revision⟩, none)) ∧
      ((⟨⟨0, 0⟩, ⟨900, 600⟩⟩ : Constraints) ≠ (⟨⟨⟨0, 0⟩, ⟨900, 600⟩⟩, 0, 0⟩ : Entry Constraints).value →
        processOneParent (rowCtx 1000 600) 12 rowStBumped (.nodeConstraints 2) =
        .ok (c3C1, some (.nodeConstraints 2))) ∧
      c3C1.revision = rowStBumped.revision ∧
      (∃ e', alook c3C1.consCache 2 = some e' ∧ e'.value = ⟨⟨0, 0⟩, ⟨900, 600⟩⟩)) ∧
    ((1 = (⟨1, 0, 0⟩ : Entry Nat).value →
        processOneParent (rowCtx 1000 600) 12 rowStBumped (.nthChild 0 0) =
        .ok (insertNthC c3N1 0 0 ⟨1, (⟨1, 0, 0⟩ : Entry Nat).lastChanged, c3N1.revision⟩, none)) ∧
      (1 ≠ (⟨1, 0, 0⟩ : Entry Nat).value →
        processOneParent (rowCtx 1000 600) 12 rowStBumped (.nthChild 0 0) =
        .ok (c3N1, some (.nthChild 0 0))) ∧
      c3N1.revision = rowStBumped.revision ∧
      (∃ e', alook c3N1.nthCache (0, 0) = some e' ∧ e'.value = 1)) ∧
    invalidateGo (rowCtx 1000 600) (12 + 1) rowStBumped [.nodeConstraints 0] =
      invalidateGo (rowCtx 1000 600) 12 c3W1 ([] ++ []) ∧
    processParents (rowCtx 1000 600) 12 rowStBumped [.nodeSize 0] =
      .ok (c3XS, (none : Option QueryDep).toList ++ []) :=
  C3_early_cutoff (rowCtx 1000 600) 12
    rowStBumped 0 ⟨⟨450, 600⟩, 0, 0⟩ ⟨450, 600⟩ c3S1
    rowStBumped 3 ⟨⟨250, 0⟩, 0, 0⟩ ⟨250, 0⟩ c3P1
    rowStBumped 2 ⟨⟨⟨0, 0⟩, ⟨900, 600⟩⟩, 0, 0⟩ ⟨⟨0, 0⟩, ⟨900, 600⟩⟩ c3C1
    rowStBumped 0 0 ⟨1, 0, 0⟩ 1 c3N1
    rowStBumped (.nodeConstraints 0) [] c3W1 []
    rowStBumped (.nodeSize 0) [] c3XS c3XS none []
    (by decide) (by decide) (by decide) (by decide) (by decide) (by decide)
    (by decide) (by decide) (by decide) (by decide) (by decide) (by decide)

/-- Fuel monotonicity of the cache-free reference evaluator: a result
obtained with some fuel is obtained with any larger fuel. -/
theorem pmono (c : Ctx) (sig : List SizeV) (f : Nat) :
    (∀ n v, psize c sig f n = .ok v → ∀ g, f ≤ g → psize c sig g n = .ok v) ∧
    (∀ n v, ppos c sig f n = .ok v → ∀ g, f ≤ g → ppos c sig g n = .ok v) ∧
    (∀ n v, pcons c sig f n = .ok v → ∀ g, f ≤ g → pcons c sig g n = .ok v) ∧
    (∀ p k v, pnth c f p k = .ok v → ∀ g, f ≤ g → pnth c g p k = .ok v) := by
  induction f with
  | zero =>
    refine ⟨?_, ?_, ?_, ?_⟩
    · intro n v h; simp [psize] at h
    · intro n v h; simp [ppos] at h
    · intro n v h; simp [pcons] at h
    · intro p k v h; simp [pnth] at h
  | succ f ih =>
    obtain ⟨ihS, ihP, ihC, ihN⟩ := ih
    refine ⟨?_, ?_, ?_, ?_⟩
    · intro n v h g hg
      match g, hg with
      | g + 1, hg =>
        have hfg : f ≤ g := Nat.succ_le_succ_iff.mp hg
        rw [psize] at h ⊢
        cases hc : pcons c sig f n with
        | fail e => simp [hc] at h
        | ok cons =>
          rw [hc] at h
          rw [ihC _ _ hc g hfg]
          dsimp only at h ⊢
          cases hl : c.layouterOf n with
          | row =>
            try rw [hl] at h ⊢
            try rw [hl] at h
            try rw [hl]
            dsimp only at h ⊢
            cases hlast : (c.childrenOf n).getLast? with
            | none => simp [hlast] at h
            | some lastC =>
              try rw [hlast] at h ⊢
              try rw [hlast] at h
              try rw [hlast]
              dsimp only at h ⊢
              cases hp : ppos c sig f lastC with
              | fail e => simp [hp] at h
              | ok p =>
                rw [hp] at h
                rw [ihP _ _ hp g hfg]
                dsimp only at h ⊢
                cases hs : psize c sig f lastC with
                | fail e => simp [hs] at h
                | ok s =>
                  rw [hs] at h
                  rw [ihS _ _ hs g hfg]
                  exact h
          | padded t b l r =>
            try rw [hl] at h ⊢
            try rw [hl] at h
            try rw [hl]
            dsimp only at h ⊢
            cases hn : pnth c f n 0 with
            | fail e => simp [hn] at h
            | ok fc =>
              rw [hn] at h
              rw [ihN _ _ _ hn g hfg]
              dsimp only at h ⊢
              cases hs : psize c sig f fc with
              | fail e => simp [hs] at h
              | ok s =>
                rw [hs] at h
                rw [ihS _ _ hs g hfg]
                exact h
          | centered =>
            try rw [hl] at h ⊢
            try rw [hl] at h
            try rw [hl]
            dsimp only at h ⊢
            cases hch : c.childrenOf n with
            | nil =>
              try rw [hch] at h ⊢
              try rw [hch] at h
              try rw [hch]
              dsimp only at h ⊢
              exact h
            | cons c0 cs =>
              try rw [hch] at h ⊢
              try rw [hch] at h
              try rw [hch]
              dsimp only at h ⊢
              cases hs : psize c sig f c0 with
              | fail e => simp [hs] at h
              | ok s =>
                rw [hs] at h
                rw [ihS _ _ hs g hfg]
                exact h
          | dynBox sid =>
            try rw [hl] at h ⊢
            try rw [hl] at h
            try rw [hl]
            exact h
          | sizedBox s =>
            try rw [hl] at h ⊢
            try rw [hl] at h
            try rw [hl]
            exact h
          | selfLoop =>
            try rw [hl] at h ⊢
            try rw [hl] at h
            try rw [hl]
            exact ihS _ _ h g hfg
    · intro n v h g hg
      match g, hg with
      | g + 1, hg =>
        have hfg : f ≤ g := Nat.succ_le_succ_iff.mp hg
        rw [ppos] at h ⊢
        by_cases hroot : n = c.root
        · rw [if_pos hroot] at h ⊢; exact h
        · rw [if_neg hroot] at h ⊢
          cases hpar : c.parentOf n with
          | none => simp [hpar] at h
          | some p =>
            try rw [hpar] at h ⊢
            try rw [hpar] at h
            try rw [hpar]
            dsimp only at h ⊢
            cases hidx : (c.childrenOf p).findIdx? (fun m => m == n) with
            | none => simp [hidx] at h
            | some k =>
              try rw [hidx] at h ⊢
              try rw [hidx] at h
              try rw [hidx]
              dsimp only at h ⊢
              cases hl : c.layouterOf p with
              | row =>
                try rw [hl] at h ⊢
                try rw [hl] at h
                try rw [hl]
                dsimp only at h ⊢
                by_cases hk : k = 0
                · rw [if_pos hk] at h ⊢; exact h
                · rw [if_neg hk] at h ⊢
                  cases hn : pnth c f p (k - 1) with
                  | fail e => simp [hn] at h
                  | ok prev =>
                    rw [hn] at h
                    rw [ihN _ _ _ hn g hfg]
                    dsimp only at h ⊢
                    cases hs : psize c sig f prev with
                    | fail e => simp [hs] at h
                    | ok ps =>
                      rw [hs] at h
                      rw [ihS _ _ hs g hfg]
                      dsimp only at h ⊢
                      cases hp : ppos c sig f prev with
                      | fail e => simp [hp] at h
                      | ok pp =>
                        rw [hp] at h
                        rw [ihP _ _ hp g hfg]
                        exact h
              | padded t b l r =>
                try rw [hl] at h ⊢
                try rw [hl] at h
                try rw [hl]
                exact h
              | centered =>
                try rw [hl] at h ⊢
                try rw [hl] at h
                try rw [hl]
                dsimp only at h ⊢
                cases hs : psize c sig f p with
                | fail e => simp [hs] at h
                | ok ss =>
                  rw [hs] at h
                  rw [ihS _ _ hs g hfg]
                  dsimp only at h ⊢
                  cases hn : pnth c f p k with
                  | fail e => simp [hn] at h
                  | ok ch =>
                    rw [hn] at h
                    rw [ihN _ _ _ hn g hfg]
                    dsimp only at h ⊢
                    cases hs2 : psize c sig f ch with
                    | fail e => simp [hs2] at h
                    | ok cs =>
                      rw [hs2] at h
                      rw [ihS _ _ hs2 g hfg]
                      exact h
              | dynBox sid =>
                try rw [hl] at h ⊢
                try rw [hl] at h
                try rw [hl]
                exact h
              | sizedBox s =>
                try rw [hl] at h ⊢
                try rw [hl] at h
                try rw [hl]
                exact h
              | selfLoop =>
                try rw [hl] at h ⊢
                try rw [hl] at h
                try rw [hl]
                exact h
    · intro n v h g hg
      match g, hg with
      | g + 1, hg =>
        have hfg : f ≤ g := Nat.succ_le_succ_iff.mp hg
        rw [pcons] at h ⊢
        by_cases hroot : n = c.root
        · rw [if_pos hroot] at h ⊢; exact h
        · rw [if_neg hroot] at h ⊢
          cases hpar : c.parentOf n with
          | none => simp [hpar] at h
          | some p =>
            try rw [hpar] at h ⊢
            try rw [hpar] at h
            try rw [hpar]
            dsimp only at h ⊢
            cases hc : pcons c sig f p with
            | fail e => simp [hc] at h
            | ok pc =>
              rw [hc] at h
              rw [ihC _ _ hc g hfg]
              dsimp only at h ⊢
              cases hidx : (c.childrenOf p).findIdx? (fun m => m == n) with
              | none => simp [hidx] at h
              | some k =>
                try rw [hidx] at h ⊢
                try rw [hidx] at h
                try rw [hidx]
                dsimp only at h ⊢
                cases hl : c.layouterOf p with
                | row =>
                  try rw [hl] at h ⊢
                  try rw [hl] at h
                  try rw [hl]
                  dsimp only at h ⊢
                  by_cases hk : k = 0
                  · rw [if_pos hk] at h ⊢; exact h
                  · rw [if_neg hk] at h ⊢
                    cases hn : pnth c f p (k - 1) with
                    | fail e => simp [hn] at h
                    | ok prev =>
                      rw [hn] at h
                      rw [ihN _ _ _ hn g hfg]
                      dsimp only at h ⊢
                      cases hs : psize c sig f prev with
                      | fail e => simp [hs] at h
                      | ok ps =>
                        rw [hs] at h
                        rw [ihS _ _ hs g hfg]
                        dsimp only at h ⊢
                        cases hp : ppos c sig f prev with
                        | fail e => simp [hp] at h
                        | ok pp =>
                          rw [hp] at h
                          rw [ihP _ _ hp g hfg]
                          exact h
                | padded t b l r =>
                  try rw [hl] at h ⊢
                  try rw [hl] at h
                  try rw [hl]
                  exact h
                | centered =>
                  try rw [hl] at h ⊢
                  try rw [hl] at h
                  try rw [hl]
                  exact h
                | dynBox sid =>
                  try rw [hl] at h ⊢
                  try rw [hl] at h
                  try rw [hl]
                  exact h
                | sizedBox s =>
                  try rw [hl] at h ⊢
                  try rw [hl] at h
                  try rw [hl]
                  exact h
                | selfLoop =>
                  try rw [hl] at h ⊢
                  try rw [hl] at h
                  try rw [hl]
                  exact h
    · intro p k v h g hg
      match g, hg with
      | g + 1, hg =>
        rw [pnth] at h ⊢
        exact h

/-- Functionality of the from-scratch value: the reference evaluator is
deterministic across fuels. -/
theorem psizeFun {c : Ctx} {sig : List SizeV} {n : Nat} {v w : SizeV}
    (hv : PSize c sig n v) (hw : PSize c sig n w) : v = w := by
  obtain ⟨f, hf⟩ := hv
  obtain ⟨g, hg⟩ := hw
  have h1 := (pmono c sig f).1 n v hf (Nat.max f g) (Nat.le_max_left f g)
  have h2 := (pmono c sig g).1 n w hg (Nat.max f g) (Nat.le_max_right f g)
  rw [h1] at h2
  cases h2
  rfl

theorem pposFun {c : Ctx} {sig : List SizeV} {n : Nat} {v w : PointV}
    (hv : PPos c sig n v) (hw : PPos c sig n w) : v = w := by
  obtain ⟨f, hf⟩ := hv
  obtain ⟨g, hg⟩ := hw
  have h1 := (pmono c sig f).2.1 n v hf (Nat.max f g) (Nat.le_max_left f g)
  have h2 := (pmono c sig g).2.1 n w hg (Nat.max f g) (Nat.le_max_right f g)
  rw [h1] at h2
  cases h2
  rfl

theorem pconsFun {c : Ctx} {sig : List SizeV} {n : Nat} {v w : Constraints}
    (hv : PCons c sig n v) (hw : PCons c sig n w) : v = w := by
  obtain ⟨f, hf⟩ := hv
  obtain ⟨g, hg⟩ := hw
  have h1 := (pmono c sig f).2.2.1 n v hf (Nat.max f g) (Nat.le_max_left f g)
  have h2 := (pmono c sig g).2.2.1 n w hg (Nat.max f g) (Nat.le_max_right f g)
  rw [h1] at h2
  cases h2
  rfl

theorem pnthFun {c : Ctx} {p k v w : Nat}
    (hv : PNth c p k v) (hw : PNth c p k w) : v = w := by
  obtain ⟨f, hf⟩ := hv
  obtain ⟨g, hg⟩ := hw
  have h1 := (pmono c [] f).2.2.2 p k v hf (Nat.max f g) (Nat.le_max_left f g)
  have h2 := (pmono c [] g).2.2.2 p k w hg (Nat.max f g) (Nat.le_max_right f g)
  rw [h1] at h2
  cases h2
  rfl

/-- Cache soundness transfers along equality of the fields it mentions. -/
theorem invCongr {c : Ctx} {st st' : St}
    (h1 : st'.sizeCache = st.sizeCache) (h2 : st'.posCache = st.posCache)
    (h3 : st'.consCache = st.consCache) (h4 : st'.nthCache = st.nthCache)
    (h5 : st'.revision = st.revision) (h6 : st'.signals = st.signals)
    (hI : CacheInv c st) : CacheInv c st' := by
  obtain ⟨i1, i2, i3, i4⟩ := hI
  refine ⟨?_, ?_, ?_, ?_⟩
  · intro n e ha hle
    rw [h1] at ha; rw [h5] at hle; rw [h6]
    exact i1 n e ha hle
  · intro n e ha hle
    rw [h2] at ha; rw [h5] at hle; rw [h6]
    exact i2 n e ha hle
  · intro n e ha hle
    rw [h3] at ha; rw [h5] at hle; rw [h6]
    exact i3 n e ha hle
  · intro p k e ha hle
    rw [h4] at ha; rw [h5] at hle
    exact i4 p k e ha hle

/-- Inserting a size entry whose value is the from-scratch value preserves
cache soundness, whatever its stamps. -/
theorem invInsertSize {c : Ctx} {st : St} {n : Nat} {v : SizeV} {lc vt : Nat}
    (hI : CacheInv c st) (hP : PSize c st.signals n v) :
    CacheInv c (insertSizeC st n ⟨v, lc, vt⟩) := by
  obtain ⟨i1, i2, i3, i4⟩ := hI
  refine ⟨?_, i2, i3, i4⟩
  intro m e ha hle
  by_cases hm : n = m
  · subst hm
    have : e = ⟨v, lc, vt⟩ := by
      simpa [insertSizeC, alook] using ha.symm
    rw [this]
    exact hP
  · have : alook st.sizeCache m = some e := by
      simpa [insertSizeC, alook, hm] using ha
    exact i1 m e this hle

/-- Inserting a position entry holding the from-scratch value preserves
cache soundness. -/
theorem invInsertPos {c : Ctx} {st : St} {n : Nat} {v : PointV} {lc vt : Nat}
    (hI : CacheInv c st) (hP : PPos c st.signals n v) :
    CacheInv c (insertPosC st n ⟨v, lc, vt⟩) := by
  obtain ⟨i1, i2, i3, i4⟩ := hI
  refine ⟨i1, ?_, i3, i4⟩
  intro m e ha hle
  by_cases hm : n = m
  · subst hm
    have : e = ⟨v, lc, vt⟩ := by
      simpa [insertPosC, alook] using ha.symm
    rw [this]
    exact hP
  · have : alook st.posCache m = some e := by
      simpa [insertPosC, alook, hm] using ha
    exact i2 m e this hle

/-- Inserting a constraints entry holding the from-scratch value preserves
cache soundness. -/
theorem invInsertCons {c : Ctx} {st : St} {n : Nat} {v : Constraints} {lc vt : Nat}
    (hI : CacheInv c st) (hP : PCons c st.signals n v) :
    CacheInv c (insertConsC st n ⟨v, lc, vt⟩) := by
  obtain ⟨i1, i2, i3, i4⟩ := hI
  refine ⟨i1, i2, ?_, i4⟩
  intro m e ha hle
  by_cases hm : n = m
  · subst hm
    have : e = ⟨v, lc, vt⟩ := by
      simpa [insertConsC, alook] using ha.symm
    rw [this]
    exact hP
  · have : alook st.consCache m = some e := by
      simpa [insertConsC, alook, hm] using ha
    exact i3 m e this hle

/-- Inserting an nth-child entry holding the from-scratch value preserves
cache soundness. -/
theorem invInsertNth {c : Ctx} {st : St} {p k : Nat} {v : Nat} {lc vt : Nat}
    (hI : CacheInv c st) (hP : PNth c p k v) :
    CacheInv c (insertNthC st p k ⟨v, lc, vt⟩) := by
  obtain ⟨i1, i2, i3, i4⟩ := hI
  refine ⟨i1, i2, i3, ?_⟩
  intro p2 k2 e ha hle
  by_cases hm : (p, k) = (p2, k2)
  · have : e = ⟨v, lc, vt⟩ := by
      simpa [insertNthC, alook, hm] using ha.symm
    rw [this]
    obtain ⟨e1, e2⟩ := Prod.mk.injEq .. |>.mp hm
    rw [← e1, ← e2]
    exact hP
  · have : alook st.nthCache (p2, k2) = some e := by
      simpa [insertNthC, alook, hm] using ha
    exact i4 p2 k2 e this hle

/-- Soundness of `query_nth_child`: from a sound cache it returns the
from-scratch value and leaves the cache sound. -/
theorem evalNthSound {c : Ctx} {fuel : Nat} {st : St} {p k v : Nat} {st' : St}
    (hI : CacheInv c st) (h : evalNth c fuel st p k = .ok (v, st')) :
    PNth c p k v ∧ CacheInv c st' := by
  match fuel with
  | 0 => simp [evalNth] at h
  | fuel + 1 =>
    rw [evalNth] at h
    cases hv : validLook (bumpTotal st).nthCache (p, k) (bumpTotal st).revision with
    | some e =>
      rw [hv] at h
      cases h
      obtain ⟨ha, hle⟩ := validLook_some.mp hv
      refine ⟨hI.2.2.2 p k e (by simpa using ha) (by simpa using hle), ?_⟩
      exact invCongr (by simp) (by simp) (by simp) (by simp) (by simp) (by simp) hI
    | none =>
      rw [hv] at h
      dsimp only at h
      cases hg : (c.childrenOf p)[k]? with
      | none => rw [hg] at h; cases h
      | some m =>
        rw [hg] at h
        unfold finishNth at h
        cases h
        have hP : PNth c p k v := ⟨1, by rw [pnth]; rw [hg]⟩
        refine ⟨hP, ?_⟩
        exact invInsertNth
          (invCongr (by simp) (by simp) (by simp) (by simp) (by simp) (by simp) hI) hP

/-- `get_signal` returns the stored value and leaves the cache sound. -/
theorem getSignalSound {c : Ctx} {st : St} {sid : Nat} {v : SizeV} {st' : St}
    (hI : CacheInv c st) (h : getSignal st sid = .ok (v, st')) :
    st.signals[sid]? = some v ∧ CacheInv c st' := by
  obtain ⟨-, -, -, h4, h5, h6, h7, h8⟩ := getSignalFrame h
  refine ⟨h8, ?_⟩
  obtain ⟨hrev, hsig, -⟩ := getSignalFrame h
  exact invCongr h4 h5 h6 h7 hrev hsig hI

/-- The core cache-soundness induction: starting from a sound cache, every
successful `query_node_size` / `query_node_position` / `query_node_constraints`
call returns exactly the value a from-scratch recomputation against the
current signal values produces, and leaves the cache sound. -/
theorem evalSound (c : Ctx) (fuel : Nat) :
    (∀ st n v st', CacheInv c st → evalSize c fuel st n = .ok (v, st') →
      PSize c st.signals n v ∧ CacheInv c st') ∧
    (∀ st n v st', CacheInv c st → evalPos c fuel st n = .ok (v, st') →
      PPos c st.signals n v ∧ CacheInv c st') ∧
    (∀ st n v st', CacheInv c st → evalCons c fuel st n = .ok (v, st') →
      PCons c st.signals n v ∧ CacheInv c st') := by
  induction fuel with
  | zero =>
    refine ⟨?_, ?_, ?_⟩ <;> intro st n v st' hI h <;> simp [evalSize, evalPos, evalCons] at h
  | succ fuel ih =>
    obtain ⟨ihS, ihP, ihC⟩ := ih
    refine ⟨?_, ?_, ?_⟩
    · intro st n v st' hI h
      rw [evalSize] at h
      cases hv : validLook (bumpTotal st).sizeCache n (bumpTotal st).revision with
      | some e =>
        rw [hv] at h
        cases h
        obtain ⟨ha, hle⟩ := validLook_some.mp hv
        refine ⟨hI.1 n e (by simpa using ha) (by simpa using hle), ?_⟩
        exact invCongr (by simp) (by simp) (by simp) (by simp) (by simp) (by simp) hI
      | none =>
        rw [hv] at h; dsimp only at h
        have hI1 : CacheInv c (enterMiss (bumpTotal st) (.nodeSize n)) :=
          invCongr (by simp) (by simp) (by simp) (by simp) (by simp) (by simp) hI
        cases hc : evalCons c fuel (enterMiss (bumpTotal st) (.nodeSize n)) n with
        | fail e => rw [hc] at h; cases h
        | ok pr =>
          obtain ⟨cons, st2⟩ := pr
          rw [hc] at h; dsimp only at h
          obtain ⟨hPC, hI2⟩ := ihC _ _ _ _ hI1 hc
          have hsig2 : st2.signals = st.signals := by
            rw [(evalConsFrame hc).2.1]; simp
          have hPC2 : PCons c st.signals n cons := by simpa using hPC
          cases hl : c.layouterOf n with
          | row =>
            rw [hl] at h; dsimp only at h
            cases hlast : (c.childrenOf n).getLast? with
            | none => rw [hlast] at h; cases h
            | some lastC =>
              rw [hlast] at h; dsimp only at h
              cases hp : evalPos c fuel st2 lastC with
              | fail e => rw [hp] at h; cases h
              | ok pr2 =>
                obtain ⟨p, st3⟩ := pr2
                rw [hp] at h; dsimp only at h
                obtain ⟨hPP, hI3⟩ := ihP _ _ _ _ hI2 hp
                have hsig3 : st3.signals = st.signals := by
                  rw [(evalPosFrame hp).2.1, hsig2]
                rw [hsig2] at hPP
                cases hs : evalSize c fuel st3 lastC with
                | fail e => rw [hs] at h; cases h
                | ok pr3 =>
                  obtain ⟨s, st4⟩ := pr3
                  rw [hs] at h; dsimp only at h
                  obtain ⟨hPS, hI4⟩ := ihS _ _ _ _ hI3 hs
                  have hsig4 : st4.signals = st.signals := by
                    rw [(evalSizeFrame hs).2.1, hsig3]
                  rw [hsig3] at hPS
                  obtain ⟨f1, hf1⟩ := hPC2
                  obtain ⟨f2, hf2⟩ := hPP
                  obtain ⟨f3, hf3⟩ := hPS
                  have hPv : PSize c st.signals n ⟨p.x + s.width, cons.max.height⟩ := by
                    refine ⟨Nat.max (Nat.max f1 f2) f3 + 1, ?_⟩
                    rw [psize]
                    rw [(pmono c st.signals f1).2.2.1 n cons hf1 (Nat.max (Nat.max f1 f2) f3)
                      (Nat.le_trans (Nat.le_max_left f1 f2) (Nat.le_max_left (Nat.max f1 f2) f3))]
                    dsimp only
                    rw [hl]
                    dsimp only
                    rw [hlast]
                    dsimp only
                    rw [(pmono c st.signals f2).2.1 lastC p hf2 (Nat.max (Nat.max f1 f2) f3)
                      (Nat.le_trans (Nat.le_max_right f1 f2) (Nat.le_max_left (Nat.max f1 f2) f3))]
                    dsimp only
                    rw [(pmono c st.signals f3).1 lastC s hf3 (Nat.max (Nat.max f1 f2) f3)
                      (Nat.le_max_right (Nat.max f1 f2) f3)]
                  unfold finishSize at h
                  cases h
                  refine ⟨hPv, ?_⟩
                  refine invInsertSize
                    (invCongr (by simp) (by simp) (by simp) (by simp) (by simp) (by simp) hI4) ?_
                  have hq : (popQuery st4).signals = st.signals := by simp [hsig4]
                  rw [hq]
                  exact hPv
          | padded t b l r =>
            rw [hl] at h; dsimp only at h
            cases hn : evalNth c fuel st2 n 0 with
            | fail e => rw [hn] at h; cases h
            | ok pr2 =>
              obtain ⟨fc, st3⟩ := pr2
              rw [hn] at h; dsimp only at h
              obtain ⟨hPN, hI3⟩ := evalNthSound hI2 hn
              have hsig3 : st3.signals = st.signals := by
                rw [(evalNthFrame hn).2.1, hsig2]
              cases hs : evalSize c fuel st3 fc with
              | fail e => rw [hs] at h; cases h
              | ok pr3 =>
                obtain ⟨s, st4⟩ := pr3
                rw [hs] at h; dsimp only at h
                obtain ⟨hPS, hI4⟩ := ihS _ _ _ _ hI3 hs
                have hsig4 : st4.signals = st.signals := by
                  rw [(evalSizeFrame hs).2.1, hsig3]
                rw [hsig3] at hPS
                obtain ⟨f1, hf1⟩ := hPC2
                obtain ⟨f2, hf2⟩ := hPN
                obtain ⟨f3, hf3⟩ := hPS
                have hPv : PSize c st.signals n ⟨s.width + l + r, s.height + t + b⟩ := by
                  refine ⟨Nat.max (Nat.max f1 f2) f3 + 1, ?_⟩
                  rw [psize]
                  rw [(pmono c st.signals f1).2.2.1 n cons hf1 (Nat.max (Nat.max f1 f2) f3)
                    (Nat.le_trans (Nat.le_max_left f1 f2) (Nat.le_max_left (Nat.max f1 f2) f3))]
                  dsimp only
                  rw [hl]
                  dsimp only
                  rw [(pmono c st.signals f2).2.2.2 n 0 fc hf2 (Nat.max (Nat.max f1 f2) f3)
                    (Nat.le_trans (Nat.le_max_right f1 f2) (Nat.le_max_left (Nat.max f1 f2) f3))]
                  dsimp only
                  rw [(pmono c st.signals f3).1 fc s hf3 (Nat.max (Nat.max f1 f2) f3)
                    (Nat.le_max_right (Nat.max f1 f2) f3)]
                unfold finishSize at h
                cases h
                refine ⟨hPv, ?_⟩
                refine invInsertSize
                  (invCongr (by simp) (by simp) (by simp) (by simp) (by simp) (by simp) hI4) ?_
                have hq : (popQuery st4).signals = st.signals := by simp [hsig4]
                rw [hq]
                exact hPv
          | centered =>
            rw [hl] at h; dsimp only at h
            cases hch : c.childrenOf n with
            | nil =>
              rw [hch] at h; dsimp only at h
              obtain ⟨f1, hf1⟩ := hPC2
              have hPv : PSize c st.signals n cons.max := by
                refine ⟨f1 + 1, ?_⟩
                rw [psize]
                rw [hf1]
                dsimp only
                rw [hl]
                dsimp only
                rw [hch]
              unfold finishSize at h
              cases h
              refine ⟨hPv, ?_⟩
              refine invInsertSize
                (invCongr (by simp) (by simp) (by simp) (by simp) (by simp) (by simp) hI2) ?_
              have hq : (popQuery st2).signals = st.signals := by simp [hsig2]
              rw [hq]
              exact hPv
            | cons c0 cs =>
              rw [hch] at h; dsimp only at h
              cases hs : evalSize c fuel st2 c0 with
              | fail e => rw [hs] at h; cases h
              | ok pr2 =>
                obtain ⟨s, st3⟩ := pr2
                rw [hs] at h; dsimp only at h
                obtain ⟨hPS, hI3⟩ := ihS _ _ _ _ hI2 hs
                have hsig3 : st3.signals = st.signals := by
                  rw [(evalSizeFrame hs).2.1, hsig2]
                rw [hsig2] at hPS
                obtain ⟨f1, hf1⟩ := hPC2
                obtain ⟨f2, hf2⟩ := hPS
                have hPv : PSize c st.signals n (cons.clampSize s) := by
                  refine ⟨Nat.max f1 f2 + 1, ?_⟩
                  rw [psize]
                  rw [(pmono c st.signals f1).2.2.1 n cons hf1 (Nat.max f1 f2)
                    (Nat.le_max_left f1 f2)]
                  dsimp only
                  rw [hl]
                  dsimp only
                  rw [hch]
                  dsimp only
                  rw [(pmono c st.signals f2).1 c0 s hf2 (Nat.max f1 f2)
                    (Nat.le_max_right f1 f2)]
                unfold finishSize at h
                cases h
                refine ⟨hPv, ?_⟩
                refine invInsertSize
                  (invCongr (by simp) (by simp) (by simp) (by simp) (by simp) (by simp) hI3) ?_
                have hq : (popQuery st3).signals = st.signals := by simp [hsig3]
                rw [hq]
                exact hPv
          | dynBox sid =>
            rw [hl] at h; dsimp only at h
            cases hg : getSignal st2 sid with
            | fail e => rw [hg] at h; cases h
            | ok pr2 =>
              obtain ⟨sv, st3⟩ := pr2
              rw [hg] at h; dsimp only at h
              obtain ⟨hsv, hI3⟩ := getSignalSound hI2 hg
              have hsig3 : st3.signals = st.signals := by
                rw [(getSignalFrame hg).2.1, hsig2]
              rw [hsig2] at hsv
              obtain ⟨f1, hf1⟩ := hPC2
              have hPv : PSize c st.signals n sv := by
                refine ⟨f1 + 1, ?_⟩
                rw [psize]
                rw [hf1]
                dsimp only
                rw [hl]
                dsimp only
                rw [hsv]
              unfold finishSize at h
              cases h
              refine ⟨hPv, ?_⟩
              refine invInsertSize
                (invCongr (by simp) (by simp) (by simp) (by simp) (by simp) (by simp) hI3) ?_
              have hq : (popQuery st3).signals = st.signals := by simp [hsig3]
              rw [hq]
              exact hPv
          | sizedBox s =>
            rw [hl] at h; dsimp only at h
            obtain ⟨f1, hf1⟩ := hPC2
            have hPv : PSize c st.signals n s := by
              refine ⟨f1 + 1, ?_⟩
              rw [psize]
              rw [hf1]
              dsimp only
              rw [hl]
            unfold finishSize at h
            cases h
            refine ⟨hPv, ?_⟩
            refine invInsertSize
              (invCongr (by simp) (by simp) (by simp) (by simp) (by simp) (by simp) hI2) ?_
            have hq : (popQuery st2).signals = st.signals := by simp [hsig2]
            rw [hq]
            exact hPv
          | selfLoop =>
            rw [hl] at h; dsimp only at h
            cases hs : evalSize c fuel st2 n with
            | fail e => rw [hs] at h; cases h
            | ok pr2 =>
              obtain ⟨s, st3⟩ := pr2
              rw [hs] at h; dsimp only at h
              obtain ⟨hPS, hI3⟩ := ihS _ _ _ _ hI2 hs
              have hsig3 : st3.signals = st.signals := by
                rw [(evalSizeFrame hs).2.1, hsig2]
              rw [hsig2] at hPS
              unfold finishSize at h
              cases h
              refine ⟨hPS, ?_⟩
              refine invInsertSize
                (invCongr (by simp) (by simp) (by simp) (by simp) (by simp) (by simp) hI3) ?_
              have hq : (popQuery st3).signals = st.signals := by simp [hsig3]
              rw [hq]
              exact hPS
    · intro st n v st' hI h
      rw [evalPos] at h
      cases hv : validLook (bumpTotal st).posCache n (bumpTotal st).revision with
      | some e =>
        rw [hv] at h
        cases h
        obtain ⟨ha, hle⟩ := validLook_some.mp hv
        refine ⟨hI.2.1 n e (by simpa using ha) (by simpa using hle), ?_⟩
        exact invCongr (by simp) (by simp) (by simp) (by simp) (by simp) (by simp) hI
      | none =>
        rw [hv] at h; dsimp only at h
        have hI1 : CacheInv c (enterMiss (bumpTotal st) (.nodePosition n)) :=
          invCongr (by simp) (by simp) (by simp) (by simp) (by simp) (by simp) hI
        by_cases hroot : n = c.root
        · rw [if_pos hroot] at h
          have hPv : PPos c st.signals n ⟨0, 0⟩ := by
            refine ⟨1, ?_⟩
            rw [ppos]
            rw [if_pos hroot]
          unfold finishPos at h
          cases h
          refine ⟨hPv, ?_⟩
          refine invInsertPos
            (invCongr (by simp) (by simp) (by simp) (by simp) (by simp) (by simp) hI) ?_
          have hq : (popQuery (enterMiss (bumpTotal st) (QueryDep.nodePosition n))).signals
              = st.signals := by simp
          rw [hq]
          exact hPv
        · rw [if_neg hroot] at h
          cases hpar : c.parentOf n with
          | none => rw [hpar] at h; cases h
          | some p =>
            rw [hpar] at h; dsimp only at h
            cases hidx : (c.childrenOf p).findIdx? (fun m => m == n) with
            | none => rw [hidx] at h; cases h
            | some k =>
              rw [hidx] at h; dsimp only at h
              cases hl : c.layouterOf p with
              | row =>
                rw [hl] at h; dsimp only at h
                by_cases hk : k = 0
                · rw [if_pos hk] at h
                  have hPv : PPos c st.signals n ⟨0, 0⟩ := by
                    refine ⟨1, ?_⟩
                    rw [ppos]
                    rw [if_neg hroot]
                    rw [hpar]
                    dsimp only
                    rw [hidx]
                    dsimp only
                    rw [hl]
                    dsimp only
                    rw [if_pos hk]
                  unfold finishPos at h
                  cases h
                  refine ⟨hPv, ?_⟩
                  refine invInsertPos
                    (invCongr (by simp) (by simp) (by simp) (by simp) (by simp) (by simp) hI) ?_
                  have hq : (popQuery (enterMiss (bumpTotal st) (QueryDep.nodePosition n))).signals
                      = st.signals := by simp
                  rw [hq]
                  exact hPv
                · rw [if_neg hk] at h
                  cases hn : evalNth c fuel (enterMiss (bumpTotal st) (.nodePosition n)) p (k - 1) with
                  | fail e => rw [hn] at h; cases h
                  | ok pr =>
                    obtain ⟨prev, st2⟩ := pr
                    rw [hn] at h; dsimp only at h
                    obtain ⟨hPN, hI2⟩ := evalNthSound hI1 hn
                    have hsig2 : st2.signals = st.signals := by
                      rw [(evalNthFrame hn).2.1]; simp
                    cases hs : evalSize c fuel st2 prev with
                    | fail e => rw [hs] at h; cases h
                    | ok pr2 =>
                      obtain ⟨ps, st3⟩ := pr2
                      rw [hs] at h; dsimp only at h
                      obtain ⟨hPS, hI3⟩ := ihS _ _ _ _ hI2 hs
                      have hsig3 : st3.signals = st.signals := by
                        rw [(evalSizeFrame hs).2.1, hsig2]
                      rw [hsig2] at hPS
                      cases hp : evalPos c fuel st3 prev with
                      | fail e => rw [hp] at h; cases h
                      | ok pr3 =>
                        obtain ⟨pp, st4⟩ := pr3
                        rw [hp] at h; dsimp only at h
                        obtain ⟨hPP, hI4⟩ := ihP _ _ _ _ hI3 hp
                        have hsig4 : st4.signals = st.signals := by
                          rw [(evalPosFrame hp).2.1, hsig3]
                        rw [hsig3] at hPP
                        obtain ⟨f1, hf1⟩ := hPN
                        obtain ⟨f2, hf2⟩ := hPS
                        obtain ⟨f3, hf3⟩ := hPP
                        have hPv : PPos c st.signals n ⟨pp.x + ps.width, pp.y⟩ := by
                          refine ⟨Nat.max (Nat.max f1 f2) f3 + 1, ?_⟩
                          rw [ppos]
                          rw [if_neg hroot]
                          rw [hpar]
                          dsimp only
                          rw [hidx]
                          dsimp only
                          rw [hl]
                          dsimp only
                          rw [if_neg hk]
                          rw [(pmono c st.signals f1).2.2.2 p (k - 1) prev hf1
                            (Nat.max (Nat.max f1 f2) f3)
                            (Nat.le_trans (Nat.le_max_left f1 f2)
                              (Nat.le_max_left (Nat.max f1 f2) f3))]
                          dsimp only
                          rw [(pmono c st.signals f2).1 prev ps hf2 (Nat.max (Nat.max f1 f2) f3)
                            (Nat.le_trans (Nat.le_max_right f1 f2)
                              (Nat.le_max_left (Nat.max f1 f2) f3))]
                          dsimp only
                          rw [(pmono c st.signals f3).2.1 prev pp hf3 (Nat.max (Nat.max f1 f2) f3)
                            (Nat.le_max_right (Nat.max f1 f2) f3)]
                        unfold finishPos at h
                        cases h
                        refine ⟨hPv, ?_⟩
                        refine invInsertPos
                          (invCongr (by simp) (by simp) (by simp) (by simp) (by simp) (by simp)
                            hI4) ?_
                        have hq : (popQuery st4).signals = st.signals := by simp [hsig4]
                        rw [hq]
                        exact hPv
              | padded t b l r =>
                rw [hl] at h; dsimp only at h
                have hPv : PPos c st.signals n ⟨l, t⟩ := by
                  refine ⟨1, ?_⟩
                  rw [ppos]
                  rw [if_neg hroot]
                  rw [hpar]
                  dsimp only
                  rw [hidx]
                  dsimp only
                  rw [hl]
                unfold finishPos at h
                cases h
                refine ⟨hPv, ?_⟩
                refine invInsertPos
                  (invCongr (by simp) (by simp) (by simp) (by simp) (by simp) (by simp) hI) ?_
                have hq : (popQuery (enterMiss (bumpTotal st) (QueryDep.nodePosition n))).signals
                    = st.signals := by simp
                rw [hq]
                exact hPv
              | centered =>
                rw [hl] at h; dsimp only at h
                cases hs : evalSize c fuel (enterMiss (bumpTotal st) (.nodePosition n)) p with
                | fail e => rw [hs] at h; cases h
                | ok pr =>
                  obtain ⟨ss, st2⟩ := pr
                  rw [hs] at h; dsimp only at h
                  obtain ⟨hPSS, hI2⟩ := ihS _ _ _ _ hI1 hs
                  have hsig2 : st2.signals = st.signals := by
                    rw [(evalSizeFrame hs).2.1]; simp
                  have hSS : PSize c st.signals p ss := by simpa using hPSS
                  cases hn : evalNth c fuel st2 p k with
                  | fail e => rw [hn] at h; cases h
                  | ok pr2 =>
                    obtain ⟨ch, st3⟩ := pr2
                    rw [hn] at h; dsimp only at h
                    obtain ⟨hPN, hI3⟩ := evalNthSound hI2 hn
                    have hsig3 : st3.signals = st.signals := by
                      rw [(evalNthFrame hn).2.1, hsig2]
                    cases hs2 : evalSize c fuel st3 ch with
                    | fail e => rw [hs2] at h; cases h
                    | ok pr3 =>
                      obtain ⟨cs, st4⟩ := pr3
                      rw [hs2] at h; dsimp only at h
                      obtain ⟨hPCS, hI4⟩ := ihS _ _ _ _ hI3 hs2
                      have hsig4 : st4.signals = st.signals := by
                        rw [(evalSizeFrame hs2).2.1, hsig3]
                      rw [hsig3] at hPCS
                      obtain ⟨f1, hf1⟩ := hSS
                      obtain ⟨f2, hf2⟩ := hPN
                      obtain ⟨f3, hf3⟩ := hPCS
                      have hPv : PPos c st.signals n
                          ⟨Qd.half (ss.width - cs.width), Qd.half (ss.height - cs.height)⟩ := by
                        refine ⟨Nat.max (Nat.max f1 f2) f3 + 1, ?_⟩
                        rw [ppos]
                        rw [if_neg hroot]
                        rw [hpar]
                        dsimp only
                        rw [hidx]
                        dsimp only
                        rw [hl]
                        dsimp only
                        rw [(pmono c st.signals f1).1 p ss hf1 (Nat.max (Nat.max f1 f2) f3)
                          (Nat.le_trans (Nat.le_max_left f1 f2)
                            (Nat.le_max_left (Nat.max f1 f2) f3))]
                        dsimp only
                        rw [(pmono c st.signals f2).2.2.2 p k ch hf2 (Nat.max (Nat.max f1 f2) f3)
                          (Nat.le_trans (Nat.le_max_right f1 f2)
                            (Nat.le_max_left (Nat.max f1 f2) f3))]
                        dsimp only
                        rw [(pmono c st.signals f3).1 ch cs hf3 (Nat.max (Nat.max f1 f2) f3)
                          (Nat.le_max_right (Nat.max f1 f2) f3)]
                      unfold finishPos at h
                      cases h
                      refine ⟨hPv, ?_⟩
                      refine invInsertPos
                        (invCongr (by simp) (by simp) (by simp) (by simp) (by simp) (by simp)
                          hI4) ?_
                      have hq : (popQuery st4).signals = st.signals := by simp [hsig4]
                      rw [hq]
                      exact hPv
              | dynBox sid =>
                rw [hl] at h; dsimp only at h
                have hPv : PPos c st.signals n ⟨0, 0⟩ := by
                  refine ⟨1, ?_⟩
                  rw [ppos]
                  rw [if_neg hroot]
                  rw [hpar]
                  dsimp only
                  rw [hidx]
                  dsimp only
                  rw [hl]
                unfold finishPos at h
                cases h
                refine ⟨hPv, ?_⟩
                refine invInsertPos
                  (invCongr (by simp) (by simp) (by simp) (by simp) (by simp) (by simp) hI) ?_
                have hq : (popQuery (enterMiss (bumpTotal st) (QueryDep.nodePosition n))).signals
                    = st.signals := by simp
                rw [hq]
                exact hPv
              | sizedBox s =>
                rw [hl] at h; dsimp only at h
                have hPv : PPos c st.signals n ⟨0, 0⟩ := by
                  refine ⟨1, ?_⟩
                  rw [ppos]
                  rw [if_neg hroot]
                  rw [hpar]
                  dsimp only
                  rw [hidx]
                  dsimp only
                  rw [hl]
                unfold finishPos at h
                cases h
                refine ⟨hPv, ?_⟩
                refine invInsertPos
                  (invCongr (by simp) (by simp) (by simp) (by simp) (by simp) (by simp) hI) ?_
                have hq : (popQuery (enterMiss (bumpTotal st) (QueryDep.nodePosition n))).signals
                    = st.signals := by simp
                rw [hq]
                exact hPv
              | selfLoop =>
                rw [hl] at h; dsimp only at h
                have hPv : PPos c st.signals n ⟨0, 0⟩ := by
                  refine ⟨1, ?_⟩
                  rw [ppos]
                  rw [if_neg hroot]
                  rw [hpar]
                  dsimp only
                  rw [hidx]
                  dsimp only
                  rw [hl]
                unfold finishPos at h
                cases h
                refine ⟨hPv, ?_⟩
                refine invInsertPos
                  (invCongr (by simp) (by simp) (by simp) (by simp) (by simp) (by simp) hI) ?_
                have hq : (popQuery (enterMiss (bumpTotal st) (QueryDep.nodePosition n))).signals
                    = st.signals := by simp
                rw [hq]
                exact hPv
    · intro st n v st' hI h
      rw [evalCons] at h
      cases hv : validLook (bumpTotal st).consCache n (bumpTotal st).revision with
      | some e =>
        rw [hv] at h
        cases h
        obtain ⟨ha, hle⟩ := validLook_some.mp hv
        refine ⟨hI.2.2.1 n e (by simpa using ha) (by simpa using hle), ?_⟩
        exact invCongr (by simp) (by simp) (by simp) (by simp) (by simp) (by simp) hI
      | none =>
        rw [hv] at h; dsimp only at h
        have hI1 : CacheInv c (enterMiss (bumpTotal st) (.nodeConstraints n)) :=
          invCongr (by simp) (by simp) (by simp) (by simp) (by simp) (by simp) hI
        by_cases hroot : n = c.root
        · rw [if_pos hroot] at h
          have hPv : PCons c st.signals n ⟨⟨0, 0⟩, c.windowSize⟩ := by
            refine ⟨1, ?_⟩
            rw [pcons]
            rw [if_pos hroot]
          unfold finishCons at h
          cases h
          refine ⟨hPv, ?_⟩
          refine invInsertCons
            (invCongr (by simp) (by simp) (by simp) (by simp) (by simp) (by simp) hI) ?_
          have hq : (popQuery (enterMiss (bumpTotal st) (QueryDep.nodeConstraints n))).signals
              = st.signals := by simp
          rw [hq]
          exact hPv
        · rw [if_neg hroot] at h
          cases hpar : c.parentOf n with
          | none => rw [hpar] at h; cases h
          | some p =>
            rw [hpar] at h; dsimp only at h
            cases hc : evalCons c fuel (enterMiss (bumpTotal st) (.nodeConstraints n)) p with
            | fail e => rw [hc] at h; cases h
            | ok pr =>
              obtain ⟨pc, st2⟩ := pr
              rw [hc] at h; dsimp only at h
              obtain ⟨hPC, hI2⟩ := ihC _ _ _ _ hI1 hc
              have hsig2 : st2.signals = st.signals := by
                rw [(evalConsFrame hc).2.1]; simp
              have hPC2 : PCons c st.signals p pc := by simpa using hPC
              cases hidx : (c.childrenOf p).findIdx? (fun m => m == n) with
              | none => rw [hidx] at h; cases h
              | some k =>
                rw [hidx] at h; dsimp only at h
                cases hl : c.layouterOf p with
                | row =>
                  rw [hl] at h; dsimp only at h
                  by_cases hk : k = 0
                  · rw [if_pos hk] at h
                    obtain ⟨f1, hf1⟩ := hPC2
                    have hPv : PCons c st.signals n pc := by
                      refine ⟨f1 + 1, ?_⟩
                      rw [pcons]
                      rw [if_neg hroot]
                      rw [hpar]
                      dsimp only
                      rw [hf1]
                      dsimp only
                      rw [hidx]
                      dsimp only
                      rw [hl]
                      dsimp only
                      rw [if_pos hk]
                    unfold finishCons at h
                    cases h
                    refine ⟨hPv, ?_⟩
                    refine invInsertCons
                      (invCongr (by simp) (by simp) (by simp) (by simp) (by simp) (by simp)
                        hI2) ?_
                    have hq : (popQuery st2).signals = st.signals := by simp [hsig2]
                    rw [hq]
                    exact hPv
                  · rw [if_neg hk] at h
                    cases hn : evalNth c fuel st2 p (k - 1) with
                    | fail e => rw [hn] at h; cases h
                    | ok pr2 =>
                      obtain ⟨prev, st3⟩ := pr2
                      rw [hn] at h; dsimp only at h
                      obtain ⟨hPN, hI3⟩ := evalNthSound hI2 hn
                      have hsig3 : st3.signals = st.signals := by
                        rw [(evalNthFrame hn).2.1, hsig2]
                      cases hs : evalSize c fuel st3 prev with
                      | fail e => rw [hs] at h; cases h
                      | ok pr3 =>
                        obtain ⟨ps, st4⟩ := pr3
                        rw [hs] at h; dsimp only at h
                        obtain ⟨hPS, hI4⟩ := ihS _ _ _ _ hI3 hs
                        have hsig4 : st4.signals = st.signals := by
                          rw [(evalSizeFrame hs).2.1, hsig3]
                        rw [hsig3] at hPS
                        cases hp : evalPos c fuel st4 prev with
                        | fail e => rw [hp] at h; cases h
                        | ok pr4 =>
                          obtain ⟨pp, st5⟩ := pr4
                          rw [hp] at h; dsimp only at h
                          obtain ⟨hPP, hI5⟩ := ihP _ _ _ _ hI4 hp
                          have hsig5 : st5.signals = st.signals := by
                            rw [(evalPosFrame hp).2.1, hsig4]
                          rw [hsig4] at hPP
                          obtain ⟨f1, hf1⟩ := hPC2
                          obtain ⟨f2, hf2⟩ := hPN
                          obtain ⟨f3, hf3⟩ := hPS
                          obtain ⟨f4, hf4⟩ := hPP
                          have hPv : PCons c st.signals n
                              ⟨pc.min, ⟨pc.max.width - pp.x - ps.width, pc.max.height⟩⟩ := by
                            refine ⟨Nat.max (Nat.max (Nat.max f1 f2) f3) f4 + 1, ?_⟩
                            rw [pcons]
                            rw [if_neg hroot]
                            rw [hpar]
                            dsimp only
                            rw [(pmono c st.signals f1).2.2.1 p pc hf1
                              (Nat.max (Nat.max (Nat.max f1 f2) f3) f4)
                              (Nat.le_trans (Nat.le_trans (Nat.le_max_left f1 f2)
                                  (Nat.le_max_left (Nat.max f1 f2) f3))
                                (Nat.le_max_left (Nat.max (Nat.max f1 f2) f3) f4))]
                            dsimp only
                            rw [hidx]
                            dsimp only
                            rw [hl]
                            dsimp only
                            rw [if_neg hk]
                            rw [(pmono c st.signals f2).2.2.2 p (k - 1) prev hf2
                              (Nat.max (Nat.max (Nat.max f1 f2) f3) f4)
                              (Nat.le_trans (Nat.le_trans (Nat.le_max_right f1 f2)
                                  (Nat.le_max_left (Nat.max f1 f2) f3))
                                (Nat.le_max_left (Nat.max (Nat.max f1 f2) f3) f4))]
                            dsimp only
                            rw [(pmono c st.signals f3).1 prev ps hf3
                              (Nat.max (Nat.max (Nat.max f1 f2) f3) f4)
                              (Nat.le_trans (Nat.le_max_right (Nat.max f1 f2) f3)
                                (Nat.le_max_left (Nat.max (Nat.max f1 f2) f3) f4))]
                            dsimp only
                            rw [(pmono c st.signals f4).2.1 prev pp hf4
                              (Nat.max (Nat.max (Nat.max f1 f2) f3) f4)
                              (Nat.le_max_right (Nat.max (Nat.max f1 f2) f3) f4)]
                          unfold finishCons at h
                          cases h
                          refine ⟨hPv, ?_⟩
                          refine invInsertCons
                            (invCongr (by simp) (by simp) (by simp) (by simp) (by simp) (by simp)
                              hI5) ?_
                          have hq : (popQuery st5).signals = st.signals := by simp [hsig5]
                          rw [hq]
                          exact hPv
                | padded t b l r =>
                  rw [hl] at h; dsimp only at h
                  obtain ⟨f1, hf1⟩ := hPC2
                  have hPv : PCons c st.signals n (paddedConstraintsForChild t b l r pc) := by
                    refine ⟨f1 + 1, ?_⟩
                    rw [pcons]
                    rw [if_neg hroot]
                    rw [hpar]
                    dsimp only
                    rw [hf1]
                    dsimp only
                    rw [hidx]
                    dsimp only
                    rw [hl]
                  unfold finishCons at h
                  cases h
                  refine ⟨hPv, ?_⟩
                  refine invInsertCons
                    (invCongr (by simp) (by simp) (by simp) (by simp) (by simp) (by simp) hI2) ?_
                  have hq : (popQuery st2).signals = st.signals := by simp [hsig2]
                  rw [hq]
                  exact hPv
                | centered =>
                  rw [hl] at h; dsimp only at h
                  obtain ⟨f1, hf1⟩ := hPC2
                  have hPv : PCons c st.signals n pc := by
                    refine ⟨f1 + 1, ?_⟩
                    rw [pcons]
                    rw [if_neg hroot]
                    rw [hpar]
                    dsimp only
                    rw [hf1]
                    dsimp only
                    rw [hidx]
                    dsimp only
                    rw [hl]
                  unfold finishCons at h
                  cases h
                  refine ⟨hPv, ?_⟩
                  refine invInsertCons
                    (invCongr (by simp) (by simp) (by simp) (by simp) (by simp) (by simp) hI2) ?_
                  have hq : (popQuery st2).signals = st.signals := by simp [hsig2]
                  rw [hq]
                  exact hPv
                | dynBox sid =>
                  rw [hl] at h; dsimp only at h
                  obtain ⟨f1, hf1⟩ := hPC2
                  have hPv : PCons c st.signals n pc := by
                    refine ⟨f1 + 1, ?_⟩
                    rw [pcons]
                    rw [if_neg hroot]
                    rw [hpar]
                    dsimp only
                    rw [hf1]
                    dsimp only
                    rw [hidx]
                    dsimp only
                    rw [hl]
                  unfold finishCons at h
                  cases h
                  refine ⟨hPv, ?_⟩
                  refine invInsertCons
                    (invCongr (by simp) (by simp) (by simp) (by simp) (by simp) (by simp) hI2) ?_
                  have hq : (popQuery st2).signals = st.signals := by simp [hsig2]
                  rw [hq]
                  exact hPv
                | sizedBox s =>
                  rw [hl] at h; dsimp only at h
                  obtain ⟨f1, hf1⟩ := hPC2
                  have hPv : PCons c st.signals n pc := by
                    refine ⟨f1 + 1, ?_⟩
                    rw [pcons]
                    rw [if_neg hroot]
                    rw [hpar]
                    dsimp only
                    rw [hf1]
                    dsimp only
                    rw [hidx]
                    dsimp only
                    rw [hl]
                  unfold finishCons at h
                  cases h
                  refine ⟨hPv, ?_⟩
                  refine invInsertCons
                    (invCongr (by simp) (by simp) (by simp) (by simp) (by simp) (by simp) hI2) ?_
                  have hq : (popQuery st2).signals = st.signals := by simp [hsig2]
                  rw [hq]
                  exact hPv
                | selfLoop =>
                  rw [hl] at h; dsimp only at h
                  obtain ⟨f1, hf1⟩ := hPC2
                  have hPv : PCons c st.signals n pc := by
                    refine ⟨f1 + 1, ?_⟩
                    rw [pcons]
                    rw [if_neg hroot]
                    rw [hpar]
                    dsimp only
                    rw [hf1]
                    dsimp only
                    rw [hidx]
                    dsimp only
                    rw [hl]
                  unfold finishCons at h
                  cases h
                  refine ⟨hPv, ?_⟩
                  refine invInsertCons
                    (invCongr (by simp) (by simp) (by simp) (by simp) (by simp) (by simp) hI2) ?_
                  have hq : (popQuery st2).signals = st.signals := by simp [hsig2]
                  rw [hq]
                  exact hPv

theorem stampCongr {st st' : St}
    (h1 : st'.sizeCache = st.sizeCache) (h2 : st'.posCache = st.posCache)
    (h3 : st'.consCache = st.consCache) (h4 : st'.nthCache = st.nthCache)
    (h5 : st'.revision = st.revision)
    (hS : StampInv st) : StampInv st' := by
  obtain ⟨i1, i2, i3, i4⟩ := hS
  refine ⟨?_, ?_, ?_, ?_⟩
  · intro n e ha; rw [h1] at ha; rw [h5]; exact i1 n e ha
  · intro n e ha; rw [h2] at ha; rw [h5]; exact i2 n e ha
  · intro n e ha; rw [h3] at ha; rw [h5]; exact i3 n e ha
  · intro p k e ha; rw [h4] at ha; rw [h5]; exact i4 p k e ha

theorem stampInsertSize {st : St} {n : Nat} {v : SizeV} {lc vt : Nat}
    (hS : StampInv st) (hvt : vt ≤ st.revision) :
    StampInv (insertSizeC st n ⟨v, lc, vt⟩) := by
  obtain ⟨i1, i2, i3, i4⟩ := hS
  refine ⟨?_, i2, i3, i4⟩
  intro m e ha
  by_cases hm : n = m
  · subst hm
    have : e = ⟨v, lc, vt⟩ := by
      simpa [insertSizeC, alook] using ha.symm
    rw [this]
    exact hvt
  · have : alook st.sizeCache m = some e := by
      simpa [insertSizeC, alook, hm] using ha
    exact i1 m e this

theorem stampInsertPos {st : St} {n : Nat} {v : PointV} {lc vt : Nat}
    (hS : StampInv st) (hvt : vt ≤ st.revision) :
    StampInv (insertPosC st n ⟨v, lc, vt⟩) := by
  obtain ⟨i1, i2, i3, i4⟩ := hS
  refine ⟨i1, ?_, i3, i4⟩
  intro m e ha
  by_cases hm : n = m
  · subst hm
    have : e = ⟨v, lc, vt⟩ := by
      simpa [insertPosC, alook] using ha.symm
    rw [this]
    exact hvt
  · have : alook st.posCache m = some e := by
      simpa [insertPosC, alook, hm] using ha
    exact i2 m e this

theorem stampInsertCons {st : St} {n : Nat} {v : Constraints} {lc vt : Nat}
    (hS : StampInv st) (hvt : vt ≤ st.revision) :
    StampInv (insertConsC st n ⟨v, lc, vt⟩) := by
  obtain ⟨i1, i2, i3, i4⟩ := hS
  refine ⟨i1, i2, ?_, i4⟩
  intro m e ha
  by_cases hm : n = m
  · subst hm
    have : e = ⟨v, lc, vt⟩ := by
      simpa [insertConsC, alook] using ha.symm
    rw [this]
    exact hvt
  · have : alook st.consCache m = some e := by
      simpa [insertConsC, alook, hm] using ha
    exact i3 m e this

theorem stampInsertNth {st : St} {p k : Nat} {v : Nat} {lc vt : Nat}
    (hS : StampInv st) (hvt : vt ≤ st.revision) :
    StampInv (insertNthC st p k ⟨v, lc, vt⟩) := by
  obtain ⟨i1, i2, i3, i4⟩ := hS
  refine ⟨i1, i2, i3, ?_⟩
  intro p2 k2 e ha
  by_cases hm : (p, k) = (p2, k2)
  · have : e = ⟨v, lc, vt⟩ := by
      simpa [insertNthC, alook, hm] using ha.symm
    rw [this]
    exact hvt
  · have : alook st.nthCache (p2, k2) = some e := by
      simpa [insertNthC, alook, hm] using ha
    exact i4 p2 k2 e this

/-- `query_nth_child` keeps every stamp at or below the revision. -/
theorem evalNthStamp {c : Ctx} {fuel : Nat} {st : St} {p k v : Nat} {st' : St}
    (hS : StampInv st) (h : evalNth c fuel st p k = .ok (v, st')) :
    StampInv st' := by
  match fuel with
  | 0 => simp [evalNth] at h
  | fuel + 1 =>
    rw [evalNth] at h
    cases hv : validLook (bumpTotal st).nthCache (p, k) (bumpTotal st).revision with
    | some e =>
      rw [hv] at h
      cases h
      exact stampCongr (by simp) (by simp) (by simp) (by simp) (by simp) hS
    | none =>
      rw [hv] at h
      dsimp only at h
      cases hg : (c.childrenOf p)[k]? with
      | none => rw [hg] at h; cases h
      | some m =>
        rw [hg] at h
        unfold finishNth at h
        cases h
        exact stampInsertNth
          (stampCongr (by simp) (by simp) (by simp) (by simp) (by simp) hS) (Nat.le_refl _)

/-- `get_signal` keeps every stamp at or below the revision. -/
theorem getSignalStamp {st : St} {sid : Nat} {v : SizeV} {st' : St}
    (hS : StampInv st) (h : getSignal st sid = .ok (v, st')) :
    StampInv st' := by
  obtain ⟨hrev, -, -, h4, h5, h6, h7, -⟩ := getSignalFrame h
  exact stampCongr h4 h5 h6 h7 hrev hS

/-- The stamp invariant is preserved by the three mutually recursive query
entry points: every entry they store carries `valid_through =
current_revision()`. -/
theorem evalStampSound (c : Ctx) (fuel : Nat) :
    (∀ st n v st', StampInv st → evalSize c fuel st n = .ok (v, st') →
      StampInv st') ∧
    (∀ st n v st', StampInv st → evalPos c fuel st n = .ok (v, st') →
      StampInv st') ∧
    (∀ st n v st', StampInv st → evalCons c fuel st n = .ok (v, st') →
      StampInv st') := by
  induction fuel with
  | zero =>
    refine ⟨?_, ?_, ?_⟩ <;> intro st n v st' hS h <;> simp [evalSize, evalPos, evalCons] at h
  | succ fuel ih =>
    obtain ⟨ihS, ihP, ihC⟩ := ih
    refine ⟨?_, ?_, ?_⟩
    · intro st n v st' hS h
      rw [evalSize] at h
      cases hv : validLook (bumpTotal st).sizeCache n (bumpTotal st).revision with
      | some e =>
        rw [hv] at h
        cases h
        exact stampCongr (by simp) (by simp) (by simp) (by simp) (by simp) hS
      | none =>
        rw [hv] at h; dsimp only at h
        have hS1 : StampInv (enterMiss (bumpTotal st) (.nodeSize n)) :=
          stampCongr (by simp) (by simp) (by simp) (by simp) (by simp) hS
        cases hc : evalCons c fuel (enterMiss (bumpTotal st) (.nodeSize n)) n with
        | fail e => rw [hc] at h; cases h
        | ok pr =>
          obtain ⟨cons, st2⟩ := pr
          rw [hc] at h; dsimp only at h
          have hS2 : StampInv st2 := ihC _ _ _ _ hS1 hc
          cases hl : c.layouterOf n with
          | row =>
            rw [hl] at h; dsimp only at h
            cases hlast : (c.childrenOf n).getLast? with
            | none => rw [hlast] at h; cases h
            | some lastC =>
              rw [hlast] at h; dsimp only at h
              cases hp : evalPos c fuel st2 lastC with
              | fail e => rw [hp] at h; cases h
              | ok pr2 =>
                obtain ⟨p, st3⟩ := pr2
                rw [hp] at h; dsimp only at h
                have hS3 : StampInv st3 := ihP _ _ _ _ hS2 hp
                cases hs : evalSize c fuel st3 lastC with
                | fail e => rw [hs] at h; cases h
                | ok pr3 =>
                  obtain ⟨s, st4⟩ := pr3
                  rw [hs] at h; dsimp only at h
                  have hS4 : StampInv st4 := ihS _ _ _ _ hS3 hs
                  unfold finishSize at h
                  cases h
                  exact stampInsertSize
                    (stampCongr (by simp) (by simp) (by simp) (by simp) (by simp) hS4)
                    (Nat.le_refl _)
          | padded t b l r =>
            rw [hl] at h; dsimp only at h
            cases hn : evalNth c fuel st2 n 0 with
            | fail e => rw [hn] at h; cases h
            | ok pr2 =>
              obtain ⟨fc, st3⟩ := pr2
              rw [hn] at h; dsimp only at h
              have hS3 : StampInv st3 := evalNthStamp hS2 hn
              cases hs : evalSize c fuel st3 fc with
              | fail e => rw [hs] at h; cases h
              | ok pr3 =>
                obtain ⟨s, st4⟩ := pr3
                rw [hs] at h; dsimp only at h
                have hS4 : StampInv st4 := ihS _ _ _ _ hS3 hs
                unfold finishSize at h
                cases h
                exact stampInsertSize
                  (stampCongr (by simp) (by simp) (by simp) (by simp) (by simp) hS4)
                  (Nat.le_refl _)
          | centered =>
            rw [hl] at h; dsimp only at h
            cases hch : c.childrenOf n with
            | nil =>
              rw [hch] at h; dsimp only at h
              unfold finishSize at h
              cases h
              exact stampInsertSize
                (stampCongr (by simp) (by simp) (by simp) (by simp) (by simp) hS2)
                (Nat.le_refl _)
            | cons c0 cs =>
              rw [hch] at h; dsimp only at h
              cases hs : evalSize c fuel st2 c0 with
              | fail e => rw [hs] at h; cases h
              | ok pr2 =>
                obtain ⟨s, st3⟩ := pr2
                rw [hs] at h; dsimp only at h
                have hS3 : StampInv st3 := ihS _ _ _ _ hS2 hs
                unfold finishSize at h
                cases h
                exact stampInsertSize
                  (stampCongr (by simp) (by simp) (by simp) (by simp) (by simp) hS3)
                  (Nat.le_refl _)
          | dynBox sid =>
            rw [hl] at h; dsimp only at h
            cases hg : getSignal st2 sid with
            | fail e => rw [hg] at h; cases h
            | ok pr2 =>
              obtain ⟨sv, st3⟩ := pr2
              rw [hg] at h; dsimp only at h
              have hS3 : StampInv st3 := getSignalStamp hS2 hg
              unfold finishSize at h
              cases h
              exact stampInsertSize
                (stampCongr (by simp) (by simp) (by simp) (by simp) (by simp) hS3)
                (Nat.le_refl _)
          | sizedBox s =>
            rw [hl] at h; dsimp only at h
            unfold finishSize at h
            cases h
            exact stampInsertSize
              (stampCongr (by simp) (by simp) (by simp) (by simp) (by simp) hS2)
              (Nat.le_refl _)
          | selfLoop =>
            rw [hl] at h; dsimp only at h
            cases hs : evalSize c fuel st2 n with
            | fail e => rw [hs] at h; cases h
            | ok pr2 =>
              obtain ⟨s, st3⟩ := pr2
              rw [hs] at h; dsimp only at h
              have hS3 : StampInv st3 := ihS _ _ _ _ hS2 hs
              unfold finishSize at h
              cases h
              exact stampInsertSize
                (stampCongr (by simp) (by simp) (by simp) (by simp) (by simp) hS3)
                (Nat.le_refl _)
    · intro st n v st' hS h
      rw [evalPos] at h
      cases hv : validLook (bumpTotal st).posCache n (bumpTotal st).revision with
      | some e =>
        rw [hv] at h
        cases h
        exact stampCongr (by simp) (by simp) (by simp) (by simp) (by simp) hS
      | none =>
        rw [hv] at h; dsimp only at h
        have hS1 : StampInv (enterMiss (bumpTotal st) (.nodePosition n)) :=
          stampCongr (by simp) (by simp) (by simp) (by simp) (by simp) hS
        by_cases hroot : n = c.root
        · rw [if_pos hroot] at h
          unfold finishPos at h
          cases h
          exact stampInsertPos
            (stampCongr (by simp) (by simp) (by simp) (by simp) (by simp) hS)
            (Nat.le_refl _)
        · rw [if_neg hroot] at h
          cases hpar : c.parentOf n with
          | none => rw [hpar] at h; cases h
          | some p =>
            rw [hpar] at h; dsimp only at h
            cases hidx : (c.childrenOf p).findIdx? (fun m => m == n) with
            | none => rw [hidx] at h; cases h
            | some k =>
              rw [hidx] at h; dsimp only at h
              cases hl : c.layouterOf p with
              | row =>
                rw [hl] at h; dsimp only at h
                by_cases hk : k = 0
                · rw [if_pos hk] at h
                  unfold finishPos at h
                  cases h
                  exact stampInsertPos
                    (stampCongr (by simp) (by simp) (by simp) (by simp) (by simp) hS)
                    (Nat.le_refl _)
                · rw [if_neg hk] at h
                  cases hn : evalNth c fuel (enterMiss (bumpTotal st) (.nodePosition n)) p (k - 1) with
                  | fail e => rw [hn] at h; cases h
                  | ok pr =>
                    obtain ⟨prev, st2⟩ := pr
                    rw [hn] at h; dsimp only at h
                    have hS2 : StampInv st2 := evalNthStamp hS1 hn
                    cases hs : evalSize c fuel st2 prev with
                    | fail e => rw [hs] at h; cases h
                    | ok pr2 =>
                      obtain ⟨ps, st3⟩ := pr2
                      rw [hs] at h; dsimp only at h
                      have hS3 : StampInv st3 := ihS _ _ _ _ hS2 hs
                      cases hp : evalPos c fuel st3 prev with
                      | fail e => rw [hp] at h; cases h
                      | ok pr3 =>
                        obtain ⟨pp, st4⟩ := pr3
                        rw [hp] at h; dsimp only at h
                        have hS4 : StampInv st4 := ihP _ _ _ _ hS3 hp
                        unfold finishPos at h
                        cases h
                        exact stampInsertPos
                          (stampCongr (by simp) (by simp) (by simp) (by simp) (by simp) hS4)
                          (Nat.le_refl _)
              | padded t b l r =>
                rw [hl] at h; dsimp only at h
                unfold finishPos at h
                cases h
                exact stampInsertPos
                  (stampCongr (by simp) (by simp) (by simp) (by simp) (by simp) hS)
                  (Nat.le_refl _)
              | centered =>
                rw [hl] at h; dsimp only at h
                cases hs : evalSize c fuel (enterMiss (bumpTotal st) (.nodePosition n)) p with
                | fail e => rw [hs] at h; cases h
                | ok pr =>
                  obtain ⟨ss, st2⟩ := pr
                  rw [hs] at h; dsimp only at h
                  have hS2 : StampInv st2 := ihS _ _ _ _ hS1 hs
                  cases hn : evalNth c fuel st2 p k with
                  | fail e => rw [hn] at h; cases h
                  | ok pr2 =>
                    obtain ⟨ch, st3⟩ := pr2
                    rw [hn] at h; dsimp only at h
                    have hS3 : StampInv st3 := evalNthStamp hS2 hn
                    cases hs2 : evalSize c fuel st3 ch with
                    | fail e => rw [hs2] at h; cases h
                    | ok pr3 =>
                      obtain ⟨cs, st4⟩ := pr3
                      rw [hs2] at h; dsimp only at h
                      have hS4 : StampInv st4 := ihS _ _ _ _ hS3 hs2
                      unfold finishPos at h
                      cases h
                      exact stampInsertPos
                        (stampCongr (by simp) (by simp) (by simp) (by simp) (by simp) hS4)
                        (Nat.le_refl _)
              | dynBox sid =>
                rw [hl] at h; dsimp only at h
                unfold finishPos at h
                cases h
                exact stampInsertPos
                  (stampCongr (by simp) (by simp) (by simp) (by simp) (by simp) hS)
                  (Nat.le_refl _)
              | sizedBox s =>
                rw [hl] at h; dsimp only at h
                unfold finishPos at h
                cases h
                exact stampInsertPos
                  (stampCongr (by simp) (by simp) (by simp) (by simp) (by simp) hS)
                  (Nat.le_refl _)
              | selfLoop =>
                rw [hl] at h; dsimp only at h
                unfold finishPos at h
                cases h
                exact stampInsertPos
                  (stampCongr (by simp) (by simp) (by simp) (by simp) (by simp) hS)
                  (Nat.le_refl _)
    · intro st n v st' hS h
      rw [evalCons] at h
      cases hv : validLook (bumpTotal st).consCache n (bumpTotal st).revision with
      | some e =>
        rw [hv] at h
        cases h
        exact stampCongr (by simp) (by simp) (by simp) (by simp) (by simp) hS
      | none =>
        rw [hv] at h; dsimp only at h
        have hS1 : StampInv (enterMiss (bumpTotal st) (.nodeConstraints n)) :=
          stampCongr (by simp) (by simp) (by simp) (by simp) (by simp) hS
        by_cases hroot : n = c.root
        · rw [if_pos hroot] at h
          unfold finishCons at h
          cases h
          exact stampInsertCons
            (stampCongr (by simp) (by simp) (by simp) (by simp) (by simp) hS)
            (Nat.le_refl _)
        · rw [if_neg hroot] at h
          cases hpar : c.parentOf n with
          | none => rw [hpar] at h; cases h
          | some p =>
            rw [hpar] at h; dsimp only at h
            cases hc : evalCons c fuel (enterMiss (bumpTotal st) (.nodeConstraints n)) p with
            | fail e => rw [hc] at h; cases h
            | ok pr =>
              obtain ⟨pc, st2⟩ := pr
              rw [hc] at h; dsimp only at h
              have hS2 : StampInv st2 := ihC _ _ _ _ hS1 hc
              cases hidx : (c.childrenOf p).findIdx? (fun m => m == n) with
              | none => rw [hidx] at h; cases h
              | some k =>
                rw [hidx] at h; dsimp only at h
                cases hl : c.layouterOf p with
                | row =>
                  rw [hl] at h; dsimp only at h
                  by_cases hk : k = 0
                  · rw [if_pos hk] at h
                    unfold finishCons at h
                    cases h
                    exact stampInsertCons
                      (stampCongr (by simp) (by simp) (by simp) (by simp) (by simp) hS2)
                      (Nat.le_refl _)
                  · rw [if_neg hk] at h
                    cases hn : evalNth c fuel st2 p (k - 1) with
                    | fail e => rw [hn] at h; cases h
                    | ok pr2 =>
                      obtain ⟨prev, st3⟩ := pr2
                      rw [hn] at h; dsimp only at h
                      have hS3 : StampInv st3 := evalNthStamp hS2 hn
                      cases hs : evalSize c fuel st3 prev with
                      | fail e => rw [hs] at h; cases h
                      | ok pr3 =>
                        obtain ⟨ps, st4⟩ := pr3
                        rw [hs] at h; dsimp only at h
                        have hS4 : StampInv st4 := ihS _ _ _ _ hS3 hs
                        cases hp : evalPos c fuel st4 prev with
                        | fail e => rw [hp] at h; cases h
                        | ok pr4 =>
                          obtain ⟨pp, st5⟩ := pr4
                          rw [hp] at h; dsimp only at h
                          have hS5 : StampInv st5 := ihP _ _ _ _ hS4 hp
                          unfold finishCons at h
                          cases h
                          exact stampInsertCons
                            (stampCongr (by simp) (by simp) (by simp) (by simp) (by simp) hS5)
                            (Nat.le_refl _)
                | padded t b l r =>
                  rw [hl] at h; dsimp only at h
                  unfold finishCons at h
                  cases h
                  exact stampInsertCons
                    (stampCongr (by simp) (by simp) (by simp) (by simp) (by simp) hS2)
                    (Nat.le_refl _)
                | centered =>
                  rw [hl] at h; dsimp only at h
                  unfold finishCons at h
                  cases h
                  exact stampInsertCons
                    (stampCongr (by simp) (by simp) (by simp) (by simp) (by simp) hS2)
                    (Nat.le_refl _)
                | dynBox sid =>
                  rw [hl] at h; dsimp only at h
                  unfold finishCons at h
                  cases h
                  exact stampInsertCons
                    (stampCongr (by simp) (by simp) (by simp) (by simp) (by simp) hS2)
                    (Nat.le_refl _)
                | sizedBox s =>
                  rw [hl] at h; dsimp only at h
                  unfold finishCons at h
                  cases h
                  exact stampInsertCons
                    (stampCongr (by simp) (by simp) (by simp) (by simp) (by simp) hS2)
                    (Nat.le_refl _)
                | selfLoop =>
                  rw [hl] at h; dsimp only at h
                  unfold finishCons at h
                  cases h
                  exact stampInsertCons
                    (stampCongr (by simp) (by simp) (by simp) (by simp) (by simp) hS2)
                    (Nat.le_refl _)

theorem cacheInvInit (c : Ctx) (sig : List SizeV) : CacheInv c (initSt sig) := by
  refine ⟨?_, ?_, ?_, ?_⟩
  · intro n e ha hle; simp [initSt, alook] at ha
  · intro n e ha hle; simp [initSt, alook] at ha
  · intro n e ha hle; simp [initSt, alook] at ha
  · intro p k e ha hle; simp [initSt, alook] at ha

theorem stampInvInit (sig : List SizeV) : StampInv (initSt sig) := by
  refine ⟨?_, ?_, ?_, ?_⟩
  · intro n e ha; simp [initSt, alook] at ha
  · intro n e ha; simp [initSt, alook] at ha
  · intro n e ha; simp [initSt, alook] at ha
  · intro p k e ha; simp [initSt, alook] at ha

/-- One step of the `invalidate` loop preserves both cache soundness and the
stamp bound: on the early-cutoff branch the re-inserted entry holds the
recomputed (hence from-scratch) value, on the change branch the state is the
one the recomputation itself produced. -/
theorem processOneParentFull {c : Ctx} {fuel : Nat} {st : St} {p : QueryDep}
    {st1 : St} {flag : Option QueryDep}
    (hI : CacheInv c st) (hS : StampInv st)
    (h : processOneParent c fuel st p = .ok (st1, flag)) :
    CacheInv c st1 ∧ StampInv st1 := by
  cases p with
  | nodePosition np =>
    rw [processOneParent] at h
    cases ha : alook st.posCache np with
    | none => rw [ha] at h; cases h
    | some old =>
      rw [ha] at h; dsimp only at h
      cases hq : evalPos c fuel st np with
      | fail e => rw [hq] at h; cases h
      | ok pr =>
        obtain ⟨nv, stE⟩ := pr
        rw [hq] at h; dsimp only at h
        obtain ⟨hP, hIE⟩ := (evalSound c fuel).2.1 _ _ _ _ hI hq
        have hSE : StampInv stE := (evalStampSound c fuel).2.1 _ _ _ _ hS hq
        by_cases he : nv = old.value
        · rw [if_pos he] at h
          cases h
          refine ⟨?_, stampInsertPos hSE (Nat.le_refl _)⟩
          refine invInsertPos hIE ?_
          rw [(evalPosFrame hq).2.1]
          exact hP
        · rw [if_neg he] at h
          cases h
          exact ⟨hIE, hSE⟩
  | nodeConstraints np =>
    rw [processOneParent] at h
    cases ha : alook st.consCache np with
    | none => rw [ha] at h; cases h
    | some old =>
      rw [ha] at h; dsimp only at h
      cases hq : evalCons c fuel st np with
      | fail e => rw [hq] at h; cases h
      | ok pr =>
        obtain ⟨nv, stE⟩ := pr
        rw [hq] at h; dsimp only at h
        obtain ⟨hP, hIE⟩ := (evalSound c fuel).2.2 _ _ _ _ hI hq
        have hSE : StampInv stE := (evalStampSound c fuel).2.2 _ _ _ _ hS hq
        by_cases he : nv = old.value
        · rw [if_pos he] at h
          cases h
          refine ⟨?_, stampInsertCons hSE (Nat.le_refl _)⟩
          refine invInsertCons hIE ?_
          rw [(evalConsFrame hq).2.1]
          exact hP
        · rw [if_neg he] at h
          cases h
          exact ⟨hIE, hSE⟩
  | nodeSize np =>
    rw [processOneParent] at h
    cases ha : alook st.sizeCache np with
    | none => rw [ha] at h; cases h
    | some old =>
      rw [ha] at h; dsimp only at h
      cases hq : evalSize c fuel st np with
      | fail e => rw [hq] at h; cases h
      | ok pr =>
        obtain ⟨nv, stE⟩ := pr
        rw [hq] at h; dsimp only at h
        obtain ⟨hP, hIE⟩ := (evalSound c fuel).1 _ _ _ _ hI hq
        have hSE : StampInv stE := (evalStampSound c fuel).1 _ _ _ _ hS hq
        by_cases he : nv = old.value
        · rw [if_pos he] at h
          cases h
          refine ⟨?_, stampInsertSize hSE (Nat.le_refl _)⟩
          refine invInsertSize hIE ?_
          rw [(evalSizeFrame hq).2.1]
          exact hP
        · rw [if_neg he] at h
          cases h
          exact ⟨hIE, hSE⟩
  | nthChild np nk =>
    rw [processOneParent] at h
    cases ha : alook st.nthCache (np, nk) with
    | none => rw [ha] at h; cases h
    | some old =>
      rw [ha] at h; dsimp only at h
      cases hq : evalNth c fuel st np nk with
      | fail e => rw [hq] at h; cases h
      | ok pr =>
        obtain ⟨nv, stE⟩ := pr
        rw [hq] at h; dsimp only at h
        obtain ⟨hP, hIE⟩ := evalNthSound hI hq
        have hSE : StampInv stE := evalNthStamp hS hq
        by_cases he : nv = old.value
        · rw [if_pos he] at h
          cases h
          exact ⟨invInsertNth hIE hP, stampInsertNth hSE (Nat.le_refl _)⟩
        · rw [if_neg he] at h
          cases h
          exact ⟨hIE, hSE⟩
  | signal sid =>
    rw [processOneParent] at h
    cases h

theorem processParentsFull {c : Ctx} {fuel : Nat} {ps : List QueryDep} :
    ∀ {st st2 : St} {toInv : List QueryDep},
      CacheInv c st → StampInv st →
      processParents c fuel st ps = .ok (st2, toInv) →
      CacheInv c st2 ∧ StampInv st2 := by
  induction ps with
  | nil =>
    intro st st2 toInv hI hS h
    rw [processParents] at h
    cases h
    exact ⟨hI, hS⟩
  | cons p rest ih =>
    intro st st2 toInv hI hS h
    rw [processParents] at h
    cases h1 : processOneParent c fuel st p with
    | fail e => rw [h1] at h; cases h
    | ok pr =>
      obtain ⟨stA, flag⟩ := pr
      rw [h1] at h; dsimp only at h
      obtain ⟨hIA, hSA⟩ := processOneParentFull hI hS h1
      cases h2 : processParents c fuel stA rest with
      | fail e => rw [h2] at h; cases h
      | ok pr2 =>
        obtain ⟨stB, ti⟩ := pr2
        rw [h2] at h; dsimp only at h
        cases h
        exact ih hIA hSA h2

theorem invalidateGoFull {c : Ctx} :
    ∀ {fuel : Nat} {st : St} {work : List QueryDep} {st2 : St},
      CacheInv c st → StampInv st →
      invalidateGo c fuel st work = .ok st2 →
      CacheInv c st2 ∧ StampInv st2 := by
  intro fuel
  induction fuel with
  | zero =>
    intro st work st2 hI hS h
    cases work with
    | nil => rw [invalidateGo] at h; cases h; exact ⟨hI, hS⟩
    | cons q rest => rw [invalidateGo] at h; cases h
  | succ fuel ih =>
    intro st work st2 hI hS h
    cases work with
    | nil => rw [invalidateGo] at h; cases h; exact ⟨hI, hS⟩
    | cons q rest =>
      rw [invalidateGo] at h
      by_cases hq : q ∈ st.depNodes
      · rw [if_pos hq] at h
        cases hp : processParents c fuel st (parentsOf st q) with
        | fail e => rw [hp] at h; cases h
        | ok pr =>
          obtain ⟨stA, toInv⟩ := pr
          rw [hp] at h; dsimp only at h
          obtain ⟨hIA, hSA⟩ := processParentsFull hI hS hp
          exact ih hIA hSA h
      · rw [if_neg hq] at h; cases h

/-- `set(signal, v)` preserves cache soundness: the revision bump makes every
existing entry stale (by the stamp bound), so the invariant holds vacuously at
the new signal values, and the invalidation pass maintains it from there. -/
theorem setSignalFull {c : Ctx} {fuel : Nat} {st : St} {sid : Nat} {v : SizeV}
    {st2 : St}
    (hI : CacheInv c st) (hS : StampInv st)
    (h : setSignal c fuel st sid v = .ok st2) :
    CacheInv c st2 ∧ StampInv st2 := by
  rw [setSignal] at h
  by_cases hlt : sid < st.signals.length
  · rw [if_pos hlt] at h
    dsimp only at h
    refine invalidateGoFull ?_ ?_ h
    · refine ⟨?_, ?_, ?_, ?_⟩
      · intro n e ha hle
        exact (Nat.not_succ_le_self st.revision
          (Nat.le_trans hle (hS.1 n e ha))).elim
      · intro n e ha hle
        exact (Nat.not_succ_le_self st.revision
          (Nat.le_trans hle (hS.2.1 n e ha))).elim
      · intro n e ha hle
        exact (Nat.not_succ_le_self st.revision
          (Nat.le_trans hle (hS.2.2.1 n e ha))).elim
      · intro p k e ha hle
        exact (Nat.not_succ_le_self st.revision
          (Nat.le_trans hle (hS.2.2.2 p k e ha))).elim
    · refine ⟨?_, ?_, ?_, ?_⟩
      · intro n e ha; exact Nat.le_trans (hS.1 n e ha) (Nat.le_succ _)
      · intro n e ha; exact Nat.le_trans (hS.2.1 n e ha) (Nat.le_succ _)
      · intro n e ha; exact Nat.le_trans (hS.2.2.1 n e ha) (Nat.le_succ _)
      · intro p k e ha; exact Nat.le_trans (hS.2.2.2 p k e ha) (Nat.le_succ _)
  · rw [if_neg hlt] at h; cases h

/-- `evaluate(q)` for an arbitrary query identity returns the from-scratch
value and preserves both invariants. -/
theorem evalAnyFull {c : Ctx} {fuel : Nat} {st : St} {q : QueryDep} {v : Val}
    {st' : St}
    (hI : CacheInv c st) (hS : StampInv st)
    (h : evalAny c fuel st q = .ok (v, st')) :
    PAny c st.signals q v ∧ CacheInv c st' ∧ StampInv st' := by
  cases q with
  | nodeSize n =>
    rw [evalAny] at h
    cases hq : evalSize c fuel st n with
    | fail e => rw [hq] at h; cases h
    | ok pr =>
      obtain ⟨s, stE⟩ := pr
      rw [hq] at h; dsimp only at h
      cases h
      obtain ⟨hP, hIE⟩ := (evalSound c fuel).1 _ _ _ _ hI hq
      have hSE := (evalStampSound c fuel).1 _ _ _ _ hS hq
      obtain ⟨f, hf⟩ := hP
      exact ⟨⟨f, by rw [pany]; rw [hf]⟩, hIE, hSE⟩
  | nodePosition n =>
    rw [evalAny] at h
    cases hq : evalPos c fuel st n with
    | fail e => rw [hq] at h; cases h
    | ok pr =>
      obtain ⟨s, stE⟩ := pr
      rw [hq] at h; dsimp only at h
      cases h
      obtain ⟨hP, hIE⟩ := (evalSound c fuel).2.1 _ _ _ _ hI hq
      have hSE := (evalStampSound c fuel).2.1 _ _ _ _ hS hq
      obtain ⟨f, hf⟩ := hP
      exact ⟨⟨f, by rw [pany]; rw [hf]⟩, hIE, hSE⟩
  | nodeConstraints n =>
    rw [evalAny] at h
    cases hq : evalCons c fuel st n with
    | fail e => rw [hq] at h; cases h
    | ok pr =>
      obtain ⟨s, stE⟩ := pr
      rw [hq] at h; dsimp only at h
      cases h
      obtain ⟨hP, hIE⟩ := (evalSound c fuel).2.2 _ _ _ _ hI hq
      have hSE := (evalStampSound c fuel).2.2 _ _ _ _ hS hq
      obtain ⟨f, hf⟩ := hP
      exact ⟨⟨f, by rw [pany]; rw [hf]⟩, hIE, hSE⟩
  | nthChild p k =>
    rw [evalAny] at h
    cases hq : evalNth c fuel st p k with
    | fail e => rw [hq] at h; cases h
    | ok pr =>
      obtain ⟨m, stE⟩ := pr
      rw [hq] at h; dsimp only at h
      cases h
      obtain ⟨hP, hIE⟩ := evalNthSound hI hq
      have hSE := evalNthStamp hS hq
      obtain ⟨f, hf⟩ := hP
      exact ⟨⟨f, by rw [pany]; rw [hf]⟩, hIE, hSE⟩
  | signal sid =>
    rw [evalAny] at h
    cases hq : getSignal st sid with
    | fail e => rw [hq] at h; cases h
    | ok pr =>
      obtain ⟨sv, stE⟩ := pr
      rw [hq] at h; dsimp only at h
      cases h
      obtain ⟨hsv, hIE⟩ := getSignalSound hI hq
      have hSE := getSignalStamp hS hq
      exact ⟨⟨0, by rw [pany]; rw [hsv]⟩, hIE, hSE⟩

theorem runOpsFull {c : Ctx} {fuel : Nat} {ops : List Op} :
    ∀ {st stF : St}, CacheInv c st → StampInv st →
      runOps c fuel st ops = .ok stF →
      CacheInv c stF ∧ StampInv stF := by
  induction ops with
  | nil =>
    intro st stF hI hS h
    rw [runOps] at h
    cases h
    exact ⟨hI, hS⟩
  | cons op rest ih =>
    intro st stF hI hS h
    cases op with
    | setS sid v =>
      rw [runOps] at h
      cases h1 : setSignal c fuel st sid v with
      | fail e => rw [h1] at h; cases h
      | ok stA =>
        rw [h1] at h; dsimp only at h
        obtain ⟨hIA, hSA⟩ := setSignalFull hI hS h1
        exact ih hIA hSA h
    | evalQ q =>
      rw [runOps] at h
      cases h1 : evalAny c fuel st q with
      | fail e => rw [h1] at h; cases h
      | ok pr =>
        obtain ⟨v, stA⟩ := pr
        rw [h1] at h; dsimp only at h
        obtain ⟨-, hIA, hSA⟩ := evalAnyFull hI hS h1
        exact ih hIA hSA h

/-- The from-scratch value of an arbitrary query is unique. -/
theorem panyFun {c : Ctx} {sig : List SizeV} {q : QueryDep} {v w : Val}
    (hv : PAny c sig q v) (hw : PAny c sig q w) : v = w := by
  obtain ⟨f, hf⟩ := hv
  obtain ⟨g, hg⟩ := hw
  cases q with
  | nodeSize n =>
    rw [pany] at hf hg
    cases h1 : psize c sig f n with
    | fail e => rw [h1] at hf; cases hf
    | ok s1 =>
      rw [h1] at hf; cases hf
      cases h2 : psize c sig g n with
      | fail e => rw [h2] at hg; cases hg
      | ok s2 =>
        rw [h2] at hg; cases hg
        rw [psizeFun ⟨f, h1⟩ ⟨g, h2⟩]
  | nodePosition n =>
    rw [pany] at hf hg
    cases h1 : ppos c sig f n with
    | fail e => rw [h1] at hf; cases hf
    | ok s1 =>
      rw [h1] at hf; cases hf
      cases h2 : ppos c sig g n with
      | fail e => rw [h2] at hg; cases hg
      | ok s2 =>
        rw [h2] at hg; cases hg
        rw [pposFun ⟨f, h1⟩ ⟨g, h2⟩]
  | nodeConstraints n =>
    rw [pany] at hf hg
    cases h1 : pcons c sig f n with
    | fail e => rw [h1] at hf; cases hf
    | ok s1 =>
      rw [h1] at hf; cases hf
      cases h2 : pcons c sig g n with
      | fail e => rw [h2] at hg; cases hg
      | ok s2 =>
        rw [h2] at hg; cases hg
        rw [pconsFun ⟨f, h1⟩ ⟨g, h2⟩]
  | nthChild p k =>
    rw [pany] at hf hg
    cases h1 : pnth c f p k with
    | fail e => rw [h1] at hf; cases hf
    | ok s1 =>
      rw [h1] at hf; cases hf
      cases h2 : pnth c g p k with
      | fail e => rw [h2] at hg; cases hg
      | ok s2 =>
        rw [h2] at hg; cases hg
        rw [pnthFun ⟨f, h1⟩ ⟨g, h2⟩]
  | signal sid =>
    rw [pany] at hf hg
    cases h1 : sig[sid]? with
    | none => rw [h1] at hf; cases hf
    | some u =>
      rw [h1] at hf hg
      cases hf
      cases hg
      rfl

/-- C1: Cache correctness — after any sequence of external operations
(signal `set` calls, each incrementing the revision and running invalidation,
interleaved with `evaluate` calls), `evaluate(q)` returns, for every query
`q` of every kind (`NodeSize`, `NodePosition`, `NodeConstraints`, `NthChild`,
and signal reads), exactly the value that a full from-scratch recomputation
with all caches empty and the same tree topology and signal values returns. -/
theorem C1_cache_correctness (c : Ctx) (F G H : Nat) (sig : List SizeV)
    (ops : List Op) (stF : St) (q : QueryDep) (v : Val) (st' : St) (w : Val)
    (hrun : runOps c F (initSt sig) ops = .ok stF)
    (heval : evalAny c G stF q = .ok (v, st'))
    (hscr : pany c stF.signals H q = .ok w) :
    v = w := by
  obtain ⟨hIF, hSF⟩ := runOpsFull (cacheInvInit c sig) (stampInvInit sig) hrun
  obtain ⟨hP, -, -⟩ := evalAnyFull hIF hSF heval
  exact panyFun hP ⟨H, hscr⟩

theorem C1_cache_correctness_witness :
    runOps dynCtx 9 (initSt [⟨100, 100⟩]) c1Ops = .ok c1StF ∧
    evalAny dynCtx 9 c1StF (.nodeSize 0) = .ok (.vSz ⟨110, 100⟩, c1StE) ∧
    pany dynCtx c1StF.signals 3 (.nodeSize 0) = .ok (.vSz ⟨110, 100⟩) ∧
    (Val.vSz ⟨110, 100⟩ : Val) = .vSz ⟨110, 100⟩ := by
  have h1 : runOps dynCtx 9 (initSt [⟨100, 100⟩]) c1Ops = .ok c1StF := rfl
  have h2 : evalAny dynCtx 9 c1StF (.nodeSize 0) = .ok (.vSz ⟨110, 100⟩, c1StE) := rfl
  have h3 : pany dynCtx c1StF.signals 3 (.nodeSize 0) = .ok (.vSz ⟨110, 100⟩) := rfl
  exact ⟨h1, h2, h3,
    C1_cache_correctness dynCtx 9 9 3 [⟨100, 100⟩] c1Ops c1StF (.nodeSize 0)
      (.vSz ⟨110, 100⟩) c1StE (.vSz ⟨110, 100⟩) h1 h2 h3⟩
